import Mathlib

/-!
# realm-core: table references, cluster tree, iterators

Shallow embedding of `src/realm/table_ref.cpp` and of the interface declared in
`src/realm/cluster_tree.hpp`, with the properties stated about them.

Conventions.
* A C++ pointer to a `Table` is an `Option Nat`: `none` is `nullptr`, `some a`
  is the address `a`.  The objects behind the addresses live in a `Heap`.
* A C++ function that may throw returns `Except Exception _`.
* `uint64_t` version counters are natural numbers; the code embedded here only
  compares them, it never does arithmetic on them.
-/

namespace Realm

/-! ## `table_ref.cpp` -/

/-- The exceptions thrown by the embedded code. -/
inductive Exception where
  /-- `realm::LogicError(LogicError::detached_accessor)` -/
  | detached_accessor
  /-- `realm::NoSuchTable()` -/
  | NoSuchTable
  /-- Lookup, erase or position query for a key that is absent. -/
  | KeyNotFound
  /-- Insert of a key that is already present. -/
  | DuplicateKey
  /-- Positional lookup beyond `size`. -/
  | IndexOutOfRange
  deriving DecidableEq, Repr

/-- The part of a `Table` object that `table_ref.cpp` reads. -/
structure Table where
  /-- The value `get_instance_version()` returns. -/
  instance_version : Nat
  deriving DecidableEq, Repr

/-- `Table::get_instance_version()`. -/
def Table.get_instance_version (t : Table) : Nat := t.instance_version

/-- The tables in memory: the object stored at each address. -/
abbrev Heap := Nat → Table

/-- Data members of `ConstTableRef`: `m_table` and `m_instance_version`. -/
structure ConstTableRef where
  m_table : Option Nat
  m_instance_version : Nat
  deriving DecidableEq, Repr

/-- `TableRef` has the data members of `ConstTableRef`, from which it is derived. -/
structure TableRef extends ConstTableRef
  deriving DecidableEq, Repr

/-- `ConstTableRef::ConstTableRef(const Table* t_ptr)`:
`m_table(t_ptr), m_instance_version(t_ptr ? t_ptr->get_instance_version() : 0)`. -/
def ConstTableRef.ctor (h : Heap) (t_ptr : Option Nat) : ConstTableRef :=
  { m_table := t_ptr
    m_instance_version :=
      match t_ptr with
      | some a => (h a).get_instance_version
      | none => 0 }

/-- `ConstTableRef::operator bool()`:
`m_table != nullptr && m_table->get_instance_version() == m_instance_version`. -/
def ConstTableRef.toBool (h : Heap) (r : ConstTableRef) : Bool :=
  match r.m_table with
  | none => false
  | some a => (h a).get_instance_version == r.m_instance_version

/-- `const Table* ConstTableRef::operator->() const`. -/
def ConstTableRef.arrow (h : Heap) (r : ConstTableRef) : Except Exception (Option Nat) :=
  if !r.toBool h then
    throw Exception.detached_accessor
  else
    pure r.m_table

/-- `Table* TableRef::operator->() const`. -/
def TableRef.arrow (h : Heap) (r : TableRef) : Except Exception (Option Nat) :=
  if !r.toConstTableRef.toBool h then
    throw Exception.detached_accessor
  else
    pure r.m_table

/-- `const Table* ConstTableRef::checked() const`. -/
def ConstTableRef.checked (h : Heap) (r : ConstTableRef) : Except Exception (Option Nat) :=
  match r.m_table with
  | none => throw Exception.NoSuchTable
  | some a =>
    if (h a).get_instance_version != r.m_instance_version then
      throw Exception.detached_accessor
    else
      pure r.m_table

/-- `Table* TableRef::checked() const`. -/
def TableRef.checked (h : Heap) (r : TableRef) : Except Exception (Option Nat) :=
  match r.m_table with
  | none => throw Exception.NoSuchTable
  | some a =>
    if (h a).get_instance_version != r.m_instance_version then
      throw Exception.detached_accessor
    else
      pure r.m_table

/-- `const Table* ConstTableRef::checked_or_null() const`. -/
def ConstTableRef.checked_or_null (h : Heap) (r : ConstTableRef) : Option Nat :=
  match r.m_table with
  | none => r.m_table
  | some a =>
    if (h a).get_instance_version != r.m_instance_version then
      none
    else
      r.m_table

/-- `Table* TableRef::checked_or_null() const`. -/
def TableRef.checked_or_null (h : Heap) (r : TableRef) : Option Nat :=
  match r.m_table with
  | none => r.m_table
  | some a =>
    if (h a).get_instance_version != r.m_instance_version then
      none
    else
      r.m_table

/-- `const Table& ConstTableRef::operator*() const`: the result is the object
`*m_table`, identified here by the pointer to it. -/
def ConstTableRef.deref (h : Heap) (r : ConstTableRef) : Except Exception (Option Nat) :=
  if !r.toBool h then
    throw Exception.detached_accessor
  else
    pure r.m_table

/-- `Table& TableRef::operator*() const`. -/
def TableRef.deref (h : Heap) (r : TableRef) : Except Exception (Option Nat) :=
  if !r.toConstTableRef.toBool h then
    throw Exception.detached_accessor
  else
    pure r.m_table

/-- The table behind `r` is gone or replaced: the pointer is null, or the
table's current instance version differs from the captured one. -/
def ConstTableRef.Stale (h : Heap) (r : ConstTableRef) : Prop :=
  r.m_table = none ∨ ∃ a, r.m_table = some a ∧ (h a).get_instance_version ≠ r.m_instance_version

/-! ## `cluster_tree.hpp`: data model

The header declares the interface of `ClusterTree`; the node types `Cluster`
and `ClusterNodeInner`, the allocator and the bodies of the out-of-line member
functions are not part of the sources at hand.  They are modelled from the
specification (sections 3, 4.1 and 8), each such definition saying so.
-/

/-- An object key: a signed 64-bit integer; key order is the order of the tree. -/
abbrev ObjKey := Int

/-- The sentinel for an absent or unresolved key (a default-constructed `ObjKey`). -/
def null_key : ObjKey := -1

/-- A column identifier. -/
abbrev ColKey := Nat

/-- A table identifier. -/
abbrev TableKey := Nat

/-- One field of a row: null, an integer, a link to an object of a table, a
boolean, a float or a double (by its IEEE 754 bit pattern, so that `0.0` is
the pattern 0), a string or a binary blob (by its bytes). -/
inductive Value where
  | null
  | int (n : Int)
  | link (table : TableKey) (key : ObjKey)
  | bool (b : Bool)
  | float (bits : Nat)
  | double (bits : Nat)
  | string (bytes : List Nat)
  | binary (bytes : List Nat)
  deriving DecidableEq, Repr

/-- `FieldValues`: the values of a row, by column. -/
abbrev FieldValues := List (ColKey × Value)

/-- Modelled from the spec: the leaf node `Cluster` (its class is not in the
sources).  It holds a contiguous run of object keys, in key order, each with
the field values stored at the same logical offset; the per-column arrays of
the leaf are read here row by row. -/
abbrev Cluster := List (ObjKey × FieldValues)

/-- Modelled from the spec: the keys a leaf holds, in storage order. -/
def Cluster.keys (rows : Cluster) : List ObjKey := rows.map Prod.fst

/-- Modelled from the spec: lookup of a key in a leaf (`Cluster`, not in the sources). -/
def Cluster.lookup (k : ObjKey) : Cluster → Option FieldValues
  | [] => none
  | (k', v) :: rest => if k' = k then some v else Cluster.lookup k rest

/-- Modelled from the spec: insertion of a row into a leaf at its place in key
order (`Cluster`, not in the sources). -/
def Cluster.insert_row (k : ObjKey) (v : FieldValues) : Cluster → Cluster
  | [] => [(k, v)]
  | (k', v') :: rest =>
    if k < k' then (k, v) :: (k', v') :: rest else (k', v') :: Cluster.insert_row k v rest

/-- Modelled from the spec: removal of the slot of key `k` from a leaf
(`Cluster`, not in the sources). -/
def Cluster.erase_row (k : ObjKey) : Cluster → Cluster
  | [] => []
  | (k', v) :: rest => if k' = k then rest else (k', v) :: Cluster.erase_row k rest

/-- Modelled from the spec: the position of key `k` in a leaf (`Cluster`, not
in the sources). -/
def Cluster.index_of (k : ObjKey) : Cluster → Option Nat
  | [] => none
  | (k', _) :: rest => if k' = k then some 0 else (Cluster.index_of k rest).map (· + 1)

/-- Modelled from the spec: the last (largest) key of a leaf, `null_key` for an
empty leaf (`Cluster`, not in the sources). -/
def Cluster.last_key (rows : Cluster) : ObjKey :=
  match rows.getLast? with
  | some r => r.1
  | none => null_key

/-- Modelled from the spec: the fixed thresholds of the tree shape, constants
that are not in the sources: the largest number of rows of a leaf (and of
children of an inner node), which is at least one, and the minimum occupancy
below which a node is merged or rebalanced with a sibling. -/
structure Thresholds where
  node_capacity : Nat
  min_occupancy : Nat
  /-- A node holds at least one entry. -/
  capacity_pos : 0 < node_capacity

/-- Modelled from the spec: `ClusterNode`, whose classes are not in the sources.
A node is a leaf (`Cluster`) or an inner node (`ClusterNodeInner`) owning an
ordered sequence of (max-key-of-subtree, child) pairs. -/
inductive ClusterNode where
  | leaf (rows : Cluster)
  | inner (children : List (ObjKey × ClusterNode))
  deriving Repr

/-- Modelled from the spec: what an insertion into a node hands to its parent:
the node itself, or the node and the new sibling it split off. -/
inductive InsertResult where
  | single (node : ClusterNode)
  | split (left right : ClusterNode)
  deriving Repr

/-- Modelled from the spec: the maximum key a subtree covers: the last key of a
leaf, the recorded maximum of the last child of an inner node. -/
def ClusterNode.max_key : ClusterNode → ObjKey
  | .leaf rows => Cluster.last_key rows
  | .inner cs =>
    match cs.getLast? with
    | some e => e.1
    | none => null_key

/-- Modelled from the spec: the occupancy of a node, the number of rows of a
leaf or of children of an inner node. -/
def ClusterNode.occupancy : ClusterNode → Nat
  | .leaf rows => rows.length
  | .inner cs => cs.length

/-- Modelled from the spec: the entries a parent records for the result of an
insertion into the child whose recorded maximum is `m`. -/
def InsertResult.entries (m : ObjKey) : InsertResult → List (ObjKey × ClusterNode)
  | .single n => [(m, n)]
  | .split l r => [(l.max_key, l), (m, r)]

/-- Modelled from the spec: "splits choose the midpoint by object count, not by
key value": the number of entries that stay in the left node. -/
def midpoint (n : Nat) : Nat := (n + 1) / 2

/-- Modelled from the spec: insertion into a leaf (`Cluster::insert`, not in
the sources): a key already present fails with `DuplicateKey`; a leaf at
capacity is split at the midpoint. -/
def Cluster.insert (cfg : Thresholds) (k : ObjKey) (v : FieldValues) (rows : Cluster) :
    Except Exception InsertResult :=
  match Cluster.lookup k rows with
  | some _ => .error Exception.DuplicateKey
  | none =>
    if rows.length < cfg.node_capacity then
      .ok (.single (.leaf (Cluster.insert_row k v rows)))
    else
      .ok (.split
        (.leaf ((Cluster.insert_row k v rows).take (midpoint (rows.length + 1))))
        (.leaf ((Cluster.insert_row k v rows).drop (midpoint (rows.length + 1)))))

/-- Modelled from the spec: an inner node that has grown beyond capacity splits
at the midpoint and hands the new sibling upward (`ClusterNodeInner`, not in
the sources). -/
def ClusterNode.split_children (cfg : Thresholds) (cs : List (ObjKey × ClusterNode)) :
    InsertResult :=
  if cs.length ≤ cfg.node_capacity then
    .single (.inner cs)
  else
    .split (.inner (cs.take (midpoint cs.length))) (.inner (cs.drop (midpoint cs.length)))

mutual
/-- Modelled from the spec: `ClusterNode::insert` (not in the sources): descend
the index in key order to the owning leaf, insert there, and propagate a new
sibling upward. -/
def ClusterNode.insert (cfg : Thresholds) (k : ObjKey) (v : FieldValues) :
    ClusterNode → Except Exception InsertResult
  | .leaf rows => Cluster.insert cfg k v rows
  | .inner cs =>
    match ClusterNode.insert_children cfg k v cs with
    | .error e => .error e
    | .ok cs' => .ok (ClusterNode.split_children cfg cs')
/-- Modelled from the spec: the descent step of `ClusterNode::insert` in an
inner node: the first child whose recorded maximum is at least `k` owns the
key; a key beyond every maximum goes to the last child. -/
def ClusterNode.insert_children (cfg : Thresholds) (k : ObjKey) (v : FieldValues) :
    List (ObjKey × ClusterNode) → Except Exception (List (ObjKey × ClusterNode))
  | [] => .ok [(k, .leaf [(k, v)])]
  | (m, c) :: rest =>
    if k ≤ m ∨ rest.isEmpty then
      match c.insert cfg k v with
      | .error e => .error e
      | .ok r => .ok (r.entries (max m k) ++ rest)
    else
      match ClusterNode.insert_children cfg k v rest with
      | .error e => .error e
      | .ok rest' => .ok ((m, c) :: rest')
end

/-- Modelled from the spec: "merging/rebalancing with a sibling": two adjacent
siblings become one node when their entries fit into one node, and share their
entries evenly otherwise (`ClusterNodeInner`, not in the sources). -/
def ClusterNode.merge_siblings (cfg : Thresholds) (m1 : ObjKey) (c1 : ClusterNode)
    (m2 : ObjKey) (c2 : ClusterNode) : List (ObjKey × ClusterNode) :=
  match c1, c2 with
  | .leaf a, .leaf b =>
    if (a ++ b).length ≤ cfg.node_capacity then
      [(m2, .leaf (a ++ b))]
    else
      [(Cluster.last_key ((a ++ b).take (midpoint (a ++ b).length)),
          .leaf ((a ++ b).take (midpoint (a ++ b).length))),
        (m2, .leaf ((a ++ b).drop (midpoint (a ++ b).length)))]
  | .inner a, .inner b =>
    if (a ++ b).length ≤ cfg.node_capacity then
      [(m2, .inner (a ++ b))]
    else
      [((ClusterNode.inner ((a ++ b).take (midpoint (a ++ b).length))).max_key,
          .inner ((a ++ b).take (midpoint (a ++ b).length))),
        (m2, .inner ((a ++ b).drop (midpoint (a ++ b).length)))]
  | _, _ => [(m1, c1), (m2, c2)]

/-- Modelled from the spec: after an erase in child `i`, that child is merged or
rebalanced with a sibling (the next one, the previous one for the last child)
when it has fallen below the minimum occupancy (`ClusterNodeInner`, not in the
sources). -/
def ClusterNode.rebalance (cfg : Thresholds) :
    Nat → List (ObjKey × ClusterNode) → List (ObjKey × ClusterNode)
  | 0, (m1, c1) :: (m2, c2) :: rest =>
    if c1.occupancy < cfg.min_occupancy then
      ClusterNode.merge_siblings cfg m1 c1 m2 c2 ++ rest
    else
      (m1, c1) :: (m2, c2) :: rest
  | 1, [(m1, c1), (m2, c2)] =>
    if c2.occupancy < cfg.min_occupancy then
      ClusterNode.merge_siblings cfg m1 c1 m2 c2
    else
      [(m1, c1), (m2, c2)]
  | i + 1, e :: rest => e :: ClusterNode.rebalance cfg i rest
  | _, cs => cs

mutual
/-- Modelled from the spec: `ClusterNode::erase` (not in the sources): descend
to the owning leaf, remove the slot of the row, and merge or rebalance on the
way up.  The result is the new node and the field values of the erased row. -/
def ClusterNode.erase (cfg : Thresholds) (k : ObjKey) :
    ClusterNode → Except Exception (ClusterNode × FieldValues)
  | .leaf rows =>
    match Cluster.lookup k rows with
    | none => .error Exception.KeyNotFound
    | some v => .ok (.leaf (Cluster.erase_row k rows), v)
  | .inner cs =>
    match ClusterNode.erase_children cfg k cs with
    | .error e => .error e
    | .ok (cs', i, v) => .ok (.inner (ClusterNode.rebalance cfg i cs'), v)
/-- Modelled from the spec: the descent step of `ClusterNode::erase` in an
inner node; the result also names the index of the child erased from. -/
def ClusterNode.erase_children (cfg : Thresholds) (k : ObjKey) :
    List (ObjKey × ClusterNode) →
      Except Exception (List (ObjKey × ClusterNode) × Nat × FieldValues)
  | [] => .error Exception.KeyNotFound
  | (m, c) :: rest =>
    if k ≤ m then
      match c.erase cfg k with
      | .error e => .error e
      | .ok (c', v) => .ok ((m, c') :: rest, 0, v)
    else
      match ClusterNode.erase_children cfg k rest with
      | .error e => .error e
      | .ok (rest', i, v) => .ok ((m, c) :: rest', i + 1, v)
end

mutual
/-- Modelled from the spec: descent by key to the owning leaf and lookup there
(`ClusterNode::get`, not in the sources). -/
def ClusterNode.find (k : ObjKey) : ClusterNode → Option FieldValues
  | .leaf rows => Cluster.lookup k rows
  | .inner cs => ClusterNode.find_children k cs
/-- Modelled from the spec: the descent step of the lookup in an inner node. -/
def ClusterNode.find_children (k : ObjKey) : List (ObjKey × ClusterNode) → Option FieldValues
  | [] => none
  | (m, c) :: rest => if k ≤ m then c.find k else ClusterNode.find_children k rest
end

mutual
/-- Modelled from the spec: the rows of a subtree, leaf after leaf in the order
of the children. -/
def ClusterNode.rows : ClusterNode → Cluster
  | .leaf rows => rows
  | .inner cs => ClusterNode.rows_children cs
/-- Modelled from the spec: the rows below a sequence of children. -/
def ClusterNode.rows_children : List (ObjKey × ClusterNode) → Cluster
  | [] => []
  | (_, c) :: rest => c.rows ++ ClusterNode.rows_children rest
end

mutual
/-- Modelled from the spec: the object count of a subtree, which position
lookup needs of the left subtrees (`ClusterNode::get_tree_size`, not in the
sources). -/
def ClusterNode.get_tree_size : ClusterNode → Nat
  | .leaf rows => rows.length
  | .inner cs => ClusterNode.get_tree_size_children cs
/-- Modelled from the spec: the object count below a sequence of children. -/
def ClusterNode.get_tree_size_children : List (ObjKey × ClusterNode) → Nat
  | [] => 0
  | (_, c) :: rest => c.get_tree_size + ClusterNode.get_tree_size_children rest
end

mutual
/-- Modelled from the spec: the logical index of key `k` in a subtree
(`ClusterNode::get_ndx`, not in the sources). -/
def ClusterNode.get_ndx (k : ObjKey) : ClusterNode → Option Nat
  | .leaf rows => Cluster.index_of k rows
  | .inner cs => ClusterNode.get_ndx_children k cs
/-- Modelled from the spec: the descent step of `get_ndx` in an inner node: the
index in the owning child plus the object counts of the children left of it. -/
def ClusterNode.get_ndx_children (k : ObjKey) : List (ObjKey × ClusterNode) → Option Nat
  | [] => none
  | (m, c) :: rest =>
    if k ≤ m then c.get_ndx k
    else (ClusterNode.get_ndx_children k rest).map (· + c.get_tree_size)
end

mutual
/-- Modelled from the spec: depth-first visit of every leaf in key order, which
stops as soon as the visitor returns `true` (`ClusterNode::traverse`, not in
the sources).  The visitor is a `FunctionRef<bool(const Cluster*)>`; what it
captures is the state `σ`. -/
def ClusterNode.traverse {σ : Type} (func : σ → Cluster → σ × Bool) (s : σ) :
    ClusterNode → σ × Bool
  | .leaf rows => func s rows
  | .inner cs => ClusterNode.traverse_children func s cs
/-- Modelled from the spec: the visit of the children of an inner node, in order. -/
def ClusterNode.traverse_children {σ : Type} (func : σ → Cluster → σ × Bool) (s : σ) :
    List (ObjKey × ClusterNode) → σ × Bool
  | [] => (s, false)
  | (_, c) :: rest =>
    match c.traverse func s with
    | (s', true) => (s', true)
    | (s', false) => ClusterNode.traverse_children func s' rest
end

/-- Modelled from the spec: the version counters of the arena (`Allocator`, not
in the sources): content, storage and instance version. -/
structure Allocator where
  m_content_version : Nat
  m_storage_version : Nat
  m_instance_version : Nat
  deriving DecidableEq, Repr

/-- Modelled from the spec: `Allocator::bump_content_version` (not in the sources). -/
def Allocator.bump_content_version (a : Allocator) : Allocator :=
  { a with m_content_version := a.m_content_version + 1 }

/-- Modelled from the spec: `Allocator::bump_storage_version` (not in the sources). -/
def Allocator.bump_storage_version (a : Allocator) : Allocator :=
  { a with m_storage_version := a.m_storage_version + 1 }

/-- Modelled from the spec: `Allocator::get_content_version` (not in the sources). -/
def Allocator.get_content_version (a : Allocator) : Nat := a.m_content_version

/-- Modelled from the spec: `Allocator::get_instance_version` (not in the sources). -/
def Allocator.get_instance_version (a : Allocator) : Nat := a.m_instance_version

/-- Data members of `ClusterTree`: `m_alloc`, `m_root` and `m_size` (the owner
pointer `m_owner` plays no part here). -/
structure ClusterTree where
  m_alloc : Allocator
  m_root : ClusterNode
  m_size : Nat
  deriving Repr

/-- Modelled from the spec: a row handle `Obj` / `ConstObj` (not in the
sources): a non-owning view bound to a key and to the content and instance
version observed at construction. -/
structure Obj where
  m_key : ObjKey
  m_content_version : Nat
  m_instance_version : Nat
  deriving DecidableEq, Repr

/-- Modelled from the spec: `CascadeState` (not in the sources): the set of
(table, key) pairs pending deletion, the outgoing links (column and target)
that erase operations recorded for the caller to resolve, and the flag saying
that links are nullified rather than cascade-deleted. -/
structure CascadeState where
  m_to_be_deleted : List (TableKey × ObjKey)
  m_links : List (ColKey × TableKey × ObjKey)
  m_nullify_only : Bool
  deriving DecidableEq, Repr

/-- Modelled from the spec: the outgoing links of a row, by column. -/
def outgoing_links : FieldValues → List (ColKey × TableKey × ObjKey)
  | [] => []
  | (col, .link t k) :: rest => (col, t, k) :: outgoing_links rest
  | _ :: rest => outgoing_links rest

/-- Modelled from the spec: recording the outgoing links of an erased row into
the cascade state. -/
def CascadeState.record (state : CascadeState) (row : FieldValues) : CascadeState :=
  { state with m_links := state.m_links ++ outgoing_links row }

/-- `size_t ClusterTree::size() const noexcept`. -/
def ClusterTree.size (t : ClusterTree) : Nat := t.m_size

/-- `bool ClusterTree::is_empty() const noexcept`. -/
def ClusterTree.is_empty (t : ClusterTree) : Bool := t.size == 0

/-- `uint64_t ClusterTree::bump_content_version()`: the tree after the call and
the value returned. -/
def ClusterTree.bump_content_version (t : ClusterTree) : ClusterTree × Nat :=
  ({ t with m_alloc := t.m_alloc.bump_content_version },
    t.m_alloc.bump_content_version.get_content_version)

/-- `void ClusterTree::bump_storage_version()`. -/
def ClusterTree.bump_storage_version (t : ClusterTree) : ClusterTree :=
  { t with m_alloc := t.m_alloc.bump_storage_version }

/-- `uint64_t ClusterTree::get_content_version() const`. -/
def ClusterTree.get_content_version (t : ClusterTree) : Nat := t.m_alloc.get_content_version

/-- `uint64_t ClusterTree::get_instance_version() const`. -/
def ClusterTree.get_instance_version (t : ClusterTree) : Nat := t.m_alloc.get_instance_version

/-- Modelled from the spec: the constructor `ClusterTree::ClusterTree` (not in
the sources) for a table without objects: the root is an empty leaf. -/
def ClusterTree.create (alloc : Allocator) : ClusterTree :=
  { m_alloc := alloc, m_root := .leaf [], m_size := 0 }

/-- Modelled from the spec: `ClusterTree::insert_fast` (declared in the header,
its body is not in the sources): insert into the root, allocate a new root when
the root splits, increment `m_size`, bump the storage version. -/
def ClusterTree.insert_fast (cfg : Thresholds) (t : ClusterTree) (k : ObjKey)
    (init_values : FieldValues) : Except Exception ClusterTree :=
  match t.m_root.insert cfg k init_values with
  | .error e => .error e
  | .ok (.single n) =>
    .ok { (t.bump_storage_version) with m_root := n, m_size := t.m_size + 1 }
  | .ok (.split l r) =>
    .ok { (t.bump_storage_version) with
          m_root := .inner (InsertResult.entries (max t.m_root.max_key k) (.split l r))
          m_size := t.m_size + 1 }

/-- Modelled from the spec: `ClusterTree::insert` (declared in the header, its
body is not in the sources): `insert_fast`, then a handle bound to the new key. -/
def ClusterTree.insert (cfg : Thresholds) (t : ClusterTree) (k : ObjKey)
    (init_values : FieldValues) : Except Exception (ClusterTree × Obj) :=
  match t.insert_fast cfg k init_values with
  | .error e => .error e
  | .ok t' => .ok (t', ⟨k, t'.get_content_version, t'.get_instance_version⟩)

/-- Modelled from the spec: "shrinking the tree's height if the root becomes a
single child". -/
def ClusterNode.collapse_root : ClusterNode → ClusterNode
  | .inner [(_, c)] => c
  | n => n

/-- Modelled from the spec: `ClusterTree::erase` (declared in the header, its
body is not in the sources): erase from the root, shrink the height, decrement
`m_size`, and record the outgoing links of the erased row in `state`. -/
def ClusterTree.erase (cfg : Thresholds) (t : ClusterTree) (k : ObjKey)
    (state : CascadeState) : Except Exception (ClusterTree × CascadeState) :=
  match t.m_root.erase cfg k with
  | .error e => .error e
  | .ok (n, row) =>
    .ok ({ (t.bump_content_version.1.bump_storage_version) with
            m_root := n.collapse_root, m_size := t.m_size - 1 },
      state.record row)

/-- Modelled from the spec: `ClusterTree::is_valid` (declared in the header,
its body is not in the sources): existence probe, never throws. -/
def ClusterTree.is_valid (t : ClusterTree) (k : ObjKey) : Bool :=
  (t.m_root.find k).isSome

/-- Modelled from the spec: `ClusterTree::get(ObjKey)` (declared in the header,
its body is not in the sources): a handle for the row, `KeyNotFound` for an
absent key. -/
def ClusterTree.get (t : ClusterTree) (k : ObjKey) : Except Exception Obj :=
  match t.m_root.find k with
  | none => .error Exception.KeyNotFound
  | some _ => .ok ⟨k, t.get_content_version, t.get_instance_version⟩

/-- Modelled from the spec: reading the fields through a row handle (`Obj`, not
in the sources): a handle of another instance version is detached; otherwise
the row is located by its key in the current tree. -/
def Obj.get_fields (o : Obj) (t : ClusterTree) : Except Exception FieldValues :=
  if t.get_instance_version ≠ o.m_instance_version then
    .error Exception.detached_accessor
  else
    match t.m_root.find o.m_key with
    | none => .error Exception.KeyNotFound
    | some v => .ok v

/-- Modelled from the spec: `ClusterTree::get_ndx` (declared in the header, its
body is not in the sources): the logical index of a key, `KeyNotFound` if absent. -/
def ClusterTree.get_ndx (t : ClusterTree) (k : ObjKey) : Except Exception Nat :=
  match t.m_root.get_ndx k with
  | none => .error Exception.KeyNotFound
  | some i => .ok i

/-- Modelled from the spec: `ClusterTree::traverse` (declared in the header,
its body is not in the sources): visit the leaves in key order until the
visitor returns `true`; the result says whether it did. -/
def ClusterTree.traverse {σ : Type} (t : ClusterTree) (func : σ → Cluster → σ × Bool)
    (s : σ) : σ × Bool :=
  t.m_root.traverse func s

/-- Modelled from the spec: `ClusterTree::clear` (declared in the header, its
body is not in the sources): record the outgoing links of every object, then
replace the root by an empty leaf; `m_size` becomes 0. -/
def ClusterTree.clear (t : ClusterTree) (state : CascadeState) :
    ClusterTree × CascadeState :=
  ({ (t.bump_content_version.1.bump_storage_version) with m_root := .leaf [], m_size := 0 },
    t.m_root.rows.foldl (fun s r => s.record r.2) state)

/-- A visitor for `traverse` that appends the keys of each leaf it is shown and
never asks to stop. -/
def collect_keys (acc : List ObjKey) (leaf : Cluster) : List ObjKey × Bool :=
  (acc ++ Cluster.keys leaf, false)

/-- The keys `traverse` visits, in the order of the visit. -/
def ClusterTree.visited_keys (t : ClusterTree) : List ObjKey :=
  (t.traverse collect_keys []).1

mutual
/-- The key order invariant of a subtree between the bounds `lo` (exclusive)
and `hi` (inclusive): the keys of a leaf increase strictly; the recorded maxima
of an inner node increase strictly, and every key of child `i` is at most its
recorded maximum and above the previous child's maximum. -/
def ClusterNode.Ordered : ClusterNode → WithBot ObjKey → WithTop ObjKey → Prop
  | .leaf rows, lo, hi =>
    (Cluster.keys rows).Pairwise (· < ·) ∧
      ∀ k ∈ Cluster.keys rows, lo < (k : WithBot ObjKey) ∧ (k : WithTop ObjKey) ≤ hi
  | .inner cs, lo, hi => ClusterNode.OrderedChildren cs lo hi
/-- The key order invariant of a sequence of children. -/
def ClusterNode.OrderedChildren :
    List (ObjKey × ClusterNode) → WithBot ObjKey → WithTop ObjKey → Prop
  | [], _, _ => True
  | (m, c) :: rest, lo, hi =>
    lo < (m : WithBot ObjKey) ∧ (m : WithTop ObjKey) ≤ hi ∧
      ClusterNode.Ordered c lo m ∧ ClusterNode.OrderedChildren rest m hi
end

/-- The rows an insertion result holds, in order. -/
def InsertResult.rows : InsertResult → Cluster
  | .single n => n.rows
  | .split l r => l.rows ++ r.rows

/-- The key order invariant of an insertion result between the bounds `lo` and
`hi`: for a split the maximum key of the left node separates the two nodes. -/
def InsertResult.Ordered : InsertResult → WithBot ObjKey → WithTop ObjKey → Prop
  | .single n, lo, hi => n.Ordered lo hi
  | .split l r, lo, hi =>
    lo < (l.max_key : WithBot ObjKey) ∧ (l.max_key : WithTop ObjKey) < hi ∧
      l.Ordered lo l.max_key ∧ r.Ordered l.max_key hi

/-- The invariant of a tree: the root satisfies the key order invariant and
`m_size` is the number of rows. -/
def ClusterTree.Valid (t : ClusterTree) : Prop :=
  t.m_root.Ordered ⊥ ⊤ ∧ t.m_size = t.m_root.rows.length

/-- The trees that `insert`, `erase` and `clear` produce from an empty tree. -/
inductive ClusterTree.Reachable (cfg : Thresholds) : ClusterTree → Prop where
  | create (alloc : Allocator) : Reachable cfg (ClusterTree.create alloc)
  | insert {t t' : ClusterTree} {k : ObjKey} {v : FieldValues} {o : Obj} :
      Reachable cfg t → t.insert cfg k v = .ok (t', o) → Reachable cfg t'
  | erase {t t' : ClusterTree} {k : ObjKey} {s s' : CascadeState} :
      Reachable cfg t → t.erase cfg k s = .ok (t', s') → Reachable cfg t'
  | clear {t : ClusterTree} {s : CascadeState} :
      Reachable cfg t → Reachable cfg (t.clear s).1

/-- One mutating call on a tree. -/
inductive Op where
  | insert (k : ObjKey) (v : FieldValues)
  | erase (k : ObjKey)
  deriving DecidableEq, Repr

/-- The tree after a call: a call that fails aborts with no mutation of the
tree, so the tree is the one the call started from. -/
def ClusterTree.apply (cfg : Thresholds) (t : ClusterTree) : Op → ClusterTree
  | .insert k v =>
    match t.insert cfg k v with
    | .ok (t', _) => t'
    | .error _ => t
  | .erase k =>
    match t.erase cfg k ⟨[], [], false⟩ with
    | .ok (t', _) => t'
    | .error _ => t

/-- The tree after a finite sequence of calls. -/
def ClusterTree.run (cfg : Thresholds) (t : ClusterTree) (ops : List Op) : ClusterTree :=
  ops.foldl (ClusterTree.apply cfg) t

/-- What a call does to the sequence of rows, read in key order: an insert of
a new key puts the row at its place, an erase removes the row of the key, and
a call that fails changes nothing. -/
def Op.apply_rows (rows : Cluster) : Op → Cluster
  | .insert k v => if k ∈ Cluster.keys rows then rows else Cluster.insert_row k v rows
  | .erase k => Cluster.erase_row k rows

/-- A tree of five rows in two leaves under one inner node. -/
def example_tree : ClusterTree :=
  { m_alloc := ⟨0, 0, 0⟩
    m_root := .inner [(3, .leaf [(1, []), (2, [(0, .int 7)]), (3, [])]),
                      (5, .leaf [(4, []), (5, [])])]
    m_size := 5 }

/-- Thresholds with node capacity 4 and minimum occupancy 2. -/
def example_thresholds : Thresholds :=
  { node_capacity := 4, min_occupancy := 2, capacity_pos := by decide }

/-! ## Cascade deletion

The link-graph walker is not part of the sources; it is modelled from section
4.2 of the specification. -/

/-- Modelled from the spec: the cascade policy of a link column (the schema
facility is not in the sources). -/
inductive CascadePolicy where
  | strong
  | weak
  deriving DecidableEq, Repr

/-- Modelled from the spec: what the schema collaborator answers for a column
that exists: its cascade policy if it is a link column, and its default value. -/
structure ColumnSpec where
  cascade : Option CascadePolicy
  default_value : Value
  deriving DecidableEq, Repr

/-- Modelled from the spec: the schema collaborator: for a table and a column
identifier, `none` if the column does not exist. -/
abbrev Schema := TableKey → ColKey → Option ColumnSpec

/-- Modelled from the spec: whether a column of a table is a link column of
strong-cascade policy. -/
def Schema.is_strong (schema : Schema) (table : TableKey) (col : ColKey) : Bool :=
  match schema table col with
  | some c => decide (c.cascade = some CascadePolicy.strong)
  | none => false

/-- Modelled from the spec: the state of the cascade walker (not in the
sources): the trees of the tables, by table identifier; the cascade state with
the work-list of pending (table, key) pairs; the dedup set of the pairs already
taken from the work-list; and the log of the structural erases done, in order. -/
structure CascadeWalk where
  trees : List ClusterTree
  state : CascadeState
  visited : List (TableKey × ObjKey)
  erased : List (TableKey × ObjKey)

/-- Modelled from the spec: resolving the links an erase recorded: the target
of a link whose column has strong-cascade policy is appended to the work-list
if it is new, that is neither visited nor pending already. -/
def CascadeWalk.schedule (schema : Schema) (origin : TableKey)
    (visited : List (TableKey × ObjKey)) :
    List (ColKey × TableKey × ObjKey) → List (TableKey × ObjKey) → List (TableKey × ObjKey)
  | [], pending => pending
  | (col, t, k) :: rest, pending =>
    if schema.is_strong origin col = true ∧ (t, k) ∉ visited ∧ (t, k) ∉ pending then
      CascadeWalk.schedule schema origin visited rest (pending ++ [(t, k)])
    else
      CascadeWalk.schedule schema origin visited rest pending

/-- Modelled from the spec: one structural erase of the walker: look up the
owning tree of the table, erase the key there, mark the pair as visited, log
the erase, and append the new outgoing links to the work-list `pending`. -/
def CascadeWalk.erase_object (cfg : Thresholds) (schema : Schema) (w : CascadeWalk)
    (table : TableKey) (k : ObjKey) (pending : List (TableKey × ObjKey)) :
    Except Exception CascadeWalk :=
  match w.trees[table]? with
  | none => .error Exception.NoSuchTable
  | some tree =>
    match tree.erase cfg k { w.state with m_to_be_deleted := pending, m_links := [] } with
    | .error e => .error e
    | .ok (tree', st) =>
      .ok { trees := w.trees.set table tree'
            state :=
              { st with
                m_to_be_deleted :=
                  if st.m_nullify_only then st.m_to_be_deleted
                  else CascadeWalk.schedule schema table ((table, k) :: w.visited)
                    st.m_links st.m_to_be_deleted
                m_links := [] }
            visited := (table, k) :: w.visited
            erased := w.erased ++ [(table, k)] }

/-- Modelled from the spec: one step of the walker: pop one pending pair and
erase it.  A pair that was deleted already, found in the dedup set, is a
no-op, not an error; every failure of the erase (the table has no tree, the
key is absent from the tree) is propagated. -/
def CascadeWalk.step (cfg : Thresholds) (schema : Schema) (w : CascadeWalk) :
    Except Exception CascadeWalk :=
  match w.state.m_to_be_deleted with
  | [] => .ok w
  | (table, k) :: pending =>
    if (table, k) ∈ w.visited then
      .ok { w with state := { w.state with m_to_be_deleted := pending } }
    else
      w.erase_object cfg schema table k pending

/-- Modelled from the spec: the walker: step until the work-list is empty; a
failure of a step ends the walk with that failure.  The loop is bounded by
`fuel`; `.ok none` says the fuel ran out first. -/
def CascadeWalk.run (cfg : Thresholds) (schema : Schema) :
    Nat → CascadeWalk → Except Exception (Option CascadeWalk)
  | 0, w => if w.state.m_to_be_deleted.isEmpty then .ok (some w) else .ok none
  | fuel + 1, w =>
    if w.state.m_to_be_deleted.isEmpty then .ok (some w)
    else
      match w.step cfg schema with
      | .error e => .error e
      | .ok w' => CascadeWalk.run cfg schema fuel w'

/-- Modelled from the spec: erasing an object with cascade: the primary erase
(which fails with `KeyNotFound` for an absent key) produces the initial
work-list, which the walker then works off; a failure of the primary erase or
of the walk is the failure of the call. -/
def erase_cascade (cfg : Thresholds) (schema : Schema) (fuel : Nat) (trees : List ClusterTree)
    (table : TableKey) (k : ObjKey) : Except Exception (Option CascadeWalk) :=
  match (CascadeWalk.mk trees ⟨[], [], false⟩ [] []).erase_object cfg schema table k [] with
  | .error e => .error e
  | .ok w => CascadeWalk.run cfg schema fuel w

/-- The number of links stored in the rows of a leaf. -/
def Cluster.link_count : Cluster → Nat
  | [] => 0
  | (_, v) :: rest => (outgoing_links v).length + Cluster.link_count rest

/-- The number of links stored in the trees of all tables: a bound on the
number of steps of the walker. -/
def total_links : List ClusterTree → Nat
  | [] => 0
  | t :: rest => Cluster.link_count t.m_root.rows + total_links rest

/-! ## `cluster_tree.hpp`: iterators -/

/-- Data members of `ClusterTree::ConstIterator`: the tree referenced
(`m_tree`, by its address), the cached storage version, the cached leaf, the
position in it (`m_state`), the cached instance version, and the key. -/
structure ConstIterator where
  m_tree : Nat
  m_storage_version : Nat
  m_leaf : Cluster
  m_state : Nat
  m_instance_version : Nat
  m_key : ObjKey
  deriving DecidableEq, Repr

/-- Modelled from the spec: `ConstIterator(const ClusterTree& t, ObjKey key)`
(declared in the header, its body is not in the sources): a cursor on tree `t`
with target key `key`; the leaf cache is not loaded, and the cached versions
have the default member initialisers of the header, `uint64_t(-1)`. -/
def ConstIterator.from_key (t : Nat) (key : ObjKey) : ConstIterator :=
  { m_tree := t
    m_storage_version := 2 ^ 64 - 1
    m_leaf := []
    m_state := 0
    m_instance_version := 2 ^ 64 - 1
    m_key := key }

/-- `ConstIterator(const ConstIterator& other) : ConstIterator(other.m_tree, other.m_key)`. -/
def ConstIterator.copy (other : ConstIterator) : ConstIterator :=
  ConstIterator.from_key other.m_tree other.m_key

/-- `ConstIterator& operator=(ConstIterator&& other)`:
`REALM_ASSERT(&m_tree == &other.m_tree); m_key = other.m_key; return *this;`
The result is `none` when the assertion fails. -/
def ConstIterator.assign (self other : ConstIterator) : Option ConstIterator :=
  if self.m_tree = other.m_tree then
    some { self with m_key := other.m_key }
  else
    none

/-- `bool operator!=(const ConstIterator& rhs) const`: `m_key != rhs.m_key`. -/
def ConstIterator.ne (self rhs : ConstIterator) : Bool :=
  self.m_key != rhs.m_key

/-- The object `x` is live in `trees`: its table has a tree, in which its key
is valid. -/
def Live (trees : List ClusterTree) (x : TableKey × ObjKey) : Prop :=
  ∃ t, trees[x.1]? = some t ∧ t.is_valid x.2 = true

/-- The invariant of the walker: the trees satisfy the tree invariant; the
work-list is a set, none of whose members was visited; every erased pair was
visited; no pair was erased twice; no erased object is live; links are
cascade-deleted, not nullified. -/
structure CascadeWalk.Inv (w : CascadeWalk) : Prop where
  trees_valid : ∀ t ∈ w.trees, t.Valid
  pending_nodup : w.state.m_to_be_deleted.Nodup
  pending_new : ∀ x ∈ w.state.m_to_be_deleted, x ∉ w.visited
  erased_visited : ∀ x ∈ w.erased, x ∈ w.visited
  erased_nodup : w.erased.Nodup
  erased_dead : ∀ x ∈ w.erased, ¬ Live w.trees x
  cascade : w.state.m_nullify_only = false

/-- No link of strong-cascade policy dangles: the target of every such link
stored in a row of `trees` is live in `trees`, or is in `visited`. -/
def LinksResolve (schema : Schema) (trees : List ClusterTree)
    (visited : List (TableKey × ObjKey)) : Prop :=
  ∀ (T : TableKey) (tree : ClusterTree) (k : ObjKey) (row : FieldValues) (col : ColKey)
    (t' : TableKey) (k' : ObjKey),
    trees[T]? = some tree → (k, row) ∈ tree.m_root.rows → (col, t', k') ∈ outgoing_links row →
    schema.is_strong T col = true → Live trees (t', k') ∨ (t', k') ∈ visited

/-- The walker meets no failure: every pending object is live, and no link of
strong-cascade policy dangles but for the objects visited. -/
structure CascadeWalk.Linked (schema : Schema) (w : CascadeWalk) : Prop where
  pending_live : ∀ x ∈ w.state.m_to_be_deleted, Live w.trees x
  links : LinksResolve schema w.trees w.visited

/-- The walker has erased `x`, or `x` is pending and still live. -/
def CascadeWalk.Owes (w : CascadeWalk) (x : TableKey × ObjKey) : Prop :=
  x ∈ w.erased ∨ (x ∈ w.state.m_to_be_deleted ∧ Live w.trees x)

/-- The measure that decreases with every step of the walker: the length of
the work-list plus the number of links stored in the trees. -/
def CascadeWalk.measure (w : CascadeWalk) : Nat :=
  w.state.m_to_be_deleted.length + total_links w.trees

/-- How many times the walker erased object `x`: the occurrences of `x` in the
log of the structural erases. -/
def CascadeWalk.times_erased (w : CascadeWalk) (x : TableKey × ObjKey) : Nat :=
  (w.erased.filter (fun y => decide (y = x))).length

/-- A table of two objects that link to each other: 1 → 2 → 1. -/
def cycle_tree : ClusterTree :=
  { m_alloc := ⟨0, 0, 0⟩
    m_root := .leaf [(1, [(0, .link 0 2)]), (2, [(0, .link 0 1)])]
    m_size := 2 }

/-- A schema in which every column is a link column of strong-cascade policy. -/
def cycle_schema : Schema := fun _ _ => some ⟨some CascadePolicy.strong, Value.null⟩

/-- A table whose object 1 holds a link to the absent key 7 and a link to
object 2. -/
def dangling_tree : ClusterTree :=
  { m_alloc := ⟨0, 0, 0⟩
    m_root := .leaf [(1, [(0, .link 0 7), (1, .link 0 2)]), (2, [])]
    m_size := 2 }

/-! ## Columns

`ClusterTree::insert_column` and `ClusterTree::remove_column` are defined in
the header and hand the call to the root node.  The node classes, the column
types and the table of the column tests are not part of the sources; what the
nodes do with the call is modelled from section 4.1 of the specification. -/

/-- Modelled from the spec: the column types of the column tests (`DataType`,
declared in a header that is not in the sources). -/
inductive DataType where
  | type_Int
  | type_Bool
  | type_Float
  | type_Double
  | type_String
  | type_Binary
  deriving DecidableEq, Repr

/-- Modelled from the spec: the default value of a column of a type (the
per-type tables are not in the sources): 0 for an integer, `false` for a
boolean, 0.0 for a float and a double, the empty string, the empty binary. -/
def DataType.default_value : DataType → Value
  | .type_Int => .int 0
  | .type_Bool => .bool false
  | .type_Float => .float 0
  | .type_Double => .double 0
  | .type_String => .string []
  | .type_Binary => .binary []

/-- Modelled from the spec: the value a row holds for a column, `none` if the
row has no slot for the column. -/
def FieldValues.get (col : ColKey) : FieldValues → Option Value
  | [] => none
  | (c, v) :: rest => if c = col then some v else FieldValues.get col rest

/-- Modelled from the spec: what adding a column does to one row of a leaf: the
slot of the column is created and holds the default value. -/
def FieldValues.insert_column (col : ColKey) (default_value : Value) (row : FieldValues) :
    FieldValues :=
  row.filter (fun f => f.1 != col) ++ [(col, default_value)]

/-- Modelled from the spec: what removing a column does to one row of a leaf:
the slot of the column is dropped. -/
def FieldValues.remove_column (col : ColKey) (row : FieldValues) : FieldValues :=
  row.filter (fun f => f.1 != col)

/-- Modelled from the spec: `Cluster::insert_column` (not in the sources): the
leaf grows by the array of the column, with the default value for every
existing row. -/
def Cluster.insert_column (col : ColKey) (default_value : Value) (rows : Cluster) : Cluster :=
  rows.map (fun r => (r.1, FieldValues.insert_column col default_value r.2))

/-- Modelled from the spec: `Cluster::remove_column` (not in the sources): the
leaf shrinks by the array of the column. -/
def Cluster.remove_column (col : ColKey) (rows : Cluster) : Cluster :=
  rows.map (fun r => (r.1, FieldValues.remove_column col r.2))

mutual
/-- Modelled from the spec: `ClusterNode::insert_column` (not in the sources):
the call is propagated to every leaf below the node. -/
def ClusterNode.insert_column (col : ColKey) (default_value : Value) : ClusterNode → ClusterNode
  | .leaf rows => .leaf (Cluster.insert_column col default_value rows)
  | .inner cs => .inner (ClusterNode.insert_column_children col default_value cs)
/-- Modelled from the spec: the propagation of a column insert to the children
of an inner node. -/
def ClusterNode.insert_column_children (col : ColKey) (default_value : Value) :
    List (ObjKey × ClusterNode) → List (ObjKey × ClusterNode)
  | [] => []
  | (m, c) :: rest =>
    (m, c.insert_column col default_value) ::
      ClusterNode.insert_column_children col default_value rest
end

mutual
/-- Modelled from the spec: `ClusterNode::remove_column` (not in the sources):
the call is propagated to every leaf below the node. -/
def ClusterNode.remove_column (col : ColKey) : ClusterNode → ClusterNode
  | .leaf rows => .leaf (Cluster.remove_column col rows)
  | .inner cs => .inner (ClusterNode.remove_column_children col cs)
/-- Modelled from the spec: the propagation of a column removal to the children
of an inner node. -/
def ClusterNode.remove_column_children (col : ColKey) :
    List (ObjKey × ClusterNode) → List (ObjKey × ClusterNode)
  | [] => []
  | (m, c) :: rest => (m, c.remove_column col) :: ClusterNode.remove_column_children col rest
end

/-- `ClusterTree::insert_column`: the call goes to the root.  The header passes
the column only; the default value is what the schema collaborator answers for
the column, and is an argument here. -/
def ClusterTree.insert_column (t : ClusterTree) (col : ColKey) (default_value : Value) :
    ClusterTree :=
  { t with m_root := t.m_root.insert_column col default_value }

/-- `ClusterTree::remove_column`: the call goes to the root. -/
def ClusterTree.remove_column (t : ClusterTree) (col : ColKey) : ClusterTree :=
  { t with m_root := t.m_root.remove_column col }

/-- Modelled from the spec: reading one column through a row handle (`Obj`, not
in the sources): the fields of the row, then the slot of the column. -/
def Obj.get (o : Obj) (t : ClusterTree) (col : ColKey) : Except Exception (Option Value) :=
  match o.get_fields t with
  | .error e => .error e
  | .ok row => .ok (FieldValues.get col row)

/-- Modelled from the spec: the table of the tests `Column*_InitOfEmptyColumn`
(the table class is not in the sources) right before the last `add_column`:
two columns of a type are added, a row is added and set to `v0` and `v1`, the
second column is removed, and a second row is added. -/
def init_of_empty_column_table (type : DataType) (v0 v1 : Value) : ClusterTree :=
  (((((ClusterTree.create ⟨0, 0, 0⟩).insert_column 0 type.default_value).insert_column 1
    type.default_value).apply example_thresholds (.insert 0 [(0, v0), (1, v1)])).remove_column
    1).apply example_thresholds (.insert 1 [(0, type.default_value)])

/-! ## `unicode.cpp`

Conventions of this part.
* A `StringData` that is not null, a `std::string` and a `const char*` array
  are the list of their bytes; a `char` is the byte it holds, a number below
  256, so the conversions between `char` and `unsigned char` are the identity.
* A pointer into a string is the list of the bytes from there to the end;
  advancing the pointer by `n` drops `n` bytes.  Reading an array at an index
  is `getD` with the byte 0 past the end.
* `size_t` arithmetic is arithmetic modulo `2 ^ 64`.
* A loop whose number of iterations is not fixed by its header takes fuel, the
  greatest number of iterations allowed; `none` says that the fuel ran out.
-/

/-- `string_compare_method_t` (declared in `unicode.hpp`, which is not in the
sources): the selectable comparison methods. -/
inductive string_compare_method_t where
  | STRING_COMPARE_CORE
  | STRING_COMPARE_CPP11
  | STRING_COMPARE_CALLBACK
  | STRING_COMPARE_CORE_SIMILAR
  deriving DecidableEq, Repr

/-- `constexpr size_t last_latin_extended_2_unicode = 591`. -/
def last_latin_extended_2_unicode : Nat := 591

/-- The table `upper_lower[last_unicode + 1][2]` of `unicode_case_convert`:
entry `u` holds the upper case and the lower case code point of `u`, 0 where
there is none. -/
def upper_lower : List (Nat × Nat) :=
  [
    (0, 0), (0, 0), (0, 0), (0, 0), (0, 0), (0, 0), (0, 0), (0, 0),
    (0, 0), (0, 0), (0, 0), (0, 0), (0, 0), (0, 0), (0, 0), (0, 0),
    (0, 0), (0, 0), (0, 0), (0, 0), (0, 0), (0, 0), (0, 0), (0, 0),
    (0, 0), (0, 0), (0, 0), (0, 0), (0, 0), (0, 0), (0, 0), (0, 0),
    (0, 0), (0, 0), (0, 0), (0, 0), (0, 0), (0, 0), (0, 0), (0, 0),
    (0, 0), (0, 0), (0, 0), (0, 0), (0, 0), (0, 0), (0, 0), (0, 0),
    (0, 0), (0, 0), (0, 0), (0, 0), (0, 0), (0, 0), (0, 0), (0, 0),
    (0, 0), (0, 0), (0, 0), (0, 0), (0, 0), (0, 0), (0, 0), (0, 0),
    (0, 0), (0, 97), (0, 98), (0, 99), (0, 100), (0, 101), (0, 102), (0, 103),
    (0, 104), (0, 105), (0, 106), (0, 107), (0, 108), (0, 109), (0, 110), (0, 111),
    (0, 112), (0, 113), (0, 114), (0, 115), (0, 116), (0, 117), (0, 118), (0, 119),
    (0, 120), (0, 121), (0, 122), (0, 0), (0, 0), (0, 0), (0, 0), (0, 0),
    (0, 0), (65, 0), (66, 0), (67, 0), (68, 0), (69, 0), (70, 0), (71, 0),
    (72, 0), (73, 0), (74, 0), (75, 0), (76, 0), (77, 0), (78, 0), (79, 0),
    (80, 0), (81, 0), (82, 0), (83, 0), (84, 0), (85, 0), (86, 0), (87, 0),
    (88, 0), (89, 0), (90, 0), (0, 0), (0, 0), (0, 0), (0, 0), (0, 0),
    (0, 0), (0, 0), (0, 0), (0, 0), (0, 0), (0, 0), (0, 0), (0, 0),
    (0, 0), (0, 0), (0, 0), (0, 0), (0, 0), (0, 0), (0, 0), (0, 0),
    (0, 0), (0, 0), (0, 0), (0, 0), (0, 0), (0, 0), (0, 0), (0, 0),
    (0, 0), (0, 0), (0, 0), (0, 0), (0, 0), (0, 0), (0, 0), (0, 0),
    (0, 0), (0, 0), (0, 0), (0, 0), (0, 0), (0, 0), (0, 0), (0, 0),
    (0, 0), (0, 0), (0, 0), (0, 0), (0, 0), (0, 0), (0, 0), (0, 0),
    (0, 0), (0, 0), (0, 0), (0, 0), (0, 0), (924, 0), (0, 0), (0, 0),
    (0, 0), (0, 0), (0, 0), (0, 0), (0, 0), (0, 0), (0, 0), (0, 0),
    (0, 224), (0, 225), (0, 226), (0, 227), (0, 228), (0, 229), (0, 230), (0, 231),
    (0, 232), (0, 233), (0, 234), (0, 235), (0, 236), (0, 237), (0, 238), (0, 239),
    (0, 240), (0, 241), (0, 242), (0, 243), (0, 244), (0, 245), (0, 246), (0, 0),
    (0, 248), (0, 249), (0, 250), (0, 251), (0, 252), (0, 253), (0, 254), (0, 0),
    (192, 0), (193, 0), (194, 0), (195, 0), (196, 0), (197, 0), (198, 0), (199, 0),
    (200, 0), (201, 0), (202, 0), (203, 0), (204, 0), (205, 0), (206, 0), (207, 0),
    (208, 0), (209, 0), (210, 0), (211, 0), (212, 0), (213, 0), (214, 0), (0, 0),
    (216, 0), (217, 0), (218, 0), (219, 0), (220, 0), (221, 0), (222, 0), (376, 0),
    (0, 257), (256, 0), (0, 259), (258, 0), (0, 261), (260, 0), (0, 263), (262, 0),
    (0, 265), (264, 0), (0, 267), (266, 0), (0, 269), (268, 0), (0, 271), (270, 0),
    (0, 273), (272, 0), (0, 275), (274, 0), (0, 277), (276, 0), (0, 279), (278, 0),
    (0, 281), (280, 0), (0, 283), (282, 0), (0, 285), (284, 0), (0, 287), (286, 0),
    (0, 289), (288, 0), (0, 291), (290, 0), (0, 293), (292, 0), (0, 295), (294, 0),
    (0, 297), (296, 0), (0, 299), (298, 0), (0, 301), (300, 0), (0, 303), (302, 0),
    (0, 105), (73, 0), (0, 307), (306, 0), (0, 309), (308, 0), (0, 311), (310, 0),
    (0, 0), (0, 314), (313, 0), (0, 316), (315, 0), (0, 318), (317, 0), (0, 320),
    (319, 0), (0, 322), (321, 0), (0, 324), (323, 0), (0, 326), (325, 0), (0, 328),
    (327, 0), (0, 0), (0, 331), (330, 0), (0, 333), (332, 0), (0, 335), (334, 0),
    (0, 337), (336, 0), (0, 339), (338, 0), (0, 341), (340, 0), (0, 343), (342, 0),
    (0, 345), (344, 0), (0, 347), (346, 0), (0, 349), (348, 0), (0, 351), (350, 0),
    (0, 353), (352, 0), (0, 355), (354, 0), (0, 357), (356, 0), (0, 359), (358, 0),
    (0, 361), (360, 0), (0, 363), (362, 0), (0, 365), (364, 0), (0, 367), (366, 0),
    (0, 369), (368, 0), (0, 371), (370, 0), (0, 373), (372, 0), (0, 375), (374, 0),
    (0, 255), (0, 378), (377, 0), (0, 380), (379, 0), (0, 382), (381, 0), (83, 0),
    (0, 0), (0, 595), (0, 387), (386, 0), (0, 389), (388, 0), (0, 596), (0, 392),
    (391, 0), (0, 598), (0, 599), (0, 396), (395, 0), (0, 0), (0, 477), (0, 601),
    (0, 603), (0, 402), (401, 0), (0, 608), (0, 611), (502, 0), (0, 617), (0, 616),
    (0, 409), (408, 0), (0, 0), (0, 0), (0, 623), (0, 626), (544, 0), (0, 629),
    (0, 417), (416, 0), (0, 419), (418, 0), (0, 421), (420, 0), (0, 640), (0, 424),
    (423, 0), (0, 643), (0, 0), (0, 0), (0, 429), (428, 0), (0, 648), (0, 432),
    (431, 0), (0, 650), (0, 651), (0, 436), (435, 0), (0, 438), (437, 0), (0, 658),
    (0, 441), (440, 0), (0, 0), (0, 0), (0, 445), (444, 0), (0, 0), (503, 0),
    (0, 0), (0, 0), (0, 0), (0, 0), (0, 454), (452, 454), (452, 0), (0, 457),
    (455, 457), (455, 0), (0, 460), (458, 460), (458, 0), (0, 462), (461, 0), (0, 464),
    (463, 0), (0, 466), (465, 0), (0, 468), (467, 0), (0, 470), (469, 0), (0, 472),
    (471, 0), (0, 474), (473, 0), (0, 476), (475, 0), (398, 0), (0, 479), (478, 0),
    (0, 481), (480, 0), (0, 483), (482, 0), (0, 485), (484, 0), (0, 487), (486, 0),
    (0, 489), (488, 0), (0, 491), (490, 0), (0, 493), (492, 0), (0, 495), (494, 0),
    (0, 0), (0, 499), (497, 499), (497, 0), (0, 501), (500, 0), (0, 405), (0, 447),
    (0, 505), (504, 0), (0, 507), (506, 0), (0, 509), (508, 0), (0, 511), (510, 0),
    (0, 513), (512, 0), (0, 515), (514, 0), (0, 517), (516, 0), (0, 519), (518, 0),
    (0, 521), (520, 0), (0, 523), (522, 0), (0, 525), (524, 0), (0, 527), (526, 0),
    (0, 529), (528, 0), (0, 531), (530, 0), (0, 533), (532, 0), (0, 535), (534, 0),
    (0, 537), (536, 0), (0, 539), (538, 0), (0, 541), (540, 0), (0, 543), (542, 0),
    (0, 414), (0, 0), (0, 547), (546, 0), (0, 549), (548, 0), (0, 551), (550, 0),
    (0, 553), (552, 0), (0, 555), (554, 0), (0, 557), (556, 0), (0, 559), (558, 0),
    (0, 561), (560, 0), (0, 563), (562, 0), (0, 0), (0, 0), (0, 0), (0, 0),
    (0, 0), (0, 0), (0, 0), (0, 0), (0, 0), (0, 0), (0, 0), (0, 0),
    (0, 0), (0, 0), (0, 0), (0, 0), (0, 0), (0, 0), (0, 0), (0, 0),
    (0, 0), (0, 0), (0, 0), (0, 0), (0, 0), (0, 0), (0, 0), (0, 0),
    (0, 0), (0, 0), (0, 0), (385, 0), (390, 0), (0, 0), (393, 0), (394, 0),
    (0, 0), (399, 0), (0, 0), (400, 0), (0, 0), (0, 0), (0, 0), (0, 0),
    (403, 0), (0, 0), (0, 0), (404, 0), (0, 0), (0, 0), (0, 0), (0, 0),
    (407, 0), (406, 0), (0, 0), (0, 0), (0, 0), (0, 0), (0, 0), (412, 0),
    (0, 0), (0, 0), (413, 0), (0, 0), (0, 0), (415, 0), (0, 0), (0, 0),
    (0, 0), (0, 0), (0, 0), (0, 0), (0, 0), (0, 0), (0, 0), (0, 0),
    (422, 0), (0, 0), (0, 0), (425, 0), (0, 0), (0, 0), (0, 0), (0, 0),
    (430, 0), (0, 0), (433, 0), (434, 0), (0, 0), (0, 0), (0, 0), (0, 0),
    (0, 0), (0, 0), (439, 0), (0, 0), (0, 0), (0, 0), (0, 0), (0, 0),
    (0, 0), (0, 0), (0, 0), (0, 0), (0, 0), (0, 0), (0, 0), (0, 0),
    (0, 0), (0, 0), (0, 0), (0, 0), (0, 0), (0, 0), (0, 0), (0, 0),
    (0, 0), (0, 0), (0, 0), (0, 0), (0, 0), (0, 0), (0, 0), (0, 0),
    (0, 0), (0, 0), (0, 0), (0, 0), (0, 0), (0, 0), (0, 0), (0, 0),
    (0, 0), (0, 0), (0, 0), (0, 0), (0, 0), (0, 0), (0, 0), (0, 0),
    (0, 0), (0, 0), (0, 0), (0, 0), (0, 0), (0, 0), (0, 0), (0, 0),
    (0, 0), (0, 0), (0, 0), (0, 0), (0, 0), (0, 0), (0, 0), (0, 0),
    (0, 0), (0, 0), (0, 0), (0, 0), (0, 0), (0, 0), (0, 0), (0, 0),
    (0, 0), (0, 0), (0, 0), (0, 0), (0, 0), (0, 0), (0, 0), (0, 0),
    (0, 0), (0, 0), (0, 0), (0, 0), (0, 0), (0, 0), (0, 0), (0, 0),
    (0, 0), (0, 0), (0, 0), (0, 0), (0, 0), (0, 0), (0, 0), (0, 0),
    (0, 0), (0, 0), (0, 0), (0, 0), (0, 0), (0, 0), (0, 0), (0, 0),
    (0, 0), (0, 0), (0, 0), (0, 0), (0, 0), (0, 0), (0, 0), (0, 0),
    (0, 0), (0, 0), (0, 0), (0, 0), (0, 0), (0, 0), (0, 0), (0, 0),
    (0, 0), (0, 0), (0, 0), (0, 0), (0, 0), (0, 0), (0, 0), (0, 0),
    (0, 0), (0, 0), (0, 0), (0, 0), (0, 0), (0, 0), (0, 0), (0, 0),
    (0, 0), (0, 0), (0, 0), (0, 0), (0, 0), (0, 0), (0, 0), (0, 0),
    (0, 0), (0, 0), (0, 0), (0, 0), (0, 0), (0, 0), (0, 0), (0, 0),
    (0, 0), (0, 0), (0, 0), (0, 0), (0, 0), (0, 0), (0, 0), (0, 0),
    (0, 0), (0, 0), (0, 0), (0, 0), (0, 0), (0, 0), (0, 0), (0, 0),
    (0, 0), (0, 0), (0, 0), (0, 0), (0, 0), (0, 0), (0, 0), (0, 0),
    (0, 0), (0, 0), (0, 0), (0, 0), (0, 0), (921, 0), (0, 0), (0, 0),
    (0, 0), (0, 0), (0, 0), (0, 0), (0, 0), (0, 0), (0, 0), (0, 0),
    (0, 0), (0, 0), (0, 0), (0, 0), (0, 0), (0, 0), (0, 0), (0, 0),
    (0, 0), (0, 0), (0, 0), (0, 0), (0, 0), (0, 0), (0, 0), (0, 0),
    (0, 0), (0, 0), (0, 0), (0, 0), (0, 0), (0, 0), (0, 0), (0, 0),
    (0, 0), (0, 0), (0, 0), (0, 0), (0, 0), (0, 0), (0, 0), (0, 0),
    (0, 0), (0, 0), (0, 0), (0, 0), (0, 0), (0, 0), (0, 0), (0, 0),
    (0, 0), (0, 0), (0, 0), (0, 0), (0, 0), (0, 0), (0, 0), (0, 0),
    (0, 0), (0, 0), (0, 0), (0, 0), (0, 0), (0, 0), (0, 940), (0, 0),
    (0, 941), (0, 942), (0, 943), (0, 0), (0, 972), (0, 0), (0, 973), (0, 974),
    (0, 0), (0, 945), (0, 946), (0, 947), (0, 948), (0, 949), (0, 950), (0, 951),
    (0, 952), (0, 953), (0, 954), (0, 955), (0, 956), (0, 957), (0, 958), (0, 959),
    (0, 960), (0, 961), (0, 0), (0, 963), (0, 964), (0, 965), (0, 966), (0, 967),
    (0, 968), (0, 969), (0, 970), (0, 971), (902, 0), (904, 0), (905, 0), (906, 0),
    (0, 0), (913, 0), (914, 0), (915, 0), (916, 0), (917, 0), (918, 0), (919, 0),
    (920, 0), (921, 0), (922, 0), (923, 0), (924, 0), (925, 0), (926, 0), (927, 0),
    (928, 0), (929, 0), (931, 0), (931, 0), (932, 0), (933, 0), (934, 0), (935, 0),
    (936, 0), (937, 0), (938, 0), (939, 0), (908, 0), (910, 0), (911, 0), (0, 0),
    (914, 0), (920, 0), (0, 0), (0, 0), (0, 0), (934, 0), (928, 0), (0, 0),
    (0, 985), (984, 0), (0, 987), (986, 0), (0, 989), (988, 0), (0, 991), (990, 0),
    (0, 993), (992, 0), (0, 995), (994, 0), (0, 997), (996, 0), (0, 999), (998, 0),
    (0, 1001), (1000, 0), (0, 1003), (1002, 0), (0, 1005), (1004, 0), (0, 1007), (1006, 0),
    (922, 0), (929, 0), (1017, 0), (0, 0), (0, 952), (917, 0), (0, 0), (0, 1016),
    (1015, 0), (0, 1010), (0, 1019), (1018, 0), (0, 0), (0, 0), (0, 0), (0, 0)
  ]

/-- `unsigned int unicode_case_convert(unsigned int unicode, bool upper)`. -/
def unicode_case_convert (unicode : Nat) (upper : Bool) : Nat :=
  let last_unicode := 1023
  if unicode > last_unicode then
    unicode
  else
    let converted :=
      if upper then (upper_lower.getD unicode (0, 0)).1 else (upper_lower.getD unicode (0, 0)).2
    if converted = 0 then unicode else converted

/-- The table `lengths[256]` of `sequence_length`. -/
def sequence_length_table : List Nat :=
  [
    1, 1, 1, 1, 1, 1, 1, 1, 1, 1, 1, 1, 1, 1, 1, 1, 1, 1, 1, 1, 1, 1, 1, 1, 1, 1, 1, 1, 1, 1, 1, 1,
    1, 1, 1, 1, 1, 1, 1, 1, 1, 1, 1, 1, 1, 1, 1, 1, 1, 1, 1, 1, 1, 1, 1, 1, 1, 1, 1, 1, 1, 1, 1, 1,
    1, 1, 1, 1, 1, 1, 1, 1, 1, 1, 1, 1, 1, 1, 1, 1, 1, 1, 1, 1, 1, 1, 1, 1, 1, 1, 1, 1, 1, 1, 1, 1,
    1, 1, 1, 1, 1, 1, 1, 1, 1, 1, 1, 1, 1, 1, 1, 1, 1, 1, 1, 1, 1, 1, 1, 1, 1, 1, 1, 1, 1, 1, 1, 1,
    1, 1, 1, 1, 1, 1, 1, 1, 1, 1, 1, 1, 1, 1, 1, 1, 1, 1, 1, 1, 1, 1, 1, 1, 1, 1, 1, 1, 1, 1, 1, 1,
    1, 1, 1, 1, 1, 1, 1, 1, 1, 1, 1, 1, 1, 1, 1, 1, 1, 1, 1, 1, 1, 1, 1, 1, 1, 1, 1, 1, 1, 1, 1, 1,
    2, 2, 2, 2, 2, 2, 2, 2, 2, 2, 2, 2, 2, 2, 2, 2, 2, 2, 2, 2, 2, 2, 2, 2, 2, 2, 2, 2, 2, 2, 2, 2,
    3, 3, 3, 3, 3, 3, 3, 3, 3, 3, 3, 3, 3, 3, 3, 3, 4, 4, 4, 4, 4, 4, 4, 4, 5, 5, 5, 5, 6, 6, 1, 1
  ]

/-- `size_t sequence_length(char lead)`:
`lengths[static_cast<unsigned char>(lead)]`. -/
def sequence_length (lead : Nat) : Nat :=
  sequence_length_table.getD (lead % 256) 0

/-- The loop of `equal_sequence`, from index `i` on: `rest` holds the bytes
`begin[i], begin[i + 1], ...` up to `end`.  The result is `none` for
`return false`, and the final value of `i` otherwise. -/
def equal_sequence_loop (begin2 : List Nat) : List Nat → Nat → Option Nat
  | [], i => some i
  | b :: rest, i =>
    if b &&& (0x80 + 0x40) ≠ 0x80 then
      some i
    else if b ≠ begin2.getD i 0 then
      none
    else
      equal_sequence_loop begin2 rest (i + 1)

/-- `bool equal_sequence(const char*& begin, const char* end, const char* begin2)`.
The result is `none` for `false`, and `some i` for `true` with `begin`
advanced by `i`. -/
def equal_sequence (begin begin2 : List Nat) : Option Nat :=
  if begin.getD 0 0 ≠ begin2.getD 0 0 then
    none
  else if begin.getD 0 0 &&& 0x80 ≠ 0 then
    equal_sequence_loop begin2 (begin.drop 1) 1
  else
    some 1

/-- `uint32_t utf8value(const char* character)`; the arithmetic on `res` is
that of `uint32_t`. -/
def utf8value (character : List Nat) : Nat :=
  let len := sequence_length (character.getD 0 0)
  let res := character.getD 0 0
  if len = 1 then
    res
  else
    (List.range' 1 (len - 1)).foldl
      (fun res i => ((res <<< 6) ||| (character.getD i 0 &&& 0x3f)) % 2 ^ 32)
      (res &&& (0x3f >>> (len - 1)))

/-- The table `collation_order_core_similar` of `utf8_compare`. -/
def collation_order_core_similar : List Nat :=
  [
    0, 1, 2, 3, 4, 5, 6, 7, 8, 456, 457, 458, 459, 460, 9, 10,
    11, 12, 13, 14, 15, 16, 17, 18, 19, 20, 21, 22, 23, 24, 25, 26,
    461, 462, 463, 464, 8130, 465, 466, 467, 468, 469, 470, 471, 472, 473, 474, 475,
    8178, 8248, 8433, 8569, 8690, 8805, 8912, 9002, 9093, 9182, 476, 477, 478, 479, 480, 481,
    482, 9290, 9446, 9511, 9595, 9690, 9818, 9882, 9965, 10051, 10156, 10211, 10342, 10408, 10492, 10588,
    10752, 10828, 10876, 10982, 11080, 11164, 11304, 11374, 11436, 11493, 11561, 483, 484, 485, 486, 487,
    488, 9272, 9428, 9492, 9575, 9671, 9800, 9864, 9947, 10030, 10138, 10193, 10339, 10389, 10474, 10570,
    10734, 10811, 10857, 10964, 11062, 11146, 11285, 11356, 11417, 11476, 11543, 489, 490, 491, 492, 27,
    28, 29, 30, 31, 32, 493, 33, 34, 35, 36, 37, 38, 39, 40, 41, 42,
    43, 44, 45, 46, 47, 48, 49, 50, 51, 52, 53, 54, 55, 56, 57, 58,
    494, 495, 8128, 8133, 8127, 8135, 496, 497, 498, 499, 9308, 500, 501, 59, 502, 503,
    504, 505, 8533, 8669, 506, 12018, 507, 508, 509, 8351, 10606, 510, 8392, 8377, 8679, 511,
    9317, 9315, 9329, 9353, 9348, 9341, 9383, 9545, 9716, 9714, 9720, 9732, 10078, 10076, 10082, 10086,
    9635, 10522, 10615, 10613, 10619, 10640, 10633, 512, 10652, 11190, 11188, 11194, 11202, 11515, 11624, 11038,
    9316, 9314, 9328, 9352, 9345, 9340, 9381, 9543, 9715, 9713, 9719, 9731, 10077, 10075, 10081, 10085,
    9633, 10521, 10614, 10612, 10618, 10639, 10630, 513, 10651, 11189, 11187, 11193, 11199, 11514, 11623, 11521,
    9361, 9360, 9319, 9318, 9359, 9358, 9536, 9535, 9538, 9537, 9542, 9541, 9540, 9539, 9620, 9619,
    9626, 9625, 9744, 9743, 9718, 9717, 9736, 9735, 9742, 9741, 9730, 9729, 9909, 9908, 9907, 9906,
    9913, 9912, 9915, 9914, 9989, 9988, 10000, 9998, 10090, 10089, 10095, 10094, 10080, 10079, 10093, 10092,
    10091, 10120, 10113, 10112, 10180, 10179, 10240, 10239, 10856, 10322, 10321, 10326, 10325, 10324, 10323, 10340,
    10337, 10328, 10327, 10516, 10515, 10526, 10525, 10520, 10519, 11663, 10567, 10566, 10660, 10659, 10617, 10616,
    10638, 10637, 10689, 10688, 10901, 10900, 10907, 10906, 10903, 10902, 11006, 11005, 11010, 11009, 11018, 11017,
    11012, 11011, 11109, 11108, 11104, 11103, 11132, 11131, 11215, 11214, 11221, 11220, 11192, 11191, 11198, 11197,
    11213, 11212, 11219, 11218, 11401, 11400, 11519, 11518, 11522, 11583, 11582, 11589, 11588, 11587, 11586, 11027,
    9477, 9486, 9488, 9487, 11657, 11656, 10708, 9568, 9567, 9662, 9664, 9667, 9666, 11594, 9774, 9779,
    9784, 9860, 9859, 9937, 9943, 10014, 10135, 10129, 10266, 10265, 10363, 10387, 11275, 10554, 10556, 10723,
    10673, 10672, 9946, 9945, 10802, 10801, 10929, 11653, 11652, 11054, 11058, 11136, 11139, 11138, 11141, 11232,
    11231, 11282, 11347, 11537, 11536, 11597, 11596, 11613, 11619, 11618, 11621, 11645, 11655, 11654, 11125, 11629,
    11683, 11684, 11685, 11686, 9654, 9653, 9652, 10345, 10344, 10343, 10541, 10540, 10539, 9339, 9338, 10084,
    10083, 10629, 10628, 11196, 11195, 11211, 11210, 11205, 11204, 11209, 11208, 11207, 11206, 9773, 9351, 9350,
    9357, 9356, 9388, 9387, 9934, 9933, 9911, 9910, 10238, 10237, 10656, 10655, 10658, 10657, 11616, 11615,
    10181, 9651, 9650, 9648, 9905, 9904, 10015, 11630, 10518, 10517, 9344, 9343, 9386, 9385, 10654, 10653,
    9365, 9364, 9367, 9366, 9752, 9751, 9754, 9753, 10099, 10098, 10101, 10100, 10669, 10668, 10671, 10670,
    10911, 10910, 10913, 10912, 11228, 11227, 11230, 11229, 11026, 11025, 11113, 11112, 11542, 11541, 9991, 9990,
    10557, 9668, 10731, 10730, 11601, 11600, 9355, 9354, 9738, 9737, 10636, 10635, 10646, 10645, 10648, 10647,
    10650, 10649, 11528, 11527, 10382, 10563, 11142, 10182, 9641, 10848, 9409, 9563, 9562, 10364, 11134, 11048,
    11606, 11660, 11659, 9478, 11262, 11354, 9769, 9768, 10186, 10185, 10855, 10854, 10936, 10935, 11535, 11534
  ]

/-- The table `collation_order_core` of `utf8_compare`. -/
def collation_order_core : List Nat :=
  [
    0, 2, 3, 4, 5, 6, 7, 8, 9, 33, 34, 35, 36, 37, 10, 11,
    12, 13, 14, 15, 16, 17, 18, 19, 20, 21, 22, 23, 24, 25, 26, 27,
    31, 38, 39, 40, 41, 42, 43, 29, 44, 45, 46, 76, 47, 30, 48, 49,
    128, 132, 134, 137, 139, 140, 143, 144, 145, 146, 50, 51, 77, 78, 79, 52,
    53, 148, 182, 191, 208, 229, 263, 267, 285, 295, 325, 333, 341, 360, 363, 385,
    429, 433, 439, 454, 473, 491, 527, 531, 537, 539, 557, 54, 55, 56, 57, 58,
    59, 147, 181, 190, 207, 228, 262, 266, 284, 294, 324, 332, 340, 359, 362, 384,
    428, 432, 438, 453, 472, 490, 526, 530, 536, 538, 556, 60, 61, 62, 63, 28,
    96, 97, 98, 99, 100, 101, 102, 103, 104, 105, 106, 107, 108, 109, 110, 111,
    112, 113, 114, 115, 116, 117, 118, 119, 120, 121, 122, 123, 124, 125, 126, 127,
    32, 64, 72, 73, 74, 75, 65, 88, 66, 89, 149, 81, 90, 1, 91, 67,
    92, 80, 136, 138, 68, 93, 94, 95, 69, 133, 386, 82, 129, 130, 131, 70,
    153, 151, 157, 165, 575, 588, 570, 201, 233, 231, 237, 239, 300, 298, 303, 305,
    217, 371, 390, 388, 394, 402, 584, 83, 582, 495, 493, 497, 555, 541, 487, 470,
    152, 150, 156, 164, 574, 587, 569, 200, 232, 230, 236, 238, 299, 297, 302, 304,
    216, 370, 389, 387, 393, 401, 583, 84, 581, 494, 492, 496, 554, 540, 486, 544,
    163, 162, 161, 160, 167, 166, 193, 192, 197, 196, 195, 194, 199, 198, 210, 209,
    212, 211, 245, 244, 243, 242, 235, 234, 247, 246, 241, 240, 273, 272, 277, 276,
    271, 270, 279, 278, 287, 286, 291, 290, 313, 312, 311, 310, 309, 308, 315, 314,
    301, 296, 323, 322, 328, 327, 337, 336, 434, 343, 342, 349, 348, 347, 346, 345,
    344, 353, 352, 365, 364, 373, 372, 369, 368, 375, 383, 382, 400, 399, 398, 397,
    586, 585, 425, 424, 442, 441, 446, 445, 444, 443, 456, 455, 458, 457, 462, 461,
    460, 459, 477, 476, 475, 474, 489, 488, 505, 504, 503, 502, 501, 500, 507, 506,
    549, 548, 509, 508, 533, 532, 543, 542, 545, 559, 558, 561, 560, 563, 562, 471,
    183, 185, 187, 186, 189, 188, 206, 205, 204, 226, 215, 214, 213, 218, 257, 258,
    259, 265, 264, 282, 283, 292, 321, 316, 339, 338, 350, 354, 361, 374, 376, 405,
    421, 420, 423, 422, 431, 430, 440, 468, 467, 466, 469, 480, 479, 478, 481, 524,
    523, 525, 528, 553, 552, 565, 564, 571, 579, 578, 580, 135, 142, 141, 589, 534,
    85, 86, 87, 71, 225, 224, 223, 357, 356, 355, 380, 379, 378, 159, 158, 307,
    306, 396, 395, 499, 498, 518, 517, 512, 511, 516, 515, 514, 513, 256, 174, 173,
    170, 169, 573, 572, 281, 280, 275, 274, 335, 334, 404, 403, 415, 414, 577, 576,
    329, 222, 221, 220, 269, 268, 293, 535, 367, 366, 172, 171, 180, 179, 411, 410,
    176, 175, 178, 177, 253, 252, 255, 254, 318, 317, 320, 319, 417, 416, 419, 418,
    450, 449, 452, 451, 520, 519, 522, 521, 464, 463, 483, 482, 261, 260, 289, 288,
    377, 227, 427, 426, 567, 566, 155, 154, 249, 248, 409, 408, 413, 412, 392, 391,
    407, 406, 547, 546, 358, 381, 485, 326, 219, 437, 168, 203, 202, 351, 484, 465,
    568, 591, 590, 184, 510, 529, 251, 250, 331, 330, 436, 435, 448, 447, 551, 550
  ]

/-- The `do ... while (true)` loop of `utf8_compare` for the internal sort
order; `s1` and `s2` are the two pointers. -/
def utf8_compare_core (method : string_compare_method_t) :
    Nat → List Nat → List Nat → Option Bool
  | 0, _, _ => none
  | fuel + 1, s1, s2 =>
    let remaining1 := s1.length
    let remaining2 := s2.length
    if (remaining1 == 0) != (remaining2 == 0) then
      some (remaining1 == 0)
    else if remaining2 == 0 && remaining1 == 0 then
      some false
    else if remaining1 < sequence_length (s1.getD 0 0) ||
        remaining2 < sequence_length (s2.getD 0 0) then
      some false
    else
      let char1 := utf8value s1
      let char2 := utf8value s2
      if char1 = char2 then
        utf8_compare_core method fuel (s1.drop (sequence_length (s1.getD 0 0)))
          (s2.drop (sequence_length (s2.getD 0 0)))
      else if char1 > last_latin_extended_2_unicode ||
          char2 > last_latin_extended_2_unicode then
        some (decide (char1 < char2))
      else
        let internal_collation_order :=
          if method = .STRING_COMPARE_CORE_SIMILAR then collation_order_core_similar
          else collation_order_core
        let value1 := internal_collation_order.getD char1 0
        let value2 := internal_collation_order.getD char2 0
        some (decide (value1 < value2))

/-- The macro `REALM_ASSERT` (defined in a header that is not in the sources):
a condition that is false ends the program, which is `none` here. -/
def REALM_ASSERT (condition : Bool) : Option Unit :=
  if condition then some () else none

/-- `std::wstring utf8_to_wstring(StringData str)`, the branch for compilers
other than MSVC, which goes with the branch of `case_map` for platforms other
than Windows: `REALM_ASSERT(false); return L"";`. -/
def utf8_to_wstring (_str : List Nat) : Option (List Nat) := do
  REALM_ASSERT false
  return []

/-- `bool utf8_compare(StringData string1, StringData string2)`.  The global
`string_compare_method` and the callback are parameters, and so is the
comparison `l(wstring1, wstring2)` of two wide strings in the locale of the
user, which the C++11 method reaches only past `utf8_to_wstring`.  The loop of
the internal sort order consumes at least one byte of `string1` per iteration,
so it gets `string1.size() + 1` iterations; `none` is the fuel running out or
a failed `REALM_ASSERT`. -/
def utf8_compare (method : string_compare_method_t)
    (locale_compare callback : List Nat → List Nat → Bool) (string1 string2 : List Nat) :
    Option Bool :=
  if method = .STRING_COMPARE_CORE ∨ method = .STRING_COMPARE_CORE_SIMILAR then
    utf8_compare_core method (string1.length + 1) string1 string2
  else if method = .STRING_COMPARE_CPP11 then do
    let wstring1 ← utf8_to_wstring string1
    let wstring2 ← utf8_to_wstring string2
    return locale_compare wstring1 wstring2
  else if method = .STRING_COMPARE_CALLBACK then
    some (callback string1 string2)
  else do
    REALM_ASSERT false
    return false

/-- `util::Optional<std::string> case_map(StringData source, bool upper)`, the
branch for platforms other than Windows, which handles the ASCII subset.  The
loops assign `result[i]` for every index `i` of `source`. -/
def case_map (source : List Nat) (upper : Bool) : Option (List Nat) :=
  if upper then
    some (source.map (fun c => if 0x60 < c ∧ c < 0x7B then c - 0x20 else c))
  else
    some (source.map (fun c => if 0x40 < c ∧ c < 0x5B then c + 0x20 else c))

/-- `std::string case_map(StringData source, bool upper, IgnoreErrorsTag)`:
`case_map(source, upper).value_or("")`. -/
def case_map_ignore_errors (source : List Nat) (upper : Bool) : List Nat :=
  (case_map source upper).getD []

/-- The first loop of `equal_case_fold`, the byte compare: whether it runs to
its end without `return false`. -/
def equal_case_fold_bytes (haystack needle_upper needle_lower : List Nat) : Bool :=
  (List.range haystack.length).all (fun i =>
    !(needle_lower.getD i 0 != haystack.getD i 0 && needle_upper.getD i 0 != haystack.getD i 0))

/-- The second loop of `equal_case_fold`, `while (i != end)`, with `i` held as
its offset from `begin`. -/
def equal_case_fold_loop (haystack needle_upper needle_lower : List Nat) :
    Nat → Nat → Option Bool
  | 0, _ => none
  | fuel + 1, i =>
    if i = haystack.length then
      some true
    else
      match equal_sequence (haystack.drop i) (needle_lower.drop i) with
      | some n => equal_case_fold_loop haystack needle_upper needle_lower fuel (i + n)
      | none =>
        match equal_sequence (haystack.drop i) (needle_upper.drop i) with
        | some n => equal_case_fold_loop haystack needle_upper needle_lower fuel (i + n)
        | none => some false

/-- `bool equal_case_fold(StringData haystack, const char* needle_upper,
const char* needle_lower)`.  Every iteration of the second loop advances `i`,
so it gets `haystack.size() + 1` iterations. -/
def equal_case_fold (haystack needle_upper needle_lower : List Nat) : Option Bool :=
  if equal_case_fold_bytes haystack needle_upper needle_lower then
    equal_case_fold_loop haystack needle_upper needle_lower (haystack.length + 1) 0
  else
    some false

/-- `StringData::substr(size_t i, size_t n)` (the class `StringData` is not in
the sources): the `n` bytes from offset `i`. -/
def substr (s : List Nat) (i n : Nat) : List Nat := (s.drop i).take n

/-- Subtraction of `size_t` values. -/
def size_sub (a b : Nat) : Nat := (a + (2 ^ 64 - b % 2 ^ 64)) % 2 ^ 64

/-- Addition of `size_t` values. -/
def size_add (a b : Nat) : Nat := (a + b) % 2 ^ 64

/-- The loop of `search_case_fold`. -/
def search_case_fold_loop (haystack needle_upper needle_lower : List Nat) (needle_size : Nat) :
    Nat → Nat → Option Nat
  | 0, _ => none
  | fuel + 1, i =>
    if needle_size ≤ size_sub haystack.length i then
      match equal_case_fold (substr haystack i needle_size) needle_upper needle_lower with
      | none => none
      | some true => some i
      | some false =>
        search_case_fold_loop haystack needle_upper needle_lower needle_size fuel (size_add i 1)
    else
      some haystack.length

/-- `size_t search_case_fold(StringData haystack, const char* needle_upper,
const char* needle_lower, size_t needle_size)`.  The loop increments `i` from 0,
so it gets `haystack.size() + 2` iterations. -/
def search_case_fold (haystack needle_upper needle_lower : List Nat) (needle_size : Nat) :
    Option Nat :=
  search_case_fold_loop haystack needle_upper needle_lower needle_size (haystack.length + 2) 0

/-- The Boyer-Moore loop of `contains_ins`. -/
def contains_ins_loop (haystack needle_upper needle_lower : List Nat) (needle_size : Nat)
    (charmap : List Nat) (lastCharU lastCharL : Nat) : Nat → Nat → Option Bool
  | 0, _ => none
  | fuel + 1, p =>
    if p < haystack.length then
      let c := haystack.getD p 0
      let found :=
        if c = lastCharU ∨ c = lastCharL then
          equal_case_fold (substr haystack (size_add (size_sub p needle_size) 1) needle_size)
            needle_upper needle_lower
        else
          some false
      match found with
      | none => none
      | some true => some true
      | some false =>
        if charmap.getD c 0 = 0 then
          contains_ins_loop haystack needle_upper needle_lower needle_size charmap
            lastCharU lastCharL fuel (size_add p needle_size)
        else
          contains_ins_loop haystack needle_upper needle_lower needle_size charmap
            lastCharU lastCharL fuel (size_add p (charmap.getD c 0))
    else
      some false

/-- `bool contains_ins(StringData haystack, const char* needle_upper,
const char* needle_lower, size_t needle_size,
const std::array<uint8_t, 256> &charmap)`.  Every iteration of the loop
increases `p`, so it gets `haystack.size() + 1` iterations. -/
def contains_ins (haystack needle_upper needle_lower : List Nat) (needle_size : Nat)
    (charmap : List Nat) : Option Bool :=
  if needle_size = 0 then
    some (haystack.length != 0)
  else
    let last_char_pos := size_sub needle_size 1
    let lastCharU := needle_upper.getD last_char_pos 0
    let lastCharL := needle_lower.getD last_char_pos 0
    contains_ins_loop haystack needle_upper needle_lower needle_size charmap
      lastCharU lastCharL (haystack.length + 1) last_char_pos

/-- The variables of the loop of `matchlike_ins`: the positions `p1` in the
text and `p2` in the pattern, and the vectors `textpos` and `patternpos`, whose
last element is their `back()`. -/
structure MatchState where
  p1 : Nat
  p2 : Nat
  textpos : List Nat
  patternpos : List Nat
  deriving DecidableEq, Repr

/-- The inner loop of `matchlike_ins` at a `?` that meets a byte of 0x80 or
above: `while (p1 + p != text.size() && (text[p1 + p] & 0xc0) == 0x80) ++p;`.
The list holds the bytes of the text from `p1 + p` on; the result is the final
`p`. -/
def matchlike_ins_skip : List Nat → Nat → Nat
  | [], p => p
  | b :: rest, p => if b &&& 0xc0 = 0x80 then matchlike_ins_skip rest (p + 1) else p

/-- The statements of `matchlike_ins` from the label `no_match` to the end of
the loop body: `Sum.inr b` is `return b`, `Sum.inl s` is the state with which
the next iteration starts. -/
def matchlike_ins_no_match (text : List Nat) (s : MatchState) : MatchState ⊕ Bool :=
  if s.textpos.isEmpty then
    .inr false
  else if s.p1 = text.length then
    let textpos := s.textpos.dropLast
    let patternpos := s.patternpos.dropLast
    if textpos.isEmpty then
      .inr false
    else
      .inl ⟨textpos.getLastD 0, patternpos.getLastD 0, textpos, patternpos⟩
  else
    let p1 := s.textpos.getLastD 0 + 1
    .inl ⟨p1, s.patternpos.getLastD 0, s.textpos.dropLast ++ [p1], s.patternpos⟩

/-- One iteration of the `while (true)` loop of `matchlike_ins`: `Sum.inr b`
is `return b`, `Sum.inl s` is the state with which the next iteration starts.
The byte 0x2A is `*` and the byte 0x3F is `?`. -/
def matchlike_ins_step (text pattern_upper pattern_lower : List Nat) (s : MatchState) :
    MatchState ⊕ Bool :=
  if s.p1 = text.length then
    if s.p2 = pattern_lower.length then
      .inr true
    else if s.p2 = size_sub pattern_lower.length 1 ∧ pattern_lower.getD s.p2 0 = 0x2A then
      .inr true
    else
      matchlike_ins_no_match text s
  else if s.p2 = pattern_lower.length then
    matchlike_ins_no_match text s
  else if pattern_lower.getD s.p2 0 = 0x2A then
    .inl ⟨s.p1, s.p2 + 1, s.textpos ++ [s.p1], s.patternpos ++ [s.p2 + 1]⟩
  else if pattern_lower.getD s.p2 0 = 0x3F then
    if text.getD s.p1 0 &&& 0x80 = 0 then
      .inl ⟨s.p1 + 1, s.p2 + 1, s.textpos, s.patternpos⟩
    else
      let p := matchlike_ins_skip (text.drop (s.p1 + 1)) 1
      .inl ⟨s.p1 + p, s.p2 + 1, s.textpos, s.patternpos⟩
  else if pattern_lower.getD s.p2 0 = text.getD s.p1 0 ∨
      pattern_upper.getD s.p2 0 = text.getD s.p1 0 then
    .inl ⟨s.p1 + 1, s.p2 + 1, s.textpos, s.patternpos⟩
  else
    matchlike_ins_no_match text s

/-- The `while (true)` loop of `matchlike_ins`, for at most `fuel` iterations. -/
def matchlike_ins_loop (text pattern_upper pattern_lower : List Nat) :
    Nat → MatchState → Option Bool
  | 0, _ => none
  | fuel + 1, s =>
    match matchlike_ins_step text pattern_upper pattern_lower s with
    | .inr b => some b
    | .inl s' => matchlike_ins_loop text pattern_upper pattern_lower fuel s'

/-- `bool matchlike_ins(const StringData& text, const StringData& pattern_upper,
const StringData& pattern_lower)`.  Nothing in the code bounds the number of
iterations of its loop, so the fuel is an argument; `none` says that the loop
has not returned within `fuel` iterations. -/
def matchlike_ins (fuel : Nat) (text pattern_upper pattern_lower : List Nat) : Option Bool :=
  matchlike_ins_loop text pattern_upper pattern_lower fuel ⟨0, 0, [], []⟩

/-- The `StringData` that a parameter of that type receives from `s.c_str()`:
the constructor of `StringData` from a C string (the class is not in the
sources) takes the bytes before the first 0 byte. -/
def c_str (s : List Nat) : List Nat := s.takeWhile (fun b => b != 0)

/-- `bool string_like_ins(StringData text, StringData pattern)`.  A null
`StringData` is `none`.  The call passes `lower` for the parameter
`pattern_upper` and `upper` for the parameter `pattern_lower`, as the code
does. -/
def string_like_ins (fuel : Nat) (text pattern : Option (List Nat)) : Option Bool :=
  match text, pattern with
  | some text, some pattern =>
    let upper := case_map_ignore_errors pattern true
    let lower := case_map_ignore_errors pattern false
    matchlike_ins fuel text (c_str lower) (c_str upper)
  | none, none => some true
  | _, _ => some false

/-- The UTF-8 encoding of a code point, in the original scheme of 1 to 6 bytes
for code points below `2 ^ 31`; for a code point up to `0x10FFFF` it is the
standard encoding, of 1 to 4 bytes. -/
def utf8_encode (u : Nat) : List Nat :=
  if u < 0x80 then
    [u]
  else if u < 0x800 then
    [0xC0 + u / 2 ^ 6, 0x80 + u % 2 ^ 6]
  else if u < 0x10000 then
    [0xE0 + u / 2 ^ 12, 0x80 + u / 2 ^ 6 % 2 ^ 6, 0x80 + u % 2 ^ 6]
  else if u < 0x200000 then
    [0xF0 + u / 2 ^ 18, 0x80 + u / 2 ^ 12 % 2 ^ 6, 0x80 + u / 2 ^ 6 % 2 ^ 6, 0x80 + u % 2 ^ 6]
  else if u < 0x4000000 then
    [0xF8 + u / 2 ^ 24, 0x80 + u / 2 ^ 18 % 2 ^ 6, 0x80 + u / 2 ^ 12 % 2 ^ 6,
      0x80 + u / 2 ^ 6 % 2 ^ 6, 0x80 + u % 2 ^ 6]
  else
    [0xFC + u / 2 ^ 30, 0x80 + u / 2 ^ 24 % 2 ^ 6, 0x80 + u / 2 ^ 18 % 2 ^ 6,
      0x80 + u / 2 ^ 12 % 2 ^ 6, 0x80 + u / 2 ^ 6 % 2 ^ 6, 0x80 + u % 2 ^ 6]

/-- The UTF-8 encoding of a sequence of code points. -/
def utf8_encode_string (code_points : List Nat) : List Nat :=
  (code_points.map utf8_encode).flatten

/-- The ASCII lower case of a byte. -/
def ascii_lower (c : Nat) : Nat := if 0x41 ≤ c ∧ c ≤ 0x5A then c + 0x20 else c

/-- The text after its first UTF-8 character, `none` for the empty text: a
byte below 0x80 is a character, any other byte is a character together with
the continuation bytes (of the form `10xxxxxx`) that follow it. -/
def drop_utf8_character : List Nat → Option (List Nat)
  | [] => none
  | b :: rest =>
    if b < 0x80 then some rest else some (rest.dropWhile (fun x => x &&& 0xC0 == 0x80))

/-- Wildcard matching in the words of the specification, for comparison with
`string_like_ins`: the whole text is split so that each `*` of the pattern
takes an arbitrary, possibly empty, run of bytes, each `?` takes exactly one
UTF-8 character, and every other pattern byte takes one text byte equal to it
up to ASCII case. -/
def wildcard_match : List Nat → List Nat → Bool
  | [], text => text.isEmpty
  | c :: pattern, text =>
    if c = 0x2A then
      text.tails.any (wildcard_match pattern)
    else if c = 0x3F then
      match drop_utf8_character text with
      | none => false
      | some rest => wildcard_match pattern rest
    else
      match text with
      | [] => false
      | b :: rest => ascii_lower c == ascii_lower b && wildcard_match pattern rest

/-! ## Properties of `table_ref.cpp` -/

theorem ConstTableRef.toBool_eq_false_iff (h : Heap) (r : ConstTableRef) :
    r.toBool h = false ↔ r.Stale h := by
  unfold ConstTableRef.toBool ConstTableRef.Stale
  cases hm : r.m_table with
  | none => simp
  | some a => simp

theorem ConstTableRef.toBool_eq_true_iff (h : Heap) (r : ConstTableRef) :
    r.toBool h = true ↔
      ∃ a, r.m_table = some a ∧ (h a).get_instance_version = r.m_instance_version := by
  unfold ConstTableRef.toBool
  cases hm : r.m_table with
  | none => simp
  | some a => simp

theorem ConstTableRef.arrow_eq (h : Heap) (r : ConstTableRef) :
    r.arrow h = if r.toBool h then .ok r.m_table else .error Exception.detached_accessor := by
  unfold ConstTableRef.arrow
  cases r.toBool h <;> rfl

/-- C1: `operator->` and `operator*` of `ConstTableRef` and of `TableRef` throw
`LogicError(detached_accessor)` exactly when the table pointer is null or the
table's current instance version differs from the captured one, they throw
nothing else, and otherwise they return the stored `m_table` itself. -/
theorem C1_deref_detached_iff_stale (h : Heap) (r : TableRef) :
    let c := r.toConstTableRef
    ((c.arrow h = .error Exception.detached_accessor ↔ c.Stale h) ∧
      (c.deref h = .error Exception.detached_accessor ↔ c.Stale h) ∧
      (r.arrow h = .error Exception.detached_accessor ↔ c.Stale h) ∧
      (r.deref h = .error Exception.detached_accessor ↔ c.Stale h)) ∧
    (¬ c.Stale h →
      c.arrow h = .ok c.m_table ∧ c.deref h = .ok c.m_table ∧
      r.arrow h = .ok c.m_table ∧ r.deref h = .ok c.m_table) ∧
    (∀ e, e ≠ Exception.detached_accessor →
      c.arrow h ≠ .error e ∧ c.deref h ≠ .error e ∧
      r.arrow h ≠ .error e ∧ r.deref h ≠ .error e) := by
  intro c
  have hs := ConstTableRef.toBool_eq_false_iff h c
  unfold ConstTableRef.arrow ConstTableRef.deref TableRef.arrow TableRef.deref
  cases hb : c.toBool h
  · have hst : c.Stale h := hs.mp hb
    simp only [c] at hb
    simp [hb, hst, c, throw, throwThe, MonadExceptOf.throw]
    intro e he
    exact fun h' => he h'.symm
  · have hst : ¬ c.Stale h := fun hst => by simp [hs.mpr hst] at hb
    simp only [c] at hb
    simp [hb, hst, c, pure, Except.pure]

/-- C2: `checked()` has exactly three outcomes, selected by the pointer and the
versions: `NoSuchTable` for a null pointer, `LogicError(detached_accessor)`
for a non-null pointer whose table has another instance version than the
captured one, and the stored table for a non-null pointer with equal versions. -/
theorem C2_checked_three_outcomes (h : Heap) (r : TableRef) :
    let c := r.toConstTableRef
    (c.m_table = none →
      c.checked h = .error Exception.NoSuchTable ∧ r.checked h = .error Exception.NoSuchTable) ∧
    (∀ a, c.m_table = some a → (h a).get_instance_version ≠ c.m_instance_version →
      c.checked h = .error Exception.detached_accessor ∧
      r.checked h = .error Exception.detached_accessor) ∧
    (∀ a, c.m_table = some a → (h a).get_instance_version = c.m_instance_version →
      c.checked h = .ok (some a) ∧ r.checked h = .ok (some a)) := by
  intro c
  unfold ConstTableRef.checked TableRef.checked
  refine ⟨?_, ?_, ?_⟩
  · intro hn
    simp only [c] at hn
    simp [hn, c, throw, throwThe, MonadExceptOf.throw]
  · intro a ha hv
    simp only [c] at ha hv
    simp [ha, hv, c, throw, throwThe, MonadExceptOf.throw]
  · intro a ha hv
    simp only [c] at ha hv
    simp [ha, hv, c, pure, Except.pure]

/-- C3: a `ConstTableRef` constructed from `t` while the heap was `h0` converts
to `true` in a later heap `h` exactly when `t` is non-null and the instance
version of the table in `h` equals the one it had in `h0`; so it is `true`
right after construction from a non-null pointer, `false` when built from
null, and `false` once the instance version has changed. -/
theorem C3_bool_iff_attached (h0 h : Heap) (t : Option Nat) :
    ((ConstTableRef.ctor h0 t).toBool h = true ↔
      ∃ a, t = some a ∧ (h a).get_instance_version = (h0 a).get_instance_version) ∧
    (∀ a, (ConstTableRef.ctor h0 (some a)).toBool h0 = true) ∧
    (ConstTableRef.ctor h0 none).toBool h = false ∧
    (∀ a, (h a).get_instance_version ≠ (h0 a).get_instance_version →
      (ConstTableRef.ctor h0 (some a)).toBool h = false) := by
  refine ⟨?_, ?_, ?_, ?_⟩
  · cases t with
    | none => simp [ConstTableRef.ctor, ConstTableRef.toBool]
    | some a => simp [ConstTableRef.ctor, ConstTableRef.toBool]
  · intro a
    simp [ConstTableRef.ctor, ConstTableRef.toBool]
  · simp [ConstTableRef.ctor, ConstTableRef.toBool]
  · intro a hne
    simp [ConstTableRef.ctor, ConstTableRef.toBool, hne]

theorem C1_deref_witness :
    ¬ ConstTableRef.Stale (fun _ => ⟨4⟩) ⟨some 0, 4⟩ ∧
    ConstTableRef.arrow (fun _ => ⟨4⟩) ⟨some 0, 4⟩ = .ok (some 0) ∧
    ConstTableRef.deref (fun _ => ⟨4⟩) ⟨some 0, 4⟩ = .ok (some 0) ∧
    TableRef.arrow (fun _ => ⟨4⟩) ⟨⟨some 0, 4⟩⟩ = .ok (some 0) ∧
    TableRef.deref (fun _ => ⟨4⟩) ⟨⟨some 0, 4⟩⟩ = .ok (some 0) :=
  have h : ¬ ConstTableRef.Stale (fun _ => ⟨4⟩) ⟨some 0, 4⟩ := by
    simp [ConstTableRef.Stale, Table.get_instance_version]
  ⟨h, (C1_deref_detached_iff_stale (fun _ => ⟨4⟩) ⟨⟨some 0, 4⟩⟩).2.1 h⟩

theorem C2_checked_witness :
    ConstTableRef.checked (fun _ => ⟨5⟩) ⟨some 0, 4⟩ = .error Exception.detached_accessor ∧
    TableRef.checked (fun _ => ⟨5⟩) ⟨⟨some 0, 4⟩⟩ = .error Exception.detached_accessor :=
  (C2_checked_three_outcomes (fun _ => ⟨5⟩) ⟨⟨some 0, 4⟩⟩).2.1 0 rfl (by decide)

theorem C3_bool_witness :
    (ConstTableRef.ctor (fun _ => ⟨4⟩) (some 0)).toBool (fun _ => ⟨5⟩) = false :=
  (C3_bool_iff_attached (fun _ => ⟨4⟩) (fun _ => ⟨5⟩) (some 0)).2.2.2 0 (by decide)

/-! ## Properties of the cluster tree -/

/-! ## Leaves -/

theorem Cluster.lookup_eq_none_iff (k : ObjKey) (rows : Cluster) :
    Cluster.lookup k rows = none ↔ k ∉ Cluster.keys rows := by
  induction rows with
  | nil => simp [Cluster.lookup, Cluster.keys]
  | cons r rest ih =>
    obtain ⟨k', v⟩ := r
    by_cases h : k' = k
    · simp [Cluster.lookup, Cluster.keys, h]
    · have h' : ¬ k = k' := fun e => h e.symm
      simpa [Cluster.lookup, Cluster.keys, h, h'] using ih

theorem Cluster.lookup_isSome_iff (k : ObjKey) (rows : Cluster) :
    (Cluster.lookup k rows).isSome = true ↔ k ∈ Cluster.keys rows := by
  rw [← not_iff_not, ← Cluster.lookup_eq_none_iff]
  cases Cluster.lookup k rows <;> simp

theorem Cluster.lookup_append (k : ObjKey) (a b : Cluster) :
    Cluster.lookup k (a ++ b) = (Cluster.lookup k a).orElse (fun _ => Cluster.lookup k b) := by
  induction a with
  | nil => simp [Cluster.lookup]
  | cons r rest ih =>
    obtain ⟨k', v⟩ := r
    by_cases h : k' = k <;> simp [Cluster.lookup, h, ih]

theorem Cluster.keys_append (a b : Cluster) :
    Cluster.keys (a ++ b) = Cluster.keys a ++ Cluster.keys b := by
  simp [Cluster.keys]

theorem Cluster.length_insert_row (k : ObjKey) (v : FieldValues) (rows : Cluster) :
    (Cluster.insert_row k v rows).length = rows.length + 1 := by
  induction rows with
  | nil => simp [Cluster.insert_row]
  | cons r rest ih =>
    obtain ⟨k', v'⟩ := r
    by_cases h : k < k' <;> simp [Cluster.insert_row, h, ih]

theorem Cluster.mem_keys_insert_row (k : ObjKey) (v : FieldValues) (rows : Cluster) (x : ObjKey) :
    x ∈ Cluster.keys (Cluster.insert_row k v rows) ↔ x = k ∨ x ∈ Cluster.keys rows := by
  induction rows with
  | nil => simp [Cluster.insert_row, Cluster.keys]
  | cons r rest ih =>
    obtain ⟨k', v'⟩ := r
    by_cases h : k < k'
    · simp [Cluster.insert_row, Cluster.keys, h]
    · simp only [Cluster.keys] at ih
      simp [Cluster.insert_row, Cluster.keys, h, ih]
      tauto

theorem Cluster.sorted_insert_row (k : ObjKey) (v : FieldValues) (rows : Cluster)
    (hs : (Cluster.keys rows).Pairwise (· < ·)) (hk : k ∉ Cluster.keys rows) :
    (Cluster.keys (Cluster.insert_row k v rows)).Pairwise (· < ·) := by
  induction rows with
  | nil => simp [Cluster.insert_row, Cluster.keys]
  | cons r rest ih =>
    obtain ⟨k', v'⟩ := r
    have hs' : (∀ x ∈ Cluster.keys rest, k' < x) ∧ (Cluster.keys rest).Pairwise (· < ·) := by
      simpa [Cluster.keys] using hs
    have hk' : k ≠ k' ∧ k ∉ Cluster.keys rest := by
      simpa [Cluster.keys, not_or] using hk
    by_cases h : k < k'
    · have : (Cluster.keys ((k, v) :: (k', v') :: rest)).Pairwise (· < ·) := by
        simp only [Cluster.keys, List.map_cons, List.pairwise_cons]
        refine ⟨?_, ?_, ?_⟩
        · intro x hx
          rcases List.mem_cons.mp hx with rfl | hx
          · exact h
          · exact lt_trans h (hs'.1 x hx)
        · exact hs'.1
        · exact hs'.2
      simpa [Cluster.insert_row, h] using this
    · have hlt : k' < k := lt_of_le_of_ne (not_lt.mp h) (fun e => hk'.1 e.symm)
      have ih' := ih hs'.2 hk'.2
      have : (Cluster.keys ((k', v') :: Cluster.insert_row k v rest)).Pairwise (· < ·) := by
        have e : Cluster.keys ((k', v') :: Cluster.insert_row k v rest) =
            k' :: Cluster.keys (Cluster.insert_row k v rest) := rfl
        rw [e, List.pairwise_cons]
        refine ⟨?_, ih'⟩
        intro x hx
        rcases (Cluster.mem_keys_insert_row k v rest x).mp hx with rfl | hx
        · exact hlt
        · exact hs'.1 x hx
      simpa [Cluster.insert_row, h] using this

theorem Cluster.lookup_insert_row_self (k : ObjKey) (v : FieldValues) (rows : Cluster)
    (hk : k ∉ Cluster.keys rows) : Cluster.lookup k (Cluster.insert_row k v rows) = some v := by
  induction rows with
  | nil => simp [Cluster.insert_row, Cluster.lookup]
  | cons r rest ih =>
    obtain ⟨k', v'⟩ := r
    have hk' : k ≠ k' ∧ k ∉ Cluster.keys rest := by
      simpa [Cluster.keys, not_or] using hk
    have hne : ¬ k' = k := fun e => hk'.1 e.symm
    by_cases h : k < k'
    · simp [Cluster.insert_row, Cluster.lookup, h]
    · simp [Cluster.insert_row, Cluster.lookup, h, hne, ih hk'.2]

theorem Cluster.lookup_insert_row_of_ne (k : ObjKey) (v : FieldValues) (rows : Cluster)
    (x : ObjKey) (hx : x ≠ k) :
    Cluster.lookup x (Cluster.insert_row k v rows) = Cluster.lookup x rows := by
  have hne : ¬ k = x := fun e => hx e.symm
  induction rows with
  | nil => simp [Cluster.insert_row, Cluster.lookup, hne]
  | cons r rest ih =>
    obtain ⟨k', v'⟩ := r
    by_cases h : k < k'
    · simp [Cluster.insert_row, Cluster.lookup, h, hne]
    · simp [Cluster.insert_row, Cluster.lookup, h, ih]

/-- Inserting left of a run of larger keys. -/
theorem Cluster.insert_row_append_left (k : ObjKey) (v : FieldValues) (a b : Cluster)
    (hb : ∀ x ∈ Cluster.keys b, k < x) :
    Cluster.insert_row k v (a ++ b) = Cluster.insert_row k v a ++ b := by
  induction a with
  | nil =>
    cases b with
    | nil => rfl
    | cons r rest =>
      obtain ⟨k', v'⟩ := r
      have : k < k' := hb k' (by simp [Cluster.keys])
      simp [Cluster.insert_row, this]
  | cons r rest ih =>
    obtain ⟨k', v'⟩ := r
    by_cases h : k < k' <;> simp [Cluster.insert_row, h, ih]

/-- Inserting right of a run of smaller keys. -/
theorem Cluster.insert_row_append_right (k : ObjKey) (v : FieldValues) (a b : Cluster)
    (ha : ∀ x ∈ Cluster.keys a, x < k) :
    Cluster.insert_row k v (a ++ b) = a ++ Cluster.insert_row k v b := by
  induction a with
  | nil => rfl
  | cons r rest ih =>
    obtain ⟨k', v'⟩ := r
    have h1 : k' < k := ha k' (by simp [Cluster.keys])
    have h2 : ¬ k < k' := not_lt.mpr (le_of_lt h1)
    have ih' := ih (fun x hx => ha x (by simp [Cluster.keys] at hx ⊢; exact Or.inr hx))
    simp [Cluster.insert_row, h2, ih']

theorem Cluster.erase_row_of_not_mem (k : ObjKey) (rows : Cluster)
    (hk : k ∉ Cluster.keys rows) : Cluster.erase_row k rows = rows := by
  induction rows with
  | nil => rfl
  | cons r rest ih =>
    obtain ⟨k', v'⟩ := r
    have hk' : k ≠ k' ∧ k ∉ Cluster.keys rest := by
      simpa [Cluster.keys, not_or] using hk
    have hne : ¬ k' = k := fun e => hk'.1 e.symm
    simp [Cluster.erase_row, hne, ih hk'.2]

theorem Cluster.erase_row_append_left (k : ObjKey) (a b : Cluster)
    (ha : k ∈ Cluster.keys a) :
    Cluster.erase_row k (a ++ b) = Cluster.erase_row k a ++ b := by
  induction a with
  | nil => simp [Cluster.keys] at ha
  | cons r rest ih =>
    obtain ⟨k', v'⟩ := r
    by_cases h : k' = k
    · simp [Cluster.erase_row, h]
    · have : k ∈ Cluster.keys rest := by
        have : k = k' ∨ k ∈ Cluster.keys rest := by simpa [Cluster.keys] using ha
        rcases this with e | hm
        · exact absurd e.symm h
        · exact hm
      simp [Cluster.erase_row, h, ih this]

theorem Cluster.erase_row_append_right (k : ObjKey) (a b : Cluster)
    (ha : k ∉ Cluster.keys a) :
    Cluster.erase_row k (a ++ b) = a ++ Cluster.erase_row k b := by
  induction a with
  | nil => rfl
  | cons r rest ih =>
    obtain ⟨k', v'⟩ := r
    have hk' : k ≠ k' ∧ k ∉ Cluster.keys rest := by
      simpa [Cluster.keys, not_or] using ha
    have hne : ¬ k' = k := fun e => hk'.1 e.symm
    simp [Cluster.erase_row, hne, ih hk'.2]

theorem Cluster.length_erase_row (k : ObjKey) (rows : Cluster) (hk : k ∈ Cluster.keys rows) :
    (Cluster.erase_row k rows).length + 1 = rows.length := by
  induction rows with
  | nil => simp [Cluster.keys] at hk
  | cons r rest ih =>
    obtain ⟨k', v'⟩ := r
    by_cases h : k' = k
    · simp [Cluster.erase_row, h]
    · have : k ∈ Cluster.keys rest := by
        have : k = k' ∨ k ∈ Cluster.keys rest := by simpa [Cluster.keys] using hk
        rcases this with e | hm
        · exact absurd e.symm h
        · exact hm
      simp [Cluster.erase_row, h, ih this]

theorem Cluster.keys_erase_row_sublist (k : ObjKey) (rows : Cluster) :
    (Cluster.keys (Cluster.erase_row k rows)).Sublist (Cluster.keys rows) := by
  induction rows with
  | nil => simp [Cluster.erase_row]
  | cons r rest ih =>
    obtain ⟨k', v'⟩ := r
    by_cases h : k' = k
    · simp [Cluster.erase_row, h, Cluster.keys]
    · simp only [Cluster.erase_row, h, if_false]
      exact ih.cons₂ k'

theorem Cluster.mem_keys_erase_row (k : ObjKey) (rows : Cluster)
    (hs : (Cluster.keys rows).Pairwise (· < ·)) (x : ObjKey) :
    x ∈ Cluster.keys (Cluster.erase_row k rows) ↔ x ≠ k ∧ x ∈ Cluster.keys rows := by
  induction rows with
  | nil => simp [Cluster.erase_row, Cluster.keys]
  | cons r rest ih =>
    obtain ⟨k', v'⟩ := r
    have hs' : (∀ y ∈ Cluster.keys rest, k' < y) ∧ (Cluster.keys rest).Pairwise (· < ·) := by
      simpa [Cluster.keys] using hs
    by_cases h : k' = k
    · subst h
      simp only [Cluster.erase_row, if_true]
      constructor
      · intro hx
        exact ⟨ne_of_gt (hs'.1 x hx), by simp [Cluster.keys] at hx ⊢; exact Or.inr hx⟩
      · rintro ⟨hne, hx⟩
        have : x = k' ∨ x ∈ Cluster.keys rest := by simpa [Cluster.keys] using hx
        rcases this with e | hm
        · exact absurd e hne
        · exact hm
    · have e1 : Cluster.keys ((k', v') :: Cluster.erase_row k rest) =
          k' :: Cluster.keys (Cluster.erase_row k rest) := rfl
      have e2 : Cluster.keys ((k', v') :: rest) = k' :: Cluster.keys rest := rfl
      simp only [Cluster.erase_row, h, if_false, e1, e2, List.mem_cons, ih hs'.2]
      constructor
      · rintro (e | ⟨h1, h2⟩)
        · exact ⟨by rw [e]; exact h, Or.inl e⟩
        · exact ⟨h1, Or.inr h2⟩
      · rintro ⟨h1, e | h2⟩
        · exact Or.inl e
        · exact Or.inr ⟨h1, h2⟩

theorem Cluster.lookup_erase_row_of_ne (k : ObjKey) (rows : Cluster) (x : ObjKey) (hx : x ≠ k) :
    Cluster.lookup x (Cluster.erase_row k rows) = Cluster.lookup x rows := by
  induction rows with
  | nil => rfl
  | cons r rest ih =>
    obtain ⟨k', v'⟩ := r
    by_cases h : k' = k
    · have : ¬ k = x := fun e => hx e.symm
      simp [Cluster.erase_row, Cluster.lookup, h, this]
    · simp [Cluster.erase_row, Cluster.lookup, h, ih]

/-! ## The key order invariant -/

theorem ClusterNode.orderedChildren_nil (lo : WithBot ObjKey) (hi : WithTop ObjKey) :
    ClusterNode.OrderedChildren [] lo hi := by
  simp [ClusterNode.OrderedChildren]

theorem ClusterNode.orderedChildren_cons (m : ObjKey) (c : ClusterNode)
    (rest : List (ObjKey × ClusterNode)) (lo : WithBot ObjKey) (hi : WithTop ObjKey) :
    ClusterNode.OrderedChildren ((m, c) :: rest) lo hi ↔
      lo < (m : WithBot ObjKey) ∧ (m : WithTop ObjKey) ≤ hi ∧
        c.Ordered lo m ∧ ClusterNode.OrderedChildren rest m hi := by
  simp [ClusterNode.OrderedChildren]

theorem ClusterNode.ordered_leaf (rows : Cluster) (lo : WithBot ObjKey) (hi : WithTop ObjKey) :
    (ClusterNode.leaf rows).Ordered lo hi ↔
      (Cluster.keys rows).Pairwise (· < ·) ∧
        ∀ k ∈ Cluster.keys rows, lo < (k : WithBot ObjKey) ∧ (k : WithTop ObjKey) ≤ hi := by
  simp [ClusterNode.Ordered]

theorem ClusterNode.ordered_inner (cs : List (ObjKey × ClusterNode)) (lo : WithBot ObjKey)
    (hi : WithTop ObjKey) :
    (ClusterNode.inner cs).Ordered lo hi ↔ ClusterNode.OrderedChildren cs lo hi := by
  simp [ClusterNode.Ordered]

mutual
theorem ClusterNode.ordered_mono :
    ∀ (n : ClusterNode) (lo lo' : WithBot ObjKey) (hi hi' : WithTop ObjKey),
      n.Ordered lo hi → lo' ≤ lo → hi ≤ hi' → n.Ordered lo' hi'
  | .leaf rows, lo, lo', hi, hi', h, hlo, hhi => by
    rw [ClusterNode.ordered_leaf] at h ⊢
    exact ⟨h.1, fun k hk => ⟨lt_of_le_of_lt hlo (h.2 k hk).1, le_trans (h.2 k hk).2 hhi⟩⟩
  | .inner cs, lo, lo', hi, hi', h, hlo, hhi => by
    rw [ClusterNode.ordered_inner] at h ⊢
    exact ClusterNode.orderedChildren_mono cs lo lo' hi hi' h hlo hhi
theorem ClusterNode.orderedChildren_mono :
    ∀ (cs : List (ObjKey × ClusterNode)) (lo lo' : WithBot ObjKey) (hi hi' : WithTop ObjKey),
      ClusterNode.OrderedChildren cs lo hi → lo' ≤ lo → hi ≤ hi' →
        ClusterNode.OrderedChildren cs lo' hi'
  | [], _, _, _, _, _, _, _ => ClusterNode.orderedChildren_nil _ _
  | (m, c) :: rest, lo, lo', hi, hi', h, hlo, hhi => by
    rw [ClusterNode.orderedChildren_cons] at h ⊢
    obtain ⟨h1, h2, h3, h4⟩ := h
    exact ⟨lt_of_le_of_lt hlo h1, le_trans h2 hhi,
      ClusterNode.ordered_mono c lo lo' m m h3 hlo le_rfl,
      ClusterNode.orderedChildren_mono rest m m hi hi' h4 le_rfl hhi⟩
end

mutual
theorem ClusterNode.ordered_bounds :
    ∀ (n : ClusterNode) (lo : WithBot ObjKey) (hi : WithTop ObjKey), n.Ordered lo hi →
      ∀ k ∈ Cluster.keys n.rows, lo < (k : WithBot ObjKey) ∧ (k : WithTop ObjKey) ≤ hi
  | .leaf rows, lo, hi, h => by
    rw [ClusterNode.ordered_leaf] at h
    simpa [ClusterNode.rows] using h.2
  | .inner cs, lo, hi, h => by
    rw [ClusterNode.ordered_inner] at h
    simpa [ClusterNode.rows] using ClusterNode.orderedChildren_bounds cs lo hi h
theorem ClusterNode.orderedChildren_bounds :
    ∀ (cs : List (ObjKey × ClusterNode)) (lo : WithBot ObjKey) (hi : WithTop ObjKey),
      ClusterNode.OrderedChildren cs lo hi →
      ∀ k ∈ Cluster.keys (ClusterNode.rows_children cs),
        lo < (k : WithBot ObjKey) ∧ (k : WithTop ObjKey) ≤ hi
  | [], _, _, _ => by simp [ClusterNode.rows_children, Cluster.keys]
  | (m, c) :: rest, lo, hi, h => by
    rw [ClusterNode.orderedChildren_cons] at h
    obtain ⟨h1, h2, h3, h4⟩ := h
    intro k hk
    rw [ClusterNode.rows_children, Cluster.keys_append, List.mem_append] at hk
    rcases hk with hk | hk
    · have := ClusterNode.ordered_bounds c lo m h3 k hk
      exact ⟨this.1, le_trans (WithTop.coe_le_coe.mpr (WithTop.coe_le_coe.mp this.2)) h2⟩
    · have := ClusterNode.orderedChildren_bounds rest m hi h4 k hk
      exact ⟨lt_trans h1 this.1, this.2⟩
end

mutual
theorem ClusterNode.ordered_sorted :
    ∀ (n : ClusterNode) (lo : WithBot ObjKey) (hi : WithTop ObjKey), n.Ordered lo hi →
      (Cluster.keys n.rows).Pairwise (· < ·)
  | .leaf rows, lo, hi, h => by
    rw [ClusterNode.ordered_leaf] at h
    simpa [ClusterNode.rows] using h.1
  | .inner cs, lo, hi, h => by
    rw [ClusterNode.ordered_inner] at h
    simpa [ClusterNode.rows] using ClusterNode.orderedChildren_sorted cs lo hi h
theorem ClusterNode.orderedChildren_sorted :
    ∀ (cs : List (ObjKey × ClusterNode)) (lo : WithBot ObjKey) (hi : WithTop ObjKey),
      ClusterNode.OrderedChildren cs lo hi →
      (Cluster.keys (ClusterNode.rows_children cs)).Pairwise (· < ·)
  | [], _, _, _ => by simp [ClusterNode.rows_children, Cluster.keys]
  | (m, c) :: rest, lo, hi, h => by
    rw [ClusterNode.orderedChildren_cons] at h
    obtain ⟨h1, h2, h3, h4⟩ := h
    rw [ClusterNode.rows_children, Cluster.keys_append, List.pairwise_append]
    refine ⟨ClusterNode.ordered_sorted c lo m h3,
      ClusterNode.orderedChildren_sorted rest m hi h4, ?_⟩
    intro a ha b hb
    have h5 := (ClusterNode.ordered_bounds c lo m h3 a ha).2
    have h6 := (ClusterNode.orderedChildren_bounds rest m hi h4 b hb).1
    exact lt_of_le_of_lt (WithTop.coe_le_coe.mp h5) (WithBot.coe_lt_coe.mp h6)
end

/-- Below a recorded maximum `m`, no key of the later children is found. -/
theorem ClusterNode.orderedChildren_lookup_none (cs : List (ObjKey × ClusterNode))
    (m : ObjKey) (hi : WithTop ObjKey) (h : ClusterNode.OrderedChildren cs m hi)
    (k : ObjKey) (hk : k ≤ m) : Cluster.lookup k (ClusterNode.rows_children cs) = none := by
  rw [Cluster.lookup_eq_none_iff]
  intro hm
  have := (ClusterNode.orderedChildren_bounds cs m hi h k hm).1
  exact absurd (WithBot.coe_lt_coe.mp this) (not_lt.mpr hk)

/-- Above the recorded maximum `m` of a child, no key of the child is found. -/
theorem ClusterNode.ordered_lookup_none (c : ClusterNode) (lo : WithBot ObjKey)
    (m : ObjKey) (h : c.Ordered lo m) (k : ObjKey) (hk : m < k) :
    Cluster.lookup k c.rows = none := by
  rw [Cluster.lookup_eq_none_iff]
  intro hm
  have := (ClusterNode.ordered_bounds c lo m h k hm).2
  exact absurd (WithTop.coe_le_coe.mp this) (not_le.mpr hk)

mutual
theorem ClusterNode.find_eq_lookup :
    ∀ (n : ClusterNode) (lo : WithBot ObjKey) (hi : WithTop ObjKey), n.Ordered lo hi →
      ∀ k, n.find k = Cluster.lookup k n.rows
  | .leaf rows, _, _, _ => by
    intro k
    simp [ClusterNode.find, ClusterNode.rows]
  | .inner cs, lo, hi, h => by
    intro k
    rw [ClusterNode.ordered_inner] at h
    simpa [ClusterNode.find, ClusterNode.rows] using
      ClusterNode.find_children_eq_lookup cs lo hi h k
theorem ClusterNode.find_children_eq_lookup :
    ∀ (cs : List (ObjKey × ClusterNode)) (lo : WithBot ObjKey) (hi : WithTop ObjKey),
      ClusterNode.OrderedChildren cs lo hi →
      ∀ k, ClusterNode.find_children k cs = Cluster.lookup k (ClusterNode.rows_children cs)
  | [], _, _, _ => by
    intro k
    simp [ClusterNode.find_children, ClusterNode.rows_children, Cluster.lookup]
  | (m, c) :: rest, lo, hi, h => by
    intro k
    rw [ClusterNode.orderedChildren_cons] at h
    obtain ⟨h1, h2, h3, h4⟩ := h
    rw [ClusterNode.find_children, ClusterNode.rows_children, Cluster.lookup_append]
    by_cases hk : k ≤ m
    · rw [if_pos hk, ClusterNode.find_eq_lookup c lo m h3 k,
        ClusterNode.orderedChildren_lookup_none rest m hi h4 k hk]
      cases Cluster.lookup k c.rows <;> rfl
    · rw [if_neg hk, ClusterNode.find_children_eq_lookup rest m hi h4 k,
        ClusterNode.ordered_lookup_none c lo m h3 k (not_le.mp hk)]
      rfl
end

/-! ## Joining and splitting runs of entries -/

theorem ClusterNode.orderedChildren_append (a b : List (ObjKey × ClusterNode))
    (lo : WithBot ObjKey) (mid : ObjKey) (hi : WithTop ObjKey)
    (ha : ClusterNode.OrderedChildren a lo mid) (hb : ClusterNode.OrderedChildren b mid hi)
    (hlo : lo ≤ (mid : WithBot ObjKey)) (hhi : (mid : WithTop ObjKey) ≤ hi) :
    ClusterNode.OrderedChildren (a ++ b) lo hi := by
  induction a generalizing lo with
  | nil => exact ClusterNode.orderedChildren_mono b mid lo hi hi hb hlo le_rfl
  | cons e rest ih =>
    obtain ⟨m, c⟩ := e
    rw [ClusterNode.orderedChildren_cons] at ha
    obtain ⟨h1, h2, h3, h4⟩ := ha
    rw [List.cons_append, ClusterNode.orderedChildren_cons]
    refine ⟨h1, le_trans h2 hhi, h3, ih m h4 ?_⟩
    exact WithBot.coe_le_coe.mpr (WithTop.coe_le_coe.mp h2)

theorem ClusterNode.max_key_inner_cons (e : ObjKey × ClusterNode)
    (rest : List (ObjKey × ClusterNode)) (h : rest ≠ []) :
    (ClusterNode.inner (e :: rest)).max_key = (ClusterNode.inner rest).max_key := by
  cases rest with
  | nil => exact absurd rfl h
  | cons e' rest' => simp [ClusterNode.max_key, List.getLast?_cons_cons]

theorem Cluster.last_key_cons (r : ObjKey × FieldValues) (rest : Cluster) (h : rest ≠ []) :
    Cluster.last_key (r :: rest) = Cluster.last_key rest := by
  cases rest with
  | nil => exact absurd rfl h
  | cons e' rest' => simp [Cluster.last_key, List.getLast?_cons_cons]

/-- A run of children that is followed by further children is bounded by the
recorded maximum of its last child, which lies below the bound of the whole. -/
theorem ClusterNode.orderedChildren_split (a b : List (ObjKey × ClusterNode))
    (lo : WithBot ObjKey) (hi : WithTop ObjKey)
    (h : ClusterNode.OrderedChildren (a ++ b) lo hi) (ha : a ≠ []) :
    lo < ((ClusterNode.inner a).max_key : WithBot ObjKey) ∧
      ((ClusterNode.inner a).max_key : WithTop ObjKey) ≤ hi ∧
      (b ≠ [] → ((ClusterNode.inner a).max_key : WithTop ObjKey) < hi) ∧
      ClusterNode.OrderedChildren a lo (ClusterNode.inner a).max_key ∧
      ClusterNode.OrderedChildren b (ClusterNode.inner a).max_key hi := by
  induction a generalizing lo with
  | nil => exact absurd rfl ha
  | cons e rest ih =>
    obtain ⟨m, c⟩ := e
    rw [List.cons_append, ClusterNode.orderedChildren_cons] at h
    obtain ⟨h1, h2, h3, h4⟩ := h
    by_cases hr : rest = []
    · subst hr
      have hm : (ClusterNode.inner [(m, c)]).max_key = m := by simp [ClusterNode.max_key]
      rw [hm]
      refine ⟨h1, h2, ?_, ?_, h4⟩
      · intro hb
        cases b with
        | nil => exact absurd rfl hb
        | cons e' b' =>
          obtain ⟨m', c'⟩ := e'
          rw [List.nil_append, ClusterNode.orderedChildren_cons] at h4
          have : m < m' := WithBot.coe_lt_coe.mp h4.1
          exact lt_of_lt_of_le (WithTop.coe_lt_coe.mpr this) h4.2.1
      · rw [ClusterNode.orderedChildren_cons]
        exact ⟨h1, le_rfl, h3, ClusterNode.orderedChildren_nil _ _⟩
    · rw [ClusterNode.max_key_inner_cons _ _ hr]
      obtain ⟨i1, i2, i3, i4, i5⟩ := ih m h4 hr
      refine ⟨lt_trans h1 i1, i2, i3, ?_, i5⟩
      rw [ClusterNode.orderedChildren_cons]
      exact ⟨h1, WithTop.coe_le_coe.mpr (le_of_lt (WithBot.coe_lt_coe.mp i1)), h3, i4⟩

theorem ClusterNode.ordered_leaf_append (a b : Cluster) (lo : WithBot ObjKey) (mid : ObjKey)
    (hi : WithTop ObjKey) (ha : (ClusterNode.leaf a).Ordered lo mid)
    (hb : (ClusterNode.leaf b).Ordered mid hi)
    (hlo : lo ≤ (mid : WithBot ObjKey)) (hhi : (mid : WithTop ObjKey) ≤ hi) :
    (ClusterNode.leaf (a ++ b)).Ordered lo hi := by
  rw [ClusterNode.ordered_leaf] at ha hb ⊢
  rw [Cluster.keys_append, List.pairwise_append]
  refine ⟨⟨ha.1, hb.1, ?_⟩, ?_⟩
  · intro x hx y hy
    exact lt_of_le_of_lt (WithTop.coe_le_coe.mp (ha.2 x hx).2) (WithBot.coe_lt_coe.mp (hb.2 y hy).1)
  · intro x hx
    rcases List.mem_append.mp hx with hx | hx
    · exact ⟨(ha.2 x hx).1, le_trans (ha.2 x hx).2 hhi⟩
    · exact ⟨lt_of_le_of_lt hlo (hb.2 x hx).1, (hb.2 x hx).2⟩

theorem Cluster.last_key_mem (a : Cluster) (ha : a ≠ []) : Cluster.last_key a ∈ Cluster.keys a := by
  induction a with
  | nil => exact absurd rfl ha
  | cons r rest ih =>
    by_cases hr : rest = []
    · subst hr
      simp [Cluster.last_key, Cluster.keys]
    · rw [Cluster.last_key_cons _ _ hr]
      have := ih hr
      simp only [Cluster.keys, List.map_cons, List.mem_cons] at this ⊢
      exact Or.inr this

theorem Cluster.le_last_key (a : Cluster) (hs : (Cluster.keys a).Pairwise (· < ·)) :
    ∀ x ∈ Cluster.keys a, x ≤ Cluster.last_key a := by
  induction a with
  | nil => simp [Cluster.keys]
  | cons r rest ih =>
    obtain ⟨k', v'⟩ := r
    have hs' : (∀ y ∈ Cluster.keys rest, k' < y) ∧ (Cluster.keys rest).Pairwise (· < ·) := by
      simpa [Cluster.keys] using hs
    by_cases hr : rest = []
    · subst hr
      simp [Cluster.last_key, Cluster.keys]
    · rw [Cluster.last_key_cons _ _ hr]
      intro x hx
      have hx' : x = k' ∨ x ∈ Cluster.keys rest := by simpa [Cluster.keys] using hx
      rcases hx' with rfl | hx'
      · exact le_of_lt (hs'.1 _ (Cluster.last_key_mem rest hr))
      · exact ih hs'.2 x hx'

/-- A run of rows of an ordered leaf is bounded by its last key, which lies
below the bound of the whole when further rows follow. -/
theorem ClusterNode.ordered_leaf_split (a b : Cluster) (lo : WithBot ObjKey)
    (hi : WithTop ObjKey) (h : (ClusterNode.leaf (a ++ b)).Ordered lo hi) (ha : a ≠ []) :
    lo < ((Cluster.last_key a : ObjKey) : WithBot ObjKey) ∧
      ((Cluster.last_key a : ObjKey) : WithTop ObjKey) ≤ hi ∧
      (b ≠ [] → ((Cluster.last_key a : ObjKey) : WithTop ObjKey) < hi) ∧
      (ClusterNode.leaf a).Ordered lo (Cluster.last_key a) ∧
      (ClusterNode.leaf b).Ordered (Cluster.last_key a) hi := by
  rw [ClusterNode.ordered_leaf, Cluster.keys_append, List.pairwise_append] at h
  obtain ⟨⟨h1, h2, h3⟩, h4⟩ := h
  have hmem := Cluster.last_key_mem a ha
  have hin := h4 _ (List.mem_append.mpr (Or.inl hmem))
  refine ⟨hin.1, hin.2, ?_, ?_, ?_⟩
  · intro hb
    cases b with
    | nil => exact absurd rfl hb
    | cons r b' =>
      have hr : r.1 ∈ Cluster.keys (r :: b') := by simp [Cluster.keys]
      have := h3 _ hmem _ hr
      exact lt_of_lt_of_le (WithTop.coe_lt_coe.mpr this)
        (h4 _ (List.mem_append.mpr (Or.inr hr))).2
  · rw [ClusterNode.ordered_leaf]
    refine ⟨h1, fun x hx => ⟨(h4 x (List.mem_append.mpr (Or.inl hx))).1, ?_⟩⟩
    exact WithTop.coe_le_coe.mpr (Cluster.le_last_key a h1 x hx)
  · rw [ClusterNode.ordered_leaf]
    refine ⟨h2, fun x hx => ⟨?_, (h4 x (List.mem_append.mpr (Or.inr hx))).2⟩⟩
    exact WithBot.coe_lt_coe.mpr (h3 _ hmem x hx)

/-- The recorded bound of a subtree can be tightened to its maximum key. -/
theorem ClusterNode.ordered_tighten (n : ClusterNode) (lo : WithBot ObjKey) (hi : WithTop ObjKey)
    (h : n.Ordered lo hi) : n.Ordered lo (n.max_key : ObjKey) := by
  cases n with
  | leaf rows =>
    by_cases hr : rows = []
    · subst hr
      rw [ClusterNode.ordered_leaf]
      simp [Cluster.keys]
    · have h' : (ClusterNode.leaf (rows ++ [])).Ordered lo hi := by simpa using h
      exact (ClusterNode.ordered_leaf_split rows [] lo hi h' hr).2.2.2.1
  | inner cs =>
    by_cases hr : cs = []
    · subst hr
      rw [ClusterNode.ordered_inner]
      exact ClusterNode.orderedChildren_nil _ _
    · rw [ClusterNode.ordered_inner] at h ⊢
      have h' : ClusterNode.OrderedChildren (cs ++ []) lo hi := by simpa using h
      exact (ClusterNode.orderedChildren_split cs [] lo hi h' hr).2.2.2.1

theorem midpoint_pos (n : Nat) (h : 0 < n) : 0 < midpoint n := by
  unfold midpoint; omega

theorem midpoint_lt (n : Nat) (h : 1 < n) : midpoint n < n := by
  unfold midpoint; omega

theorem ClusterNode.rows_children_append (a b : List (ObjKey × ClusterNode)) :
    ClusterNode.rows_children (a ++ b) =
      ClusterNode.rows_children a ++ ClusterNode.rows_children b := by
  induction a with
  | nil => simp [ClusterNode.rows_children]
  | cons e rest ih =>
    obtain ⟨m, c⟩ := e
    simp [ClusterNode.rows_children, ih]

/-! ## Insertion -/

theorem InsertResult.entries_rows (m : ObjKey) (r : InsertResult) :
    ClusterNode.rows_children (r.entries m) = r.rows := by
  cases r <;> simp [InsertResult.entries, InsertResult.rows, ClusterNode.rows_children]

theorem InsertResult.entries_ordered (m : ObjKey) (r : InsertResult) (lo : WithBot ObjKey)
    (h : r.Ordered lo m) (hlo : lo < (m : WithBot ObjKey)) :
    ClusterNode.OrderedChildren (r.entries m) lo m := by
  cases r with
  | single n =>
    simp only [InsertResult.entries, ClusterNode.orderedChildren_cons]
    exact ⟨hlo, le_rfl, h, ClusterNode.orderedChildren_nil _ _⟩
  | split l r =>
    obtain ⟨h1, h2, h3, h4⟩ := h
    simp only [InsertResult.entries, ClusterNode.orderedChildren_cons]
    have hlt : l.max_key < m := WithTop.coe_lt_coe.mp h2
    exact ⟨h1, le_of_lt h2, h3, WithBot.coe_lt_coe.mpr hlt, le_rfl, h4,
      ClusterNode.orderedChildren_nil _ _⟩

theorem Cluster.leaf_insert_spec (cfg : Thresholds) (k : ObjKey) (v : FieldValues) (rows : Cluster)
    (lo : WithBot ObjKey) (hi : WithTop ObjKey) (h : (ClusterNode.leaf rows).Ordered lo hi)
    (hlo : lo < (k : WithBot ObjKey)) (hhi : (k : WithTop ObjKey) ≤ hi) :
    (k ∈ Cluster.keys rows → Cluster.insert cfg k v rows = .error Exception.DuplicateKey) ∧
    (k ∉ Cluster.keys rows → ∃ r, Cluster.insert cfg k v rows = .ok r ∧
      r.rows = Cluster.insert_row k v rows ∧ r.Ordered lo hi) := by
  constructor
  · intro hk
    have : (Cluster.lookup k rows).isSome = true := (Cluster.lookup_isSome_iff k rows).mpr hk
    unfold Cluster.insert
    cases hl : Cluster.lookup k rows with
    | none => simp [hl] at this
    | some w => rfl
  · intro hk
    have hl : Cluster.lookup k rows = none := (Cluster.lookup_eq_none_iff k rows).mpr hk
    rw [ClusterNode.ordered_leaf] at h
    have hord : (ClusterNode.leaf (Cluster.insert_row k v rows)).Ordered lo hi := by
      rw [ClusterNode.ordered_leaf]
      refine ⟨Cluster.sorted_insert_row k v rows h.1 hk, ?_⟩
      intro x hx
      rcases (Cluster.mem_keys_insert_row k v rows x).mp hx with rfl | hx
      · exact ⟨hlo, hhi⟩
      · exact h.2 x hx
    unfold Cluster.insert
    simp only [hl]
    by_cases hc : rows.length < cfg.node_capacity
    · rw [if_pos hc]
      exact ⟨_, rfl, by simp [InsertResult.rows, ClusterNode.rows], hord⟩
    · rw [if_neg hc]
      refine ⟨_, rfl, by simp [InsertResult.rows, ClusterNode.rows], ?_⟩
      have hlen : (Cluster.insert_row k v rows).length = rows.length + 1 :=
        Cluster.length_insert_row k v rows
      have hcap := cfg.capacity_pos
      have h1 : 1 < rows.length + 1 := by omega
      have hmp := midpoint_pos (rows.length + 1) (by omega)
      have hml := midpoint_lt (rows.length + 1) h1
      set rows' := Cluster.insert_row k v rows with hrows'
      have hta : rows'.take (midpoint (rows.length + 1)) ≠ [] := by
        intro e
        have := congrArg List.length e
        rw [List.length_take, List.length_nil, hlen] at this
        omega
      have hdr : rows'.drop (midpoint (rows.length + 1)) ≠ [] := by
        intro e
        have := congrArg List.length e
        rw [List.length_drop, List.length_nil, hlen] at this
        omega
      have hord' : (ClusterNode.leaf (rows'.take (midpoint (rows.length + 1)) ++
          rows'.drop (midpoint (rows.length + 1)))).Ordered lo hi := by
        rw [List.take_append_drop]; exact hord
      obtain ⟨s1, _, s3, s4, s5⟩ := ClusterNode.ordered_leaf_split _ _ lo hi hord' hta
      exact ⟨s1, s3 hdr, s4, s5⟩

theorem ClusterNode.split_children_spec (cfg : Thresholds) (cs : List (ObjKey × ClusterNode))
    (lo : WithBot ObjKey) (hi : WithTop ObjKey) (h : ClusterNode.OrderedChildren cs lo hi) :
    (ClusterNode.split_children cfg cs).rows = ClusterNode.rows_children cs ∧
      (ClusterNode.split_children cfg cs).Ordered lo hi := by
  unfold ClusterNode.split_children
  by_cases hc : cs.length ≤ cfg.node_capacity
  · rw [if_pos hc]
    exact ⟨by simp [InsertResult.rows, ClusterNode.rows], (ClusterNode.ordered_inner cs lo hi).mpr h⟩
  · rw [if_neg hc]
    have hcap := cfg.capacity_pos
    have h1 : 1 < cs.length := by omega
    have hmp := midpoint_pos cs.length (by omega)
    have hml := midpoint_lt cs.length h1
    constructor
    · simp only [InsertResult.rows, ClusterNode.rows]
      rw [← ClusterNode.rows_children_append, List.take_append_drop]
    · have hta : cs.take (midpoint cs.length) ≠ [] := by
        intro e
        have := congrArg List.length e
        rw [List.length_take, List.length_nil] at this
        omega
      have hdr : cs.drop (midpoint cs.length) ≠ [] := by
        intro e
        have := congrArg List.length e
        rw [List.length_drop, List.length_nil] at this
        omega
      have hord' : ClusterNode.OrderedChildren
          (cs.take (midpoint cs.length) ++ cs.drop (midpoint cs.length)) lo hi := by
        rw [List.take_append_drop]; exact h
      obtain ⟨s1, _, s3, s4, s5⟩ := ClusterNode.orderedChildren_split _ _ lo hi hord' hta
      exact ⟨s1, s3 hdr, (ClusterNode.ordered_inner _ _ _).mpr s4,
        (ClusterNode.ordered_inner _ _ _).mpr s5⟩

mutual
theorem ClusterNode.node_insert_spec (cfg : Thresholds) (k : ObjKey) (v : FieldValues) :
    ∀ (n : ClusterNode) (lo : WithBot ObjKey) (hi : WithTop ObjKey), n.Ordered lo hi →
      lo < (k : WithBot ObjKey) → (k : WithTop ObjKey) ≤ hi →
      (k ∈ Cluster.keys n.rows → n.insert cfg k v = .error Exception.DuplicateKey) ∧
      (k ∉ Cluster.keys n.rows → ∃ r, n.insert cfg k v = .ok r ∧
        r.rows = Cluster.insert_row k v n.rows ∧ r.Ordered lo hi)
  | .leaf rows, lo, hi, h, hlo, hhi => by
    simpa [ClusterNode.insert, ClusterNode.rows] using Cluster.leaf_insert_spec cfg k v rows lo hi h hlo hhi
  | .inner cs, lo, hi, h, hlo, hhi => by
    rw [ClusterNode.ordered_inner] at h
    obtain ⟨i1, i2⟩ := ClusterNode.insert_children_spec cfg k v cs lo hi h hlo hhi
    constructor
    · intro hk
      rw [ClusterNode.insert, i1 (by simpa [ClusterNode.rows] using hk)]
    · intro hk
      obtain ⟨cs', e1, e2, e3⟩ := i2 (by simpa [ClusterNode.rows] using hk)
      refine ⟨ClusterNode.split_children cfg cs', ?_, ?_, ?_⟩
      · rw [ClusterNode.insert, e1]
      · rw [(ClusterNode.split_children_spec cfg cs' lo hi e3).1, e2]
        simp [ClusterNode.rows]
      · exact (ClusterNode.split_children_spec cfg cs' lo hi e3).2
theorem ClusterNode.insert_children_spec (cfg : Thresholds) (k : ObjKey) (v : FieldValues) :
    ∀ (cs : List (ObjKey × ClusterNode)) (lo : WithBot ObjKey) (hi : WithTop ObjKey),
      ClusterNode.OrderedChildren cs lo hi →
      lo < (k : WithBot ObjKey) → (k : WithTop ObjKey) ≤ hi →
      (k ∈ Cluster.keys (ClusterNode.rows_children cs) →
        ClusterNode.insert_children cfg k v cs = .error Exception.DuplicateKey) ∧
      (k ∉ Cluster.keys (ClusterNode.rows_children cs) →
        ∃ cs', ClusterNode.insert_children cfg k v cs = .ok cs' ∧
          ClusterNode.rows_children cs' = Cluster.insert_row k v (ClusterNode.rows_children cs) ∧
          ClusterNode.OrderedChildren cs' lo hi)
  | [], lo, hi, _, hlo, hhi => by
    constructor
    · intro hk
      simp [ClusterNode.rows_children, Cluster.keys] at hk
    · intro _
      refine ⟨_, by rw [ClusterNode.insert_children], ?_, ?_⟩
      · simp [ClusterNode.rows_children, ClusterNode.rows, Cluster.insert_row]
      · rw [ClusterNode.orderedChildren_cons, ClusterNode.ordered_leaf]
        refine ⟨hlo, hhi, ⟨by simp [Cluster.keys], ?_⟩, ClusterNode.orderedChildren_nil _ _⟩
        intro x hx
        have : x = k := by simpa [Cluster.keys] using hx
        subst this
        exact ⟨hlo, le_rfl⟩
  | (m, c) :: rest, lo, hi, h, hlo, hhi => by
    rw [ClusterNode.orderedChildren_cons] at h
    obtain ⟨h1, h2, h3, h4⟩ := h
    rw [ClusterNode.insert_children, ClusterNode.rows_children, Cluster.keys_append]
    by_cases hc : k ≤ m ∨ rest.isEmpty = true
    · rw [if_pos hc]
      -- the key belongs to this child; the new recorded maximum is `max m k`
      have hM1 : (m : WithTop ObjKey) ≤ ((max m k : ObjKey) : WithTop ObjKey) :=
        WithTop.coe_le_coe.mpr (le_max_left m k)
      have hM2 : (k : WithTop ObjKey) ≤ ((max m k : ObjKey) : WithTop ObjKey) :=
        WithTop.coe_le_coe.mpr (le_max_right m k)
      have hM3 : ((max m k : ObjKey) : WithTop ObjKey) ≤ hi := by
        rcases le_total m k with hmk | hmk
        · rw [max_eq_right hmk]; exact hhi
        · rw [max_eq_left hmk]; exact h2
      have hc3 : c.Ordered lo ((max m k : ObjKey) : WithTop ObjKey) :=
        ClusterNode.ordered_mono c lo lo m _ h3 le_rfl hM1
      obtain ⟨i1, i2⟩ := ClusterNode.node_insert_spec cfg k v c lo _ hc3 hlo hM2
      have hrest : k ∉ Cluster.keys (ClusterNode.rows_children rest) := by
        intro hm
        have hb := (ClusterNode.orderedChildren_bounds rest m hi h4 k hm).1
        have hlt : m < k := WithBot.coe_lt_coe.mp hb
        rcases hc with hc | hc
        · exact absurd hc (not_le.mpr hlt)
        · have : rest = [] := List.isEmpty_iff.mp hc
          subst this
          simp [ClusterNode.rows_children, Cluster.keys] at hm
      have hrest' : ∀ x ∈ Cluster.keys (ClusterNode.rows_children rest), k < x := by
        intro x hx
        have hb := (ClusterNode.orderedChildren_bounds rest m hi h4 x hx).1
        have hlt : m < x := WithBot.coe_lt_coe.mp hb
        rcases hc with hc | hc
        · exact lt_of_le_of_lt hc hlt
        · have : rest = [] := List.isEmpty_iff.mp hc
          subst this
          simp [ClusterNode.rows_children, Cluster.keys] at hx
      have hrestM : ClusterNode.OrderedChildren rest ((max m k : ObjKey) : WithBot ObjKey) hi := by
        rcases hc with hc | hc
        · rw [max_eq_left hc]; exact h4
        · have : rest = [] := List.isEmpty_iff.mp hc
          subst this
          exact ClusterNode.orderedChildren_nil _ _
      constructor
      · intro hk
        rcases List.mem_append.mp hk with hk | hk
        · rw [i1 hk]
        · exact absurd hk hrest
      · intro hk
        have hkc : k ∉ Cluster.keys c.rows := fun hm => hk (List.mem_append.mpr (Or.inl hm))
        obtain ⟨r, e1, e2, e3⟩ := i2 hkc
        refine ⟨r.entries (max m k) ++ rest, by rw [e1], ?_, ?_⟩
        · rw [ClusterNode.rows_children_append, InsertResult.entries_rows, e2,
            Cluster.insert_row_append_left k v _ _ hrest']
        · have hloM : lo < ((max m k : ObjKey) : WithBot ObjKey) :=
            lt_of_lt_of_le h1 (WithBot.coe_le_coe.mpr (le_max_left m k))
          exact ClusterNode.orderedChildren_append _ _ lo (max m k) hi
            (InsertResult.entries_ordered _ r lo e3 hloM) hrestM (le_of_lt hloM) hM3
    · rw [if_neg hc]
      have hmk : m < k := by
        by_contra hn
        exact hc (Or.inl (not_lt.mp hn))
      obtain ⟨i1, i2⟩ := ClusterNode.insert_children_spec cfg k v rest m hi h4
        (WithBot.coe_lt_coe.mpr hmk) hhi
      have hcn : k ∉ Cluster.keys c.rows := by
        intro hm
        have hb := (ClusterNode.ordered_bounds c lo m h3 k hm).2
        exact absurd (WithTop.coe_le_coe.mp hb) (not_le.mpr hmk)
      have hc' : ∀ x ∈ Cluster.keys c.rows, x < k := by
        intro x hx
        have hb := (ClusterNode.ordered_bounds c lo m h3 x hx).2
        exact lt_of_le_of_lt (WithTop.coe_le_coe.mp hb) hmk
      constructor
      · intro hk
        rcases List.mem_append.mp hk with hk | hk
        · exact absurd hk hcn
        · rw [i1 hk]
      · intro hk
        have hkr : k ∉ Cluster.keys (ClusterNode.rows_children rest) :=
          fun hm => hk (List.mem_append.mpr (Or.inr hm))
        obtain ⟨rest', e1, e2, e3⟩ := i2 hkr
        refine ⟨(m, c) :: rest', by rw [e1], ?_, ?_⟩
        · rw [ClusterNode.rows_children, e2, Cluster.insert_row_append_right k v _ _ hc']
        · rw [ClusterNode.orderedChildren_cons]
          exact ⟨h1, h2, h3, e3⟩
end

/-! ## Erasure -/

theorem ClusterNode.ordered_leaf_erase_row (k : ObjKey) (rows : Cluster) (lo : WithBot ObjKey)
    (hi : WithTop ObjKey) (h : (ClusterNode.leaf rows).Ordered lo hi) :
    (ClusterNode.leaf (Cluster.erase_row k rows)).Ordered lo hi := by
  rw [ClusterNode.ordered_leaf] at h ⊢
  have hsub := Cluster.keys_erase_row_sublist k rows
  exact ⟨h.1.sublist hsub, fun x hx => h.2 x (hsub.subset hx)⟩

theorem ClusterNode.merge_siblings_spec (cfg : Thresholds) (m1 : ObjKey) (c1 : ClusterNode)
    (m2 : ObjKey) (c2 : ClusterNode) (lo : WithBot ObjKey)
    (h1 : c1.Ordered lo m1) (h2 : c2.Ordered m1 m2)
    (hlo : lo < (m1 : WithBot ObjKey)) (hm : m1 < m2) :
    ClusterNode.rows_children (ClusterNode.merge_siblings cfg m1 c1 m2 c2) = c1.rows ++ c2.rows ∧
      ClusterNode.OrderedChildren (ClusterNode.merge_siblings cfg m1 c1 m2 c2) lo m2 := by
  have hcap := cfg.capacity_pos
  have hlo2 : lo < (m2 : WithBot ObjKey) := lt_trans hlo (WithBot.coe_lt_coe.mpr hm)
  have hm' : (m1 : WithTop ObjKey) ≤ (m2 : WithTop ObjKey) := WithTop.coe_le_coe.mpr (le_of_lt hm)
  have hkeep : ClusterNode.rows_children [(m1, c1), (m2, c2)] = c1.rows ++ c2.rows ∧
      ClusterNode.OrderedChildren [(m1, c1), (m2, c2)] lo m2 := by
    constructor
    · simp [ClusterNode.rows_children]
    · simp only [ClusterNode.orderedChildren_cons]
      exact ⟨hlo, hm', h1, WithBot.coe_lt_coe.mpr hm, le_rfl, h2,
        ClusterNode.orderedChildren_nil _ _⟩
  cases c1 with
  | leaf a =>
    cases c2 with
    | inner b => simpa [ClusterNode.merge_siblings] using hkeep
    | leaf b =>
      have hall : (ClusterNode.leaf (a ++ b)).Ordered lo m2 :=
        ClusterNode.ordered_leaf_append a b lo m1 m2 h1 h2 (le_of_lt hlo) hm'
      unfold ClusterNode.merge_siblings
      by_cases hc : (a ++ b).length ≤ cfg.node_capacity
      · simp only [hc, if_true]
        constructor
        · simp [ClusterNode.rows_children, ClusterNode.rows]
        · rw [ClusterNode.orderedChildren_cons]
          exact ⟨hlo2, le_rfl, hall, ClusterNode.orderedChildren_nil _ _⟩
      · simp only [hc, if_false]
        have hlen : 1 < (a ++ b).length := by omega
        have hmp := midpoint_pos (a ++ b).length (by omega)
        have hml := midpoint_lt (a ++ b).length hlen
        have hta : (a ++ b).take (midpoint (a ++ b).length) ≠ [] := by
          intro e
          have := congrArg List.length e
          rw [List.length_take, List.length_nil] at this
          omega
        have hdr : (a ++ b).drop (midpoint (a ++ b).length) ≠ [] := by
          intro e
          have := congrArg List.length e
          rw [List.length_drop, List.length_nil] at this
          omega
        have hord' : (ClusterNode.leaf ((a ++ b).take (midpoint (a ++ b).length) ++
            (a ++ b).drop (midpoint (a ++ b).length))).Ordered lo m2 := by
          rw [List.take_append_drop]; exact hall
        obtain ⟨s1, s2, s3, s4, s5⟩ := ClusterNode.ordered_leaf_split _ _ lo m2 hord' hta
        constructor
        · simp only [ClusterNode.rows_children, ClusterNode.rows, List.append_nil]
          rw [List.take_append_drop]
        · simp only [ClusterNode.orderedChildren_cons]
          exact ⟨s1, s2, s4, WithBot.coe_lt_coe.mpr (WithTop.coe_lt_coe.mp (s3 hdr)), le_rfl, s5,
            ClusterNode.orderedChildren_nil _ _⟩
  | inner a =>
    cases c2 with
    | leaf b => simpa [ClusterNode.merge_siblings] using hkeep
    | inner b =>
      rw [ClusterNode.ordered_inner] at h1 h2
      have hall : ClusterNode.OrderedChildren (a ++ b) lo m2 :=
        ClusterNode.orderedChildren_append a b lo m1 m2 h1 h2 (le_of_lt hlo) hm'
      unfold ClusterNode.merge_siblings
      by_cases hc : (a ++ b).length ≤ cfg.node_capacity
      · simp only [hc, if_true]
        constructor
        · simp [ClusterNode.rows_children, ClusterNode.rows, ClusterNode.rows_children_append]
        · rw [ClusterNode.orderedChildren_cons, ClusterNode.ordered_inner]
          exact ⟨hlo2, le_rfl, hall, ClusterNode.orderedChildren_nil _ _⟩
      · simp only [hc, if_false]
        have hlen : 1 < (a ++ b).length := by omega
        have hmp := midpoint_pos (a ++ b).length (by omega)
        have hml := midpoint_lt (a ++ b).length hlen
        have hta : (a ++ b).take (midpoint (a ++ b).length) ≠ [] := by
          intro e
          have := congrArg List.length e
          rw [List.length_take, List.length_nil] at this
          omega
        have hdr : (a ++ b).drop (midpoint (a ++ b).length) ≠ [] := by
          intro e
          have := congrArg List.length e
          rw [List.length_drop, List.length_nil] at this
          omega
        have hord' : ClusterNode.OrderedChildren ((a ++ b).take (midpoint (a ++ b).length) ++
            (a ++ b).drop (midpoint (a ++ b).length)) lo m2 := by
          rw [List.take_append_drop]; exact hall
        obtain ⟨s1, s2, s3, s4, s5⟩ := ClusterNode.orderedChildren_split _ _ lo m2 hord' hta
        constructor
        · simp only [ClusterNode.rows_children, ClusterNode.rows, List.append_nil]
          rw [← ClusterNode.rows_children_append, List.take_append_drop,
            ClusterNode.rows_children_append]
        · simp only [ClusterNode.orderedChildren_cons, ClusterNode.ordered_inner]
          exact ⟨s1, s2, s4, WithBot.coe_lt_coe.mpr (WithTop.coe_lt_coe.mp (s3 hdr)), le_rfl, s5,
            ClusterNode.orderedChildren_nil _ _⟩

/-- Two adjacent children of an ordered sequence, merged or rebalanced, leave
the rows and the order of the sequence as they were. -/
theorem ClusterNode.merge_head_spec (cfg : Thresholds) (m1 : ObjKey) (c1 : ClusterNode)
    (m2 : ObjKey) (c2 : ClusterNode) (rest : List (ObjKey × ClusterNode))
    (lo : WithBot ObjKey) (hi : WithTop ObjKey)
    (h : ClusterNode.OrderedChildren ((m1, c1) :: (m2, c2) :: rest) lo hi) :
    ClusterNode.rows_children (ClusterNode.merge_siblings cfg m1 c1 m2 c2 ++ rest) =
        ClusterNode.rows_children ((m1, c1) :: (m2, c2) :: rest) ∧
      ClusterNode.OrderedChildren (ClusterNode.merge_siblings cfg m1 c1 m2 c2 ++ rest) lo hi := by
  simp only [ClusterNode.orderedChildren_cons] at h
  obtain ⟨h1, _, h3, h4, h5, h6, h7⟩ := h
  have hm : m1 < m2 := WithBot.coe_lt_coe.mp h4
  obtain ⟨e1, e2⟩ := ClusterNode.merge_siblings_spec cfg m1 c1 m2 c2 lo h3 h6 h1 hm
  constructor
  · rw [ClusterNode.rows_children_append, e1]
    simp [ClusterNode.rows_children]
  · exact ClusterNode.orderedChildren_append _ _ lo m2 hi e2 h7
      (le_of_lt (lt_trans h1 h4)) h5

theorem ClusterNode.rebalance_spec (cfg : Thresholds) (i : Nat)
    (cs : List (ObjKey × ClusterNode)) :
    ∀ (lo : WithBot ObjKey) (hi : WithTop ObjKey), ClusterNode.OrderedChildren cs lo hi →
      ClusterNode.rows_children (ClusterNode.rebalance cfg i cs) = ClusterNode.rows_children cs ∧
        ClusterNode.OrderedChildren (ClusterNode.rebalance cfg i cs) lo hi := by
  induction i, cs using ClusterNode.rebalance.induct cfg with
  | case1 m1 c1 m2 c2 rest hocc =>
    intro lo hi h
    rw [ClusterNode.rebalance, if_pos hocc]
    exact ClusterNode.merge_head_spec cfg m1 c1 m2 c2 rest lo hi h
  | case2 m1 c1 m2 c2 rest hocc =>
    intro lo hi h
    rw [ClusterNode.rebalance, if_neg hocc]
    exact ⟨rfl, h⟩
  | case3 m1 c1 m2 c2 hocc =>
    intro lo hi h
    rw [ClusterNode.rebalance, if_pos hocc]
    simpa using ClusterNode.merge_head_spec cfg m1 c1 m2 c2 [] lo hi h
  | case4 m1 c1 m2 c2 hocc =>
    intro lo hi h
    rw [ClusterNode.rebalance, if_neg hocc]
    exact ⟨rfl, h⟩
  | case5 i e rest hne ih =>
    intro lo hi h
    obtain ⟨m, c⟩ := e
    rw [ClusterNode.orderedChildren_cons] at h
    obtain ⟨h1, h2, h3, h4⟩ := h
    obtain ⟨e1, e2⟩ := ih m hi h4
    have hr : ClusterNode.rebalance cfg (i + 1) ((m, c) :: rest) =
        (m, c) :: ClusterNode.rebalance cfg i rest := by
      rw [ClusterNode.rebalance]
      intro m1 c1 m2 c2 hi' hcs
      exact hne m1 c1 m2 c2 hi' hcs
    rw [hr, ClusterNode.rows_children, ClusterNode.rows_children, e1,
      ClusterNode.orderedChildren_cons]
    exact ⟨rfl, h1, h2, h3, e2⟩
  | case6 i cs h1 h2 h3 =>
    intro lo hi h
    rw [ClusterNode.rebalance]
    · exact ⟨rfl, h⟩
    all_goals assumption

theorem Cluster.lookup_some_mem (k : ObjKey) (rows : Cluster) (v : FieldValues)
    (h : Cluster.lookup k rows = some v) : k ∈ Cluster.keys rows := by
  rw [← Cluster.lookup_isSome_iff, h]; rfl

mutual
theorem ClusterNode.node_erase_spec (cfg : Thresholds) (k : ObjKey) :
    ∀ (n : ClusterNode) (lo : WithBot ObjKey) (hi : WithTop ObjKey), n.Ordered lo hi →
      (k ∉ Cluster.keys n.rows → n.erase cfg k = .error Exception.KeyNotFound) ∧
      (∀ v, Cluster.lookup k n.rows = some v → ∃ n', n.erase cfg k = .ok (n', v) ∧
        n'.rows = Cluster.erase_row k n.rows ∧ n'.Ordered lo hi)
  | .leaf rows, lo, hi, h => by
    constructor
    · intro hk
      have hl : Cluster.lookup k rows = none :=
        (Cluster.lookup_eq_none_iff k rows).mpr (by simpa [ClusterNode.rows] using hk)
      simp [ClusterNode.erase, hl]
    · intro v hv
      have hl : Cluster.lookup k rows = some v := by simpa [ClusterNode.rows] using hv
      refine ⟨.leaf (Cluster.erase_row k rows), by simp [ClusterNode.erase, hl],
        by simp [ClusterNode.rows], ClusterNode.ordered_leaf_erase_row k rows lo hi h⟩
  | .inner cs, lo, hi, h => by
    rw [ClusterNode.ordered_inner] at h
    obtain ⟨i1, i2⟩ := ClusterNode.erase_children_spec cfg k cs lo hi h
    constructor
    · intro hk
      rw [ClusterNode.erase, i1 (by simpa [ClusterNode.rows] using hk)]
    · intro v hv
      obtain ⟨cs', i, e1, e2, e3⟩ := i2 v (by simpa [ClusterNode.rows] using hv)
      obtain ⟨r1, r2⟩ := ClusterNode.rebalance_spec cfg i cs' lo hi e3
      refine ⟨.inner (ClusterNode.rebalance cfg i cs'), by rw [ClusterNode.erase, e1], ?_, ?_⟩
      · simp only [ClusterNode.rows]
        rw [r1, e2]
      · exact (ClusterNode.ordered_inner _ _ _).mpr r2
theorem ClusterNode.erase_children_spec (cfg : Thresholds) (k : ObjKey) :
    ∀ (cs : List (ObjKey × ClusterNode)) (lo : WithBot ObjKey) (hi : WithTop ObjKey),
      ClusterNode.OrderedChildren cs lo hi →
      (k ∉ Cluster.keys (ClusterNode.rows_children cs) →
        ClusterNode.erase_children cfg k cs = .error Exception.KeyNotFound) ∧
      (∀ v, Cluster.lookup k (ClusterNode.rows_children cs) = some v →
        ∃ cs' i, ClusterNode.erase_children cfg k cs = .ok (cs', i, v) ∧
          ClusterNode.rows_children cs' = Cluster.erase_row k (ClusterNode.rows_children cs) ∧
          ClusterNode.OrderedChildren cs' lo hi)
  | [], _, _, _ => by
    constructor
    · intro _
      rw [ClusterNode.erase_children]
    · intro v hv
      simp [ClusterNode.rows_children, Cluster.lookup] at hv
  | (m, c) :: rest, lo, hi, h => by
    rw [ClusterNode.orderedChildren_cons] at h
    obtain ⟨h1, h2, h3, h4⟩ := h
    rw [ClusterNode.erase_children, ClusterNode.rows_children, Cluster.keys_append,
      Cluster.lookup_append]
    by_cases hc : k ≤ m
    · rw [if_pos hc]
      obtain ⟨i1, i2⟩ := ClusterNode.node_erase_spec cfg k c lo m h3
      have hrest := ClusterNode.orderedChildren_lookup_none rest m hi h4 k hc
      constructor
      · intro hk
        rw [i1 (fun hm => hk (List.mem_append.mpr (Or.inl hm)))]
      · intro v hv
        have hvc : Cluster.lookup k c.rows = some v := by
          cases hl : Cluster.lookup k c.rows with
          | none => rw [hl, hrest] at hv; simp at hv
          | some w => rw [hl] at hv; simpa using hv
        obtain ⟨c', e1, e2, e3⟩ := i2 v hvc
        refine ⟨(m, c') :: rest, 0, by rw [e1], ?_, ?_⟩
        · rw [ClusterNode.rows_children, e2,
            Cluster.erase_row_append_left k _ _ (Cluster.lookup_some_mem k _ v hvc)]
        · rw [ClusterNode.orderedChildren_cons]
          exact ⟨h1, h2, e3, h4⟩
    · rw [if_neg hc]
      have hmk : m < k := not_le.mp hc
      obtain ⟨i1, i2⟩ := ClusterNode.erase_children_spec cfg k rest m hi h4
      have hcl := ClusterNode.ordered_lookup_none c lo m h3 k hmk
      have hcn : k ∉ Cluster.keys c.rows := (Cluster.lookup_eq_none_iff k _).mp hcl
      constructor
      · intro hk
        rw [i1 (fun hm => hk (List.mem_append.mpr (Or.inr hm)))]
      · intro v hv
        have hvr : Cluster.lookup k (ClusterNode.rows_children rest) = some v := by
          rw [hcl] at hv; simpa using hv
        obtain ⟨rest', i, e1, e2, e3⟩ := i2 v hvr
        refine ⟨(m, c) :: rest', i + 1, by rw [e1], ?_, ?_⟩
        · rw [ClusterNode.rows_children, e2, Cluster.erase_row_append_right k _ _ hcn]
        · rw [ClusterNode.orderedChildren_cons]
          exact ⟨h1, h2, h3, e3⟩
end

theorem ClusterNode.collapse_root_spec (n : ClusterNode) (h : n.Ordered ⊥ ⊤) :
    n.collapse_root.rows = n.rows ∧ n.collapse_root.Ordered ⊥ ⊤ := by
  unfold ClusterNode.collapse_root
  split
  · rename_i m c
    rw [ClusterNode.ordered_inner, ClusterNode.orderedChildren_cons] at h
    exact ⟨by simp [ClusterNode.rows, ClusterNode.rows_children],
      ClusterNode.ordered_mono c ⊥ ⊥ m ⊤ h.2.2.1 le_rfl le_top⟩
  · exact ⟨rfl, h⟩

/-! ## The tree -/

mutual
theorem ClusterNode.traverse_collect_keys :
    ∀ (n : ClusterNode) (acc : List ObjKey),
      n.traverse collect_keys acc = (acc ++ Cluster.keys n.rows, false)
  | .leaf rows, acc => by simp [ClusterNode.traverse, ClusterNode.rows, collect_keys]
  | .inner cs, acc => by
    simpa [ClusterNode.traverse, ClusterNode.rows] using
      ClusterNode.traverse_children_collect_keys cs acc
theorem ClusterNode.traverse_children_collect_keys :
    ∀ (cs : List (ObjKey × ClusterNode)) (acc : List ObjKey),
      ClusterNode.traverse_children collect_keys acc cs =
        (acc ++ Cluster.keys (ClusterNode.rows_children cs), false)
  | [], acc => by simp [ClusterNode.traverse_children, ClusterNode.rows_children, Cluster.keys]
  | (m, c) :: rest, acc => by
    rw [ClusterNode.traverse_children, ClusterNode.traverse_collect_keys c acc]
    simp only []
    rw [ClusterNode.traverse_children_collect_keys rest, ClusterNode.rows_children,
      Cluster.keys_append, List.append_assoc]
end

theorem ClusterTree.visited_keys_eq (t : ClusterTree) :
    t.visited_keys = Cluster.keys t.m_root.rows := by
  simp [ClusterTree.visited_keys, ClusterTree.traverse, ClusterNode.traverse_collect_keys]

mutual
theorem ClusterNode.get_tree_size_eq :
    ∀ (n : ClusterNode), n.get_tree_size = n.rows.length
  | .leaf rows => by simp [ClusterNode.get_tree_size, ClusterNode.rows]
  | .inner cs => by
    simpa [ClusterNode.get_tree_size, ClusterNode.rows] using
      ClusterNode.get_tree_size_children_eq cs
theorem ClusterNode.get_tree_size_children_eq :
    ∀ (cs : List (ObjKey × ClusterNode)),
      ClusterNode.get_tree_size_children cs = (ClusterNode.rows_children cs).length
  | [] => by simp [ClusterNode.get_tree_size_children, ClusterNode.rows_children]
  | (m, c) :: rest => by
    rw [ClusterNode.get_tree_size_children, ClusterNode.rows_children, List.length_append,
      ClusterNode.get_tree_size_eq c, ClusterNode.get_tree_size_children_eq rest]
end

theorem Cluster.index_of_eq_none_iff (k : ObjKey) (rows : Cluster) :
    Cluster.index_of k rows = none ↔ k ∉ Cluster.keys rows := by
  induction rows with
  | nil => simp [Cluster.index_of, Cluster.keys]
  | cons r rest ih =>
    obtain ⟨k', v⟩ := r
    by_cases h : k' = k
    · simp [Cluster.index_of, Cluster.keys, h]
    · have h' : ¬ k = k' := fun e => h e.symm
      simpa [Cluster.index_of, Cluster.keys, h, h'] using ih

theorem Cluster.index_of_append (k : ObjKey) (a b : Cluster) :
    Cluster.index_of k (a ++ b) =
      (Cluster.index_of k a).orElse
        (fun _ => (Cluster.index_of k b).map (· + a.length)) := by
  induction a with
  | nil => simp [Cluster.index_of]
  | cons r rest ih =>
    obtain ⟨k', v⟩ := r
    by_cases h : k' = k
    · simp [Cluster.index_of, h]
    · have e : Cluster.index_of k ((k', v) :: rest ++ b) =
          (Cluster.index_of k (rest ++ b)).map (· + 1) := by
        simp [Cluster.index_of, h]
      have e' : Cluster.index_of k ((k', v) :: rest) = (Cluster.index_of k rest).map (· + 1) := by
        simp [Cluster.index_of, h]
      rw [e, e', ih, List.length_cons]
      generalize Cluster.index_of k rest = x
      generalize Cluster.index_of k b = y
      cases x with
      | some i => simp
      | none =>
        cases y with
        | some j => simp; omega
        | none => simp

mutual
theorem ClusterNode.get_ndx_eq_index_of :
    ∀ (n : ClusterNode) (lo : WithBot ObjKey) (hi : WithTop ObjKey), n.Ordered lo hi →
      ∀ k, n.get_ndx k = Cluster.index_of k n.rows
  | .leaf rows, _, _, _ => by
    intro k
    simp [ClusterNode.get_ndx, ClusterNode.rows]
  | .inner cs, lo, hi, h => by
    intro k
    rw [ClusterNode.ordered_inner] at h
    simpa [ClusterNode.get_ndx, ClusterNode.rows] using
      ClusterNode.get_ndx_children_eq_index_of cs lo hi h k
theorem ClusterNode.get_ndx_children_eq_index_of :
    ∀ (cs : List (ObjKey × ClusterNode)) (lo : WithBot ObjKey) (hi : WithTop ObjKey),
      ClusterNode.OrderedChildren cs lo hi →
      ∀ k, ClusterNode.get_ndx_children k cs = Cluster.index_of k (ClusterNode.rows_children cs)
  | [], _, _, _ => by
    intro k
    simp [ClusterNode.get_ndx_children, ClusterNode.rows_children, Cluster.index_of]
  | (m, c) :: rest, lo, hi, h => by
    intro k
    rw [ClusterNode.orderedChildren_cons] at h
    obtain ⟨h1, h2, h3, h4⟩ := h
    rw [ClusterNode.get_ndx_children, ClusterNode.rows_children, Cluster.index_of_append]
    by_cases hk : k ≤ m
    · have hn : Cluster.index_of k (ClusterNode.rows_children rest) = none := by
        rw [Cluster.index_of_eq_none_iff, ← Cluster.lookup_eq_none_iff]
        exact ClusterNode.orderedChildren_lookup_none rest m hi h4 k hk
      rw [if_pos hk, ClusterNode.get_ndx_eq_index_of c lo m h3 k, hn]
      cases Cluster.index_of k c.rows <;> rfl
    · have hn : Cluster.index_of k c.rows = none := by
        rw [Cluster.index_of_eq_none_iff, ← Cluster.lookup_eq_none_iff]
        exact ClusterNode.ordered_lookup_none c lo m h3 k (not_le.mp hk)
      rw [if_neg hk, ClusterNode.get_ndx_children_eq_index_of rest m hi h4 k, hn,
        ClusterNode.get_tree_size_eq]
      rfl
end

theorem ClusterTree.create_valid (alloc : Allocator) : (ClusterTree.create alloc).Valid := by
  constructor
  · simp [ClusterTree.create, ClusterNode.ordered_leaf, Cluster.keys]
  · simp [ClusterTree.create, ClusterNode.rows]

theorem ClusterTree.is_valid_iff (t : ClusterTree) (h : t.Valid) (k : ObjKey) :
    t.is_valid k = true ↔ k ∈ Cluster.keys t.m_root.rows := by
  rw [ClusterTree.is_valid, ClusterNode.find_eq_lookup _ _ _ h.1, Cluster.lookup_isSome_iff]

theorem ClusterTree.insert_fast_spec (cfg : Thresholds) (t : ClusterTree) (h : t.Valid)
    (k : ObjKey) (v : FieldValues) :
    (k ∈ Cluster.keys t.m_root.rows →
      t.insert_fast cfg k v = .error Exception.DuplicateKey) ∧
    (k ∉ Cluster.keys t.m_root.rows → ∃ t', t.insert_fast cfg k v = .ok t' ∧
      t'.m_root.rows = Cluster.insert_row k v t.m_root.rows ∧ t'.Valid ∧
      t'.m_size = t.m_size + 1 ∧
      t'.get_instance_version = t.get_instance_version) := by
  obtain ⟨ho, hs⟩ := h
  have hM : t.m_root.Ordered ⊥ ((max t.m_root.max_key k : ObjKey) : WithTop ObjKey) :=
    ClusterNode.ordered_mono _ ⊥ ⊥ _ _ (ClusterNode.ordered_tighten _ ⊥ ⊤ ho) le_rfl
      (WithTop.coe_le_coe.mpr (le_max_left _ _))
  obtain ⟨i1, i2⟩ := ClusterNode.node_insert_spec cfg k v t.m_root ⊥ _ hM (WithBot.bot_lt_coe k)
    (WithTop.coe_le_coe.mpr (le_max_right _ _))
  constructor
  · intro hk
    simp [ClusterTree.insert_fast, i1 hk]
  · intro hk
    obtain ⟨r, e1, e2, e3⟩ := i2 hk
    cases r with
    | single n =>
      have hins : t.insert_fast cfg k v =
          .ok { (t.bump_storage_version) with m_root := n, m_size := t.m_size + 1 } := by
        simp [ClusterTree.insert_fast, e1]
      refine ⟨_, hins, ?_, ⟨?_, ?_⟩, rfl, rfl⟩
      · simpa [InsertResult.rows] using e2
      · exact ClusterNode.ordered_mono n ⊥ ⊥ _ ⊤ e3 le_rfl le_top
      · have : n.rows = Cluster.insert_row k v t.m_root.rows := by
          simpa [InsertResult.rows] using e2
        simp [this, Cluster.length_insert_row, hs]
    | split l r =>
      have hrows : ClusterNode.rows_children
          (InsertResult.entries (max t.m_root.max_key k) (.split l r)) =
          Cluster.insert_row k v t.m_root.rows := by
        rw [InsertResult.entries_rows, e2]
      have hins : t.insert_fast cfg k v =
          .ok { (t.bump_storage_version) with
                m_root := .inner (InsertResult.entries (max t.m_root.max_key k) (.split l r))
                m_size := t.m_size + 1 } := by
        simp [ClusterTree.insert_fast, e1]
      refine ⟨_, hins, ?_, ⟨?_, ?_⟩, rfl, rfl⟩
      · simpa [ClusterNode.rows] using hrows
      · have := InsertResult.entries_ordered _ (.split l r) ⊥ e3 (WithBot.bot_lt_coe _)
        exact (ClusterNode.ordered_inner _ _ _).mpr
          (ClusterNode.orderedChildren_mono _ ⊥ ⊥ _ ⊤ this le_rfl le_top)
      · simp only [ClusterNode.rows]
        rw [hrows, Cluster.length_insert_row, hs]

theorem ClusterTree.tree_erase_spec (cfg : Thresholds) (t : ClusterTree) (h : t.Valid)
    (k : ObjKey) (s : CascadeState) :
    (k ∉ Cluster.keys t.m_root.rows → t.erase cfg k s = .error Exception.KeyNotFound) ∧
    (∀ v, Cluster.lookup k t.m_root.rows = some v → ∃ t', t.erase cfg k s = .ok (t', s.record v) ∧
      t'.m_root.rows = Cluster.erase_row k t.m_root.rows ∧ t'.Valid ∧
      t'.m_size + 1 = t.m_size ∧
      t'.get_instance_version = t.get_instance_version) := by
  obtain ⟨ho, hs⟩ := h
  obtain ⟨i1, i2⟩ := ClusterNode.node_erase_spec cfg k t.m_root ⊥ ⊤ ho
  constructor
  · intro hk
    simp [ClusterTree.erase, i1 hk]
  · intro v hv
    obtain ⟨n', e1, e2, e3⟩ := i2 v hv
    obtain ⟨c1, c2⟩ := ClusterNode.collapse_root_spec n' e3
    have hlen := Cluster.length_erase_row k t.m_root.rows (Cluster.lookup_some_mem k _ v hv)
    have hers : t.erase cfg k s =
        .ok ({ (t.bump_content_version.1.bump_storage_version) with
                m_root := n'.collapse_root, m_size := t.m_size - 1 }, s.record v) := by
      simp [ClusterTree.erase, e1]
    refine ⟨_, hers, ?_, ⟨c2, ?_⟩, ?_, rfl⟩
    · simp [c1, e2]
    · simp only [c1, e2]
      omega
    · simp only []
      omega

theorem ClusterTree.clear_valid (t : ClusterTree) (s : CascadeState) : (t.clear s).1.Valid := by
  constructor
  · simp [ClusterTree.clear, ClusterNode.ordered_leaf, Cluster.keys]
  · simp [ClusterTree.clear, ClusterNode.rows]

theorem ClusterTree.insert_eq (cfg : Thresholds) (t : ClusterTree) (k : ObjKey)
    (v : FieldValues) :
    t.insert cfg k v =
      match t.insert_fast cfg k v with
      | .error e => .error e
      | .ok t' => .ok (t', ⟨k, t'.get_content_version, t'.get_instance_version⟩) := rfl

theorem ClusterTree.valid_of_reachable (cfg : Thresholds) (t : ClusterTree)
    (h : ClusterTree.Reachable cfg t) : t.Valid := by
  induction h with
  | create alloc => exact ClusterTree.create_valid alloc
  | @insert t t' k v o _ hins ih =>
    obtain ⟨i1, i2⟩ := ClusterTree.insert_fast_spec cfg t ih k v
    by_cases hk : k ∈ Cluster.keys t.m_root.rows
    · rw [ClusterTree.insert_eq, i1 hk] at hins
      cases hins
    · obtain ⟨t'', e1, _, e3, _⟩ := i2 hk
      rw [ClusterTree.insert_eq, e1] at hins
      injection hins with hins
      injection hins with h1 _
      rw [← h1]; exact e3
  | @erase t t' k s s' _ hers ih =>
    obtain ⟨i1, i2⟩ := ClusterTree.tree_erase_spec cfg t ih k s
    cases hl : Cluster.lookup k t.m_root.rows with
    | none =>
      rw [i1 ((Cluster.lookup_eq_none_iff k _).mp hl)] at hers
      cases hers
    | some v =>
      obtain ⟨t'', e1, _, e3, _⟩ := i2 v hl
      rw [e1] at hers
      injection hers with hers
      injection hers with h1 _
      rw [← h1]; exact e3
  | @clear t s _ _ => exact ClusterTree.clear_valid t s

/-- What a call does to the rows of a valid tree. -/
theorem ClusterTree.apply_spec (cfg : Thresholds) (t : ClusterTree) (h : t.Valid) (op : Op) :
    (t.apply cfg op).Valid ∧
      (t.apply cfg op).m_root.rows =
        match op with
        | .insert k v =>
          if k ∈ Cluster.keys t.m_root.rows then t.m_root.rows
          else Cluster.insert_row k v t.m_root.rows
        | .erase k => Cluster.erase_row k t.m_root.rows := by
  cases op with
  | insert k v =>
    obtain ⟨i1, i2⟩ := ClusterTree.insert_fast_spec cfg t h k v
    by_cases hk : k ∈ Cluster.keys t.m_root.rows
    · simp [ClusterTree.apply, ClusterTree.insert_eq, i1 hk, hk, h]
    · obtain ⟨t', e1, e2, e3, _⟩ := i2 hk
      simp [ClusterTree.apply, ClusterTree.insert_eq, e1, hk, e2, e3]
  | erase k =>
    obtain ⟨i1, i2⟩ := ClusterTree.tree_erase_spec cfg t h k ⟨[], [], false⟩
    cases hl : Cluster.lookup k t.m_root.rows with
    | none =>
      have hk := (Cluster.lookup_eq_none_iff k _).mp hl
      simp [ClusterTree.apply, i1 hk, h, Cluster.erase_row_of_not_mem k _ hk]
    | some v =>
      obtain ⟨t', e1, e2, e3, _⟩ := i2 v hl
      simp [ClusterTree.apply, e1, e2, e3]

theorem ClusterTree.run_valid (cfg : Thresholds) (ops : List Op) :
    ∀ (t : ClusterTree), t.Valid → (t.run cfg ops).Valid := by
  induction ops with
  | nil => intro t h; exact h
  | cons op rest ih =>
    intro t h
    exact ih _ (ClusterTree.apply_spec cfg t h op).1

theorem ClusterTree.run_cons (cfg : Thresholds) (t : ClusterTree) (op : Op) (ops : List Op) :
    t.run cfg (op :: ops) = (t.apply cfg op).run cfg ops := rfl

/-- In a valid tree the valid keys are the keys of the rows, each once. -/
theorem ClusterTree.ncard_valid_keys (t : ClusterTree) (h : t.Valid) :
    Set.ncard {k : ObjKey | t.is_valid k = true} = t.m_size := by
  have hset : {k : ObjKey | t.is_valid k = true} =
      ((Cluster.keys t.m_root.rows).toFinset : Set ObjKey) := by
    ext k
    simp [ClusterTree.is_valid_iff t h k]
  have hnd : (Cluster.keys t.m_root.rows).Nodup :=
    (ClusterNode.ordered_sorted _ _ _ h.1).imp (fun hab => ne_of_lt hab)
  rw [hset, Set.ncard_coe_Finset, List.toFinset_card_of_nodup hnd, h.2]
  simp [Cluster.keys]

theorem ClusterTree.run_rows (cfg : Thresholds) (ops : List Op) :
    ∀ (t : ClusterTree), t.Valid →
      (t.run cfg ops).m_root.rows = ops.foldl Op.apply_rows t.m_root.rows := by
  induction ops with
  | nil => intro t _; rfl
  | cons op rest ih =>
    intro t h
    obtain ⟨h1, h2⟩ := ClusterTree.apply_spec cfg t h op
    rw [ClusterTree.run_cons, ih _ h1, List.foldl_cons, h2]
    cases op <;> rfl

theorem example_tree_valid : example_tree.Valid := by
  constructor
  · simp only [example_tree, ClusterNode.ordered_inner, ClusterNode.orderedChildren_cons,
      ClusterNode.ordered_leaf, ClusterNode.orderedChildren_nil, Cluster.keys, List.map,
      List.mem_cons, List.mem_nil_iff, or_false, forall_eq_or_imp, forall_eq,
      WithBot.coe_lt_coe, WithTop.coe_le_coe, WithBot.bot_lt_coe, le_top, and_true, true_and]
    decide
  · rfl

/-- C4: round trip on a tree that satisfies the key order and size invariant.
For a key `k` not in the tree, `insert(k, v)` succeeds and `get(k)` on the
resulting tree returns the handle of `k`, through which the fields read are
`v`; for a key `k` in the tree, `erase(k)` succeeds, and on the resulting tree
`is_valid(k)` is false and `get(k)` fails with `KeyNotFound`. -/
theorem C4_insert_get_erase_round_trip (cfg : Thresholds) (t : ClusterTree) (hv : t.Valid)
    (k : ObjKey) (v : FieldValues) :
    (t.is_valid k = false →
      ∃ t' o, t.insert cfg k v = .ok (t', o) ∧ t'.get k = .ok o ∧ o.m_key = k ∧
        o.get_fields t' = .ok v) ∧
    (t.is_valid k = true → ∀ s : CascadeState,
      ∃ t' s', t.erase cfg k s = .ok (t', s') ∧ t'.is_valid k = false ∧
        t'.get k = .error Exception.KeyNotFound) := by
  constructor
  · intro hk
    have hk' : k ∉ Cluster.keys t.m_root.rows := by
      rw [← ClusterTree.is_valid_iff t hv k, hk]; simp
    obtain ⟨t', e1, e2, e3, _, _⟩ := (ClusterTree.insert_fast_spec cfg t hv k v).2 hk'
    have hfind : t'.m_root.find k = some v := by
      rw [ClusterNode.find_eq_lookup _ _ _ e3.1, e2, Cluster.lookup_insert_row_self k v _ hk']
    refine ⟨t', ⟨k, t'.get_content_version, t'.get_instance_version⟩, ?_, ?_, rfl, ?_⟩
    · rw [ClusterTree.insert_eq, e1]
    · simp [ClusterTree.get, hfind]
    · simp [Obj.get_fields, hfind]
  · intro hk s
    have hk' : k ∈ Cluster.keys t.m_root.rows := (ClusterTree.is_valid_iff t hv k).mp hk
    cases hl : Cluster.lookup k t.m_root.rows with
    | none => exact absurd hk' ((Cluster.lookup_eq_none_iff k _).mp hl)
    | some w =>
      obtain ⟨t', e1, e2, e3, _, _⟩ := (ClusterTree.tree_erase_spec cfg t hv k s).2 w hl
      have hnot : k ∉ Cluster.keys t'.m_root.rows := by
        rw [e2, Cluster.mem_keys_erase_row k _ (ClusterNode.ordered_sorted _ _ _ hv.1)]
        exact fun h => h.1 rfl
      have hfind : t'.m_root.find k = none := by
        rw [ClusterNode.find_eq_lookup _ _ _ e3.1, Cluster.lookup_eq_none_iff]
        exact hnot
      refine ⟨t', s.record w, e1, ?_, ?_⟩
      · simp [ClusterTree.is_valid, hfind]
      · simp [ClusterTree.get, hfind]

theorem C4_round_trip_witness :
    example_tree.Valid ∧
    ((example_tree.is_valid 9 = false →
      ∃ t' o, example_tree.insert example_thresholds 9 [(0, .int 1)] = .ok (t', o) ∧
        t'.get 9 = .ok o ∧ o.m_key = 9 ∧ o.get_fields t' = .ok [(0, .int 1)]) ∧
    (example_tree.is_valid 9 = true → ∀ s : CascadeState,
      ∃ t' s', example_tree.erase example_thresholds 9 s = .ok (t', s') ∧
        t'.is_valid 9 = false ∧ t'.get 9 = .error Exception.KeyNotFound)) :=
  ⟨example_tree_valid,
    C4_insert_get_erase_round_trip example_thresholds example_tree example_tree_valid 9
      [(0, .int 1)]⟩

/-- C5: key order invariant.  For every tree reachable from an empty tree by
`insert`, `erase` and `clear`, the keys that `traverse` visits, leaf after
leaf, are strictly increasing, and their number is `size()`. -/
theorem C5_traverse_strictly_increasing (cfg : Thresholds) (t : ClusterTree)
    (h : ClusterTree.Reachable cfg t) :
    t.visited_keys.Pairwise (· < ·) ∧ t.visited_keys.length = t.size := by
  have hv := ClusterTree.valid_of_reachable cfg t h
  rw [ClusterTree.visited_keys_eq]
  refine ⟨ClusterNode.ordered_sorted _ _ _ hv.1, ?_⟩
  rw [ClusterTree.size, hv.2]
  simp [Cluster.keys]

theorem C5_traverse_witness :
    ClusterTree.Reachable example_thresholds
      { m_alloc := ⟨0, 2, 0⟩, m_root := .leaf [(1, []), (3, [])], m_size := 2 } ∧
    (ClusterTree.visited_keys
        { m_alloc := ⟨0, 2, 0⟩, m_root := .leaf [(1, []), (3, [])], m_size := 2 }).Pairwise
      (· < ·) ∧
    (ClusterTree.visited_keys
        { m_alloc := ⟨0, 2, 0⟩, m_root := .leaf [(1, []), (3, [])], m_size := 2 }).length =
      ClusterTree.size { m_alloc := ⟨0, 2, 0⟩, m_root := .leaf [(1, []), (3, [])], m_size := 2 } :=
  have h : ClusterTree.Reachable example_thresholds
      { m_alloc := ⟨0, 2, 0⟩, m_root := .leaf [(1, []), (3, [])], m_size := 2 } :=
    @ClusterTree.Reachable.insert example_thresholds
      { m_alloc := ⟨0, 1, 0⟩, m_root := .leaf [(3, [])], m_size := 1 } _ 1 [] ⟨1, 0, 0⟩
      (@ClusterTree.Reachable.insert example_thresholds (ClusterTree.create ⟨0, 0, 0⟩) _ 3 []
        ⟨3, 0, 0⟩ (ClusterTree.Reachable.create ⟨0, 0, 0⟩) rfl) rfl
  ⟨h, C5_traverse_strictly_increasing example_thresholds _ h⟩

/-- C6: size consistency.  After any finite sequence of `insert` and `erase`
calls on a tree that satisfies the invariant (a call that fails leaves the tree
as it was), `size()` is the number of keys for which `is_valid` is true, and
`is_empty()` holds exactly when that number is 0. -/
theorem C6_size_counts_valid_keys (cfg : Thresholds) (t0 : ClusterTree) (h0 : t0.Valid)
    (ops : List Op) :
    Set.ncard {k : ObjKey | (t0.run cfg ops).is_valid k = true} = (t0.run cfg ops).size ∧
    ((t0.run cfg ops).is_empty = true ↔
      Set.ncard {k : ObjKey | (t0.run cfg ops).is_valid k = true} = 0) := by
  have hv := ClusterTree.run_valid cfg ops t0 h0
  have hn := ClusterTree.ncard_valid_keys _ hv
  refine ⟨hn, ?_⟩
  rw [hn]
  simp [ClusterTree.is_empty, ClusterTree.size]

theorem C6_size_witness :
    example_tree.Valid ∧
    (Set.ncard {k : ObjKey | (example_tree.run example_thresholds
        [.erase 2, .insert 7 [], .insert 7 [], .erase 11]).is_valid k = true} =
      (example_tree.run example_thresholds
        [.erase 2, .insert 7 [], .insert 7 [], .erase 11]).size ∧
    ((example_tree.run example_thresholds
        [.erase 2, .insert 7 [], .insert 7 [], .erase 11]).is_empty = true ↔
      Set.ncard {k : ObjKey | (example_tree.run example_thresholds
        [.erase 2, .insert 7 [], .insert 7 [], .erase 11]).is_valid k = true} = 0)) :=
  ⟨example_tree_valid,
    C6_size_counts_valid_keys example_thresholds example_tree example_tree_valid
      [.erase 2, .insert 7 [], .insert 7 [], .erase 11]⟩

/-- C7: on a tree that satisfies the invariant and contains key `k`, both
`insert(k, v)` and `insert_fast(k, v)` fail with `DuplicateKey`, and the tree
after the call is the tree before it: `size()`, the set of valid keys and the
fields stored under every key are unchanged. -/
theorem C7_duplicate_insert_fails_unchanged (cfg : Thresholds) (t : ClusterTree) (hv : t.Valid)
    (k : ObjKey) (v : FieldValues) (hk : t.is_valid k = true) :
    t.insert cfg k v = .error Exception.DuplicateKey ∧
    t.insert_fast cfg k v = .error Exception.DuplicateKey ∧
    t.apply cfg (.insert k v) = t ∧
    (t.apply cfg (.insert k v)).size = t.size ∧
    (∀ x, (t.apply cfg (.insert k v)).is_valid x = t.is_valid x) ∧
    (∀ x, (t.apply cfg (.insert k v)).m_root.find x = t.m_root.find x) := by
  have hk' : k ∈ Cluster.keys t.m_root.rows := (ClusterTree.is_valid_iff t hv k).mp hk
  have hf := (ClusterTree.insert_fast_spec cfg t hv k v).1 hk'
  have hi : t.insert cfg k v = .error Exception.DuplicateKey := by
    rw [ClusterTree.insert_eq, hf]
  have ha : t.apply cfg (.insert k v) = t := by
    simp [ClusterTree.apply, hi]
  refine ⟨hi, hf, ha, ?_, ?_, ?_⟩
  · rw [ha]
  · intro x; rw [ha]
  · intro x; rw [ha]

theorem C7_duplicate_insert_witness :
    example_tree.Valid ∧ example_tree.is_valid 2 = true ∧
    example_tree.insert example_thresholds 2 [] = .error Exception.DuplicateKey ∧
    example_tree.m_root.find 2 = some [(0, .int 7)] :=
  ⟨example_tree_valid, by decide,
    (C7_duplicate_insert_fails_unchanged example_thresholds example_tree example_tree_valid 2 []
      (by decide)).1, by decide⟩

/-- C8: the concrete scenario.  With node capacity 4, inserting the keys
1, 2, 3, 4, 5 in that order into an empty tree splits the root into the leaves
{1,2,3} and {4,5} under one inner node; the tree has size 5 and `get_ndx(4)`
returns 3; after then erasing key 2, `size()` is 4 and `traverse` visits
exactly the keys 1, 3, 4, 5 in that order. -/
theorem C8_capacity_four_scenario (cfg : Thresholds) (hcap : cfg.node_capacity = 4)
    (alloc : Allocator) (v1 v2 v3 v4 v5 : FieldValues) :
    ((ClusterTree.create alloc).run cfg
        [.insert 1 v1, .insert 2 v2, .insert 3 v3, .insert 4 v4, .insert 5 v5]).m_root =
      .inner [(3, .leaf [(1, v1), (2, v2), (3, v3)]), (5, .leaf [(4, v4), (5, v5)])] ∧
    ((ClusterTree.create alloc).run cfg
        [.insert 1 v1, .insert 2 v2, .insert 3 v3, .insert 4 v4, .insert 5 v5]).size = 5 ∧
    ((ClusterTree.create alloc).run cfg
        [.insert 1 v1, .insert 2 v2, .insert 3 v3, .insert 4 v4, .insert 5 v5]).get_ndx 4
      = .ok 3 ∧
    ((ClusterTree.create alloc).run cfg
        [.insert 1 v1, .insert 2 v2, .insert 3 v3, .insert 4 v4, .insert 5 v5,
          .erase 2]).size = 4 ∧
    ((ClusterTree.create alloc).run cfg
        [.insert 1 v1, .insert 2 v2, .insert 3 v3, .insert 4 v4, .insert 5 v5,
          .erase 2]).visited_keys = [1, 3, 4, 5] := by
  have h0 := ClusterTree.create_valid alloc
  have hv5 := ClusterTree.run_valid cfg
    [.insert 1 v1, .insert 2 v2, .insert 3 v3, .insert 4 v4, .insert 5 v5] _ h0
  have hr5 := ClusterTree.run_rows cfg
    [.insert 1 v1, .insert 2 v2, .insert 3 v3, .insert 4 v4, .insert 5 v5] _ h0
  have hv6 := ClusterTree.run_valid cfg
    [.insert 1 v1, .insert 2 v2, .insert 3 v3, .insert 4 v4, .insert 5 v5, .erase 2] _ h0
  have hr6 := ClusterTree.run_rows cfg
    [.insert 1 v1, .insert 2 v2, .insert 3 v3, .insert 4 v4, .insert 5 v5, .erase 2] _ h0
  have e5 : [Op.insert 1 v1, .insert 2 v2, .insert 3 v3, .insert 4 v4, .insert 5 v5].foldl
      Op.apply_rows (ClusterTree.create alloc).m_root.rows =
      [(1, v1), (2, v2), (3, v3), (4, v4), (5, v5)] := by
    simp [ClusterTree.create, ClusterNode.rows, Op.apply_rows, Cluster.keys, Cluster.insert_row]
  have e6 : [Op.insert 1 v1, .insert 2 v2, .insert 3 v3, .insert 4 v4, .insert 5 v5,
      .erase 2].foldl Op.apply_rows (ClusterTree.create alloc).m_root.rows =
      [(1, v1), (3, v3), (4, v4), (5, v5)] := by
    simp [ClusterTree.create, ClusterNode.rows, Op.apply_rows, Cluster.keys, Cluster.insert_row,
      Cluster.erase_row]
  rw [e5] at hr5
  rw [e6] at hr6
  refine ⟨?_, ?_, ?_, ?_, ?_⟩
  · obtain ⟨cap, mo, hp⟩ := cfg
    simp only at hcap
    subst hcap
    simp [ClusterTree.run, ClusterTree.apply, ClusterTree.insert, ClusterTree.insert_fast,
      ClusterTree.create, ClusterNode.insert, Cluster.insert, Cluster.lookup,
      Cluster.insert_row, midpoint, InsertResult.entries, ClusterNode.max_key,
      Cluster.last_key, ClusterTree.bump_storage_version]
  · rw [ClusterTree.size, hv5.2, hr5]; rfl
  · rw [ClusterTree.get_ndx, ClusterNode.get_ndx_eq_index_of _ _ _ hv5.1, hr5]
    simp [Cluster.index_of]
  · rw [ClusterTree.size, hv6.2, hr6]; rfl
  · rw [ClusterTree.visited_keys_eq, hr6]; rfl

theorem C8_scenario_witness :
    example_thresholds.node_capacity = 4 ∧
    ((ClusterTree.create ⟨0, 0, 0⟩).run example_thresholds
        [.insert 1 [], .insert 2 [], .insert 3 [], .insert 4 [], .insert 5 []]).get_ndx 4
      = .ok 3 ∧
    ((ClusterTree.create ⟨0, 0, 0⟩).run example_thresholds
        [.insert 1 [], .insert 2 [], .insert 3 [], .insert 4 [], .insert 5 [],
          .erase 2]).size = 4 ∧
    ((ClusterTree.create ⟨0, 0, 0⟩).run example_thresholds
        [.insert 1 [], .insert 2 [], .insert 3 [], .insert 4 [], .insert 5 [],
          .erase 2]).visited_keys = [1, 3, 4, 5] :=
  ⟨rfl, (C8_capacity_four_scenario example_thresholds rfl ⟨0, 0, 0⟩ [] [] [] [] []).2.2⟩

/-! ## Cascade deletion -/

theorem CascadeWalk.schedule_spec (schema : Schema) (origin : TableKey)
    (visited : List (TableKey × ObjKey)) (links : List (ColKey × TableKey × ObjKey)) :
    ∀ (pending : List (TableKey × ObjKey)),
      (∀ x ∈ pending, x ∈ CascadeWalk.schedule schema origin visited links pending) ∧
      (pending.Nodup → (CascadeWalk.schedule schema origin visited links pending).Nodup) ∧
      (∀ x ∈ CascadeWalk.schedule schema origin visited links pending,
        x ∈ pending ∨ x ∉ visited) ∧
      (CascadeWalk.schedule schema origin visited links pending).length ≤
        pending.length + links.length ∧
      (∀ col t k, (col, t, k) ∈ links → schema.is_strong origin col = true →
        (t, k) ∉ visited →
        (t, k) ∈ CascadeWalk.schedule schema origin visited links pending) := by
  induction links with
  | nil =>
    intro pending
    simp only [CascadeWalk.schedule, List.length_nil, Nat.add_zero, le_refl, List.not_mem_nil]
    exact ⟨fun x h => h, fun h => h, fun x h => Or.inl h, trivial,
      fun _ _ _ h => absurd h (by simp)⟩
  | cons l rest ih =>
    intro pending
    obtain ⟨col, t, k⟩ := l
    by_cases hc : schema.is_strong origin col = true ∧ (t, k) ∉ visited ∧ (t, k) ∉ pending
    · obtain ⟨i1, i2, i3, i4, i5⟩ := ih (pending ++ [(t, k)])
      have e : CascadeWalk.schedule schema origin visited ((col, t, k) :: rest) pending =
          CascadeWalk.schedule schema origin visited rest (pending ++ [(t, k)]) := by
        rw [CascadeWalk.schedule, if_pos hc]
      rw [e]
      refine ⟨?_, ?_, ?_, ?_, ?_⟩
      · intro x hx
        exact i1 x (List.mem_append.mpr (Or.inl hx))
      · intro hnd
        apply i2
        rw [List.nodup_append]
        refine ⟨hnd, List.nodup_singleton _, ?_⟩
        intro x hx hx'
        rw [List.mem_singleton] at hx'
        subst hx'
        exact hc.2.2 hx
      · intro x hx
        rcases i3 x hx with h | h
        · rcases List.mem_append.mp h with h | h
          · exact Or.inl h
          · rw [List.mem_singleton] at h
            subst h
            exact Or.inr hc.2.1
        · exact Or.inr h
      · have := i4
        simp only [List.length_append, List.length_cons, List.length_nil] at this ⊢
        omega
      · intro col' t' k' hm hs hv
        rcases List.mem_cons.mp hm with h | h
        · injection h with h1 h2
          injection h2 with h2 h3
          subst h2 h3
          exact i1 _ (List.mem_append.mpr (Or.inr (List.mem_singleton.mpr rfl)))
        · exact i5 col' t' k' h hs hv
    · obtain ⟨i1, i2, i3, i4, i5⟩ := ih pending
      have e : CascadeWalk.schedule schema origin visited ((col, t, k) :: rest) pending =
          CascadeWalk.schedule schema origin visited rest pending := by
        rw [CascadeWalk.schedule, if_neg hc]
      rw [e]
      refine ⟨i1, i2, i3, ?_, ?_⟩
      · simp only [List.length_cons]
        omega
      · intro col' t' k' hm hs hv
        rcases List.mem_cons.mp hm with h | h
        · injection h with h1 h2
          injection h2 with h2 h3
          subst h1 h2 h3
          have : (t', k') ∈ pending := by
            by_contra hn
            exact hc ⟨hs, hv, hn⟩
          exact i1 _ this
        · exact i5 col' t' k' h hs hv

theorem Cluster.link_count_erase_row (k : ObjKey) (rows : Cluster) (v : FieldValues)
    (h : Cluster.lookup k rows = some v) :
    Cluster.link_count (Cluster.erase_row k rows) + (outgoing_links v).length =
      Cluster.link_count rows := by
  induction rows with
  | nil => simp [Cluster.lookup] at h
  | cons r rest ih =>
    obtain ⟨k', v'⟩ := r
    by_cases hk : k' = k
    · simp only [Cluster.lookup, hk, if_true, Option.some.injEq] at h
      subst h
      simp only [Cluster.erase_row, hk, if_true, Cluster.link_count]
      omega
    · simp only [Cluster.lookup, hk, if_false] at h
      have := ih h
      simp only [Cluster.erase_row, hk, if_false, Cluster.link_count]
      omega

theorem total_links_set (trees : List ClusterTree) (i : Nat) (t t' : ClusterTree)
    (h : trees[i]? = some t) :
    total_links (trees.set i t') + Cluster.link_count t.m_root.rows =
      total_links trees + Cluster.link_count t'.m_root.rows := by
  induction trees generalizing i with
  | nil => simp at h
  | cons a rest ih =>
    cases i with
    | zero =>
      simp only [List.getElem?_cons_zero, Option.some.injEq] at h
      subst h
      simp only [List.set_cons_zero, total_links]
      omega
    | succ j =>
      simp only [List.getElem?_cons_succ] at h
      have := ih j h
      simp only [List.set_cons_succ, total_links]
      omega

theorem outgoing_links_mem (row : FieldValues) (col : ColKey) (t : TableKey) (k : ObjKey)
    (h : (col, Value.link t k) ∈ row) : (col, t, k) ∈ outgoing_links row := by
  induction row with
  | nil => simp at h
  | cons f rest ih =>
    obtain ⟨c, val⟩ := f
    rcases List.mem_cons.mp h with e | e
    · injection e with e1 e2
      subst e1
      rw [← e2]
      simp [outgoing_links]
    · cases val <;> simp [outgoing_links, ih e]

theorem CascadeWalk.schedule_origin (schema : Schema) (origin : TableKey)
    (visited : List (TableKey × ObjKey)) (links : List (ColKey × TableKey × ObjKey)) :
    ∀ (pending : List (TableKey × ObjKey)),
      ∀ x ∈ CascadeWalk.schedule schema origin visited links pending,
        x ∈ pending ∨
        ∃ col, (col, x.1, x.2) ∈ links ∧ schema.is_strong origin col = true ∧ x ∉ visited := by
  induction links with
  | nil =>
    intro pending x hx
    exact Or.inl hx
  | cons l rest ih =>
    intro pending x hx
    obtain ⟨col, t, k⟩ := l
    by_cases hc : schema.is_strong origin col = true ∧ (t, k) ∉ visited ∧ (t, k) ∉ pending
    · rw [CascadeWalk.schedule, if_pos hc] at hx
      rcases ih (pending ++ [(t, k)]) x hx with h | ⟨c, h1, h2, h3⟩
      · rcases List.mem_append.mp h with h | h
        · exact Or.inl h
        · rw [List.mem_singleton] at h
          subst h
          exact Or.inr ⟨col, List.mem_cons_self _ _, hc.1, hc.2.1⟩
      · exact Or.inr ⟨c, List.mem_cons_of_mem _ h1, h2, h3⟩
    · rw [CascadeWalk.schedule, if_neg hc] at hx
      rcases ih pending x hx with h | ⟨c, h1, h2, h3⟩
      · exact Or.inl h
      · exact Or.inr ⟨c, List.mem_cons_of_mem _ h1, h2, h3⟩

theorem Cluster.mem_of_mem_erase_row (k : ObjKey) (r : ObjKey × FieldValues) :
    ∀ rows : Cluster, r ∈ Cluster.erase_row k rows → r ∈ rows
  | [], h => h
  | (k', v) :: rest, h => by
    by_cases hk : k' = k
    · simp only [Cluster.erase_row, hk, if_true] at h
      exact List.mem_cons_of_mem _ h
    · simp only [Cluster.erase_row, hk, if_false] at h
      rcases List.mem_cons.mp h with e | e
      · rw [e]
        exact List.mem_cons_self _ _
      · exact List.mem_cons_of_mem _ (Cluster.mem_of_mem_erase_row k r rest e)

theorem Cluster.lookup_some_mem_row (k : ObjKey) (v : FieldValues) :
    ∀ rows : Cluster, Cluster.lookup k rows = some v → (k, v) ∈ rows
  | [], h => by simp [Cluster.lookup] at h
  | (k', v') :: rest, h => by
    by_cases hk : k' = k
    · simp only [Cluster.lookup, hk, if_true, Option.some.injEq] at h
      rw [hk, h]
      exact List.mem_cons_self _ _
    · simp only [Cluster.lookup, hk, if_false] at h
      exact List.mem_cons_of_mem _ (Cluster.lookup_some_mem_row k v rest h)

theorem CascadeWalk.erase_object_ok (cfg : Thresholds) (schema : Schema) (w : CascadeWalk)
    (T : TableKey) (k : ObjKey) (pending : List (TableKey × ObjKey)) (tree : ClusterTree)
    (v : FieldValues)
    (hval : ∀ t ∈ w.trees, t.Valid)
    (hnd : ((T, k) :: pending).Nodup)
    (hnew : ∀ x ∈ (T, k) :: pending, x ∉ w.visited)
    (hev : ∀ x ∈ w.erased, x ∈ w.visited)
    (hen : w.erased.Nodup)
    (hdead : ∀ x ∈ w.erased, ¬ Live w.trees x)
    (hflag : w.state.m_nullify_only = false)
    (htree : w.trees[T]? = some tree)
    (hrow : Cluster.lookup k tree.m_root.rows = some v) :
    ∃ w', w.erase_object cfg schema T k pending = .ok w' ∧ w'.Inv ∧
      w'.erased = w.erased ++ [(T, k)] ∧
      w'.measure ≤ pending.length + total_links w.trees ∧
      (∀ x ∈ pending, x ∈ w'.state.m_to_be_deleted) ∧
      (∀ col t' k', (col, t', k') ∈ outgoing_links v → schema.is_strong T col = true →
        (t', k') ∉ (T, k) :: w.visited → (t', k') ∈ w'.state.m_to_be_deleted) ∧
      (∀ x, x ≠ (T, k) → Live w.trees x → Live w'.trees x) ∧
      ((∀ x ∈ pending, Live w.trees x) → LinksResolve schema w.trees w.visited →
        w'.Linked schema) := by
  have hT : T < w.trees.length := (List.getElem?_eq_some.mp htree).1
  have hmem : tree ∈ w.trees := List.getElem?_mem htree
  have htv : tree.Valid := hval tree hmem
  have hs : ({ w.state with m_to_be_deleted := pending, m_links := [] } : CascadeState) =
      ⟨pending, [], false⟩ := by
    rw [← hflag]
  obtain ⟨tree', e1, e2, e3, _, _⟩ :=
    (ClusterTree.tree_erase_spec cfg tree htv k ⟨pending, [], false⟩).2 v hrow
  obtain ⟨s1, s2, s3, s4, s5⟩ :=
    CascadeWalk.schedule_spec schema T ((T, k) :: w.visited) (outgoing_links v) pending
  have hk : (T, k) ∉ w.visited := hnew _ (List.mem_cons_self _ _)
  have hp : pending.Nodup := (List.nodup_cons.mp hnd).2
  have hkp : (T, k) ∉ pending := (List.nodup_cons.mp hnd).1
  have hback : ∀ x, Live (w.trees.set T tree') x → Live w.trees x ∧ x ≠ (T, k) := by
    rintro x ⟨t, ht1, ht2⟩
    by_cases hxT : x.1 = T
    · have : (w.trees.set T tree')[x.1]? = some tree' := by
        rw [hxT]
        simp [List.getElem?_set, hT]
      rw [this] at ht1
      injection ht1 with ht1
      subst ht1
      rw [ClusterTree.is_valid_iff _ e3, e2,
        Cluster.mem_keys_erase_row k _ (ClusterNode.ordered_sorted _ _ _ htv.1)] at ht2
      refine ⟨⟨tree, by rw [hxT]; exact htree, (ClusterTree.is_valid_iff _ htv _).mpr ht2.2⟩, ?_⟩
      intro hx
      rw [hx] at ht2
      exact ht2.1 rfl
    · refine ⟨⟨t, ?_, ht2⟩, ?_⟩
      · rw [← ht1]
        exact (List.getElem?_set_ne (fun e => hxT e.symm)).symm
      · intro hx
        rw [hx] at hxT
        exact hxT rfl
  have hfwd : ∀ x, x ≠ (T, k) → Live w.trees x → Live (w.trees.set T tree') x := by
    intro x hx hlive
    obtain ⟨t, ht1, ht2⟩ := hlive
    by_cases hxT : x.1 = T
    · rw [hxT, htree] at ht1
      injection ht1 with ht1
      subst ht1
      refine ⟨tree', ?_, ?_⟩
      · rw [hxT]
        simp [List.getElem?_set, hT]
      · rw [ClusterTree.is_valid_iff tree' e3, e2,
          Cluster.mem_keys_erase_row k _ (ClusterNode.ordered_sorted _ _ _ htv.1)]
        refine ⟨?_, (ClusterTree.is_valid_iff _ htv _).mp ht2⟩
        intro hk2
        apply hx
        rw [← hxT, ← hk2]
    · refine ⟨t, ?_, ht2⟩
      rw [← ht1]
      exact List.getElem?_set_ne (fun e => hxT e.symm)
  have hrows : ∀ (T2 : TableKey) (tree2 : ClusterTree) (r : ObjKey × FieldValues),
      (w.trees.set T tree')[T2]? = some tree2 → r ∈ tree2.m_root.rows →
      ∃ tree1, w.trees[T2]? = some tree1 ∧ r ∈ tree1.m_root.rows := by
    intro T2 tree2 r h1 h2
    by_cases hT2 : T2 = T
    · have : (w.trees.set T tree')[T2]? = some tree' := by
        rw [hT2]
        simp [List.getElem?_set, hT]
      rw [this] at h1
      injection h1 with h1
      subst h1
      rw [e2] at h2
      exact ⟨tree, by rw [hT2]; exact htree, Cluster.mem_of_mem_erase_row k r _ h2⟩
    · refine ⟨tree2, ?_, h2⟩
      rw [← h1]
      exact (List.getElem?_set_ne (fun e => hT2 e.symm)).symm
  refine ⟨{ trees := w.trees.set T tree'
            state :=
              { m_to_be_deleted := CascadeWalk.schedule schema T ((T, k) :: w.visited)
                  (outgoing_links v) pending
                m_links := []
                m_nullify_only := false }
            visited := (T, k) :: w.visited
            erased := w.erased ++ [(T, k)] }, ?_, ?_, rfl, ?_, s1, s5, hfwd, ?_⟩
  · rw [CascadeWalk.erase_object, htree]
    simp only [hs, e1]
    simp [CascadeState.record]
  · refine ⟨?_, s2 hp, ?_, ?_, ?_, ?_, rfl⟩
    · intro t ht
      rcases List.mem_or_eq_of_mem_set ht with h | h
      · exact hval t h
      · rw [h]; exact e3
    · intro x hx
      rcases s3 x hx with h | h
      · intro hv
        rcases List.mem_cons.mp hv with e | e
        · rw [e] at h; exact hkp h
        · exact hnew x (List.mem_cons_of_mem _ h) e
      · exact h
    · intro x hx
      rcases List.mem_append.mp hx with h | h
      · exact List.mem_cons_of_mem _ (hev x h)
      · rw [List.mem_singleton] at h
        rw [h]; exact List.mem_cons_self _ _
    · rw [List.nodup_append]
      refine ⟨hen, List.nodup_singleton _, ?_⟩
      intro x hx hx'
      rw [List.mem_singleton] at hx'
      rw [hx'] at hx
      exact hk (hev _ hx)
    · intro x hx hl
      obtain ⟨b1, b2⟩ := hback x hl
      rcases List.mem_append.mp hx with h | h
      · exact hdead x h b1
      · exact b2 (List.mem_singleton.mp h)
  · have h1 := total_links_set w.trees T tree tree' htree
    have h2 := Cluster.link_count_erase_row k tree.m_root.rows v hrow
    rw [e2] at h1
    simp only [CascadeWalk.measure]
    omega
  · intro hpl hlr
    have hvrow : (k, v) ∈ tree.m_root.rows := Cluster.lookup_some_mem_row k v _ hrow
    constructor
    · intro x hx
      rcases CascadeWalk.schedule_origin schema T ((T, k) :: w.visited) (outgoing_links v)
        pending x hx with h | ⟨col, c1, c2, c3⟩
      · refine hfwd x ?_ (hpl x h)
        intro e
        rw [e] at h
        exact hkp h
      · have hx1 : x ≠ (T, k) := fun e => c3 (by rw [e]; exact List.mem_cons_self _ _)
        have hx2 : x ∉ w.visited := fun e => c3 (List.mem_cons_of_mem _ e)
        rcases hlr T tree k v col x.1 x.2 htree hvrow c1 c2 with h | h
        · exact hfwd x hx1 h
        · exact absurd h hx2
    · intro T2 tree2 k2 row2 col t' k' g1 g2 g3 g4
      obtain ⟨tree1, f1, f2⟩ := hrows T2 tree2 (k2, row2) g1 g2
      by_cases hx : (t', k') = (T, k)
      · right
        rw [hx]
        exact List.mem_cons_self _ _
      · rcases hlr T2 tree1 k2 row2 col t' k' f1 f2 g3 g4 with h | h
        · exact Or.inl (hfwd (t', k') hx h)
        · exact Or.inr (List.mem_cons_of_mem _ h)

theorem ClusterTree.lookup_some_of_is_valid (t : ClusterTree) (h : t.Valid) (k : ObjKey)
    (hk : t.is_valid k = true) : ∃ v, Cluster.lookup k t.m_root.rows = some v := by
  have := (Cluster.lookup_isSome_iff k _).mpr ((ClusterTree.is_valid_iff t h k).mp hk)
  exact Option.isSome_iff_exists.mp this

theorem CascadeWalk.erase_object_error (cfg : Thresholds) (schema : Schema) (w : CascadeWalk)
    (T : TableKey) (k : ObjKey) (pending : List (TableKey × ObjKey))
    (hval : ∀ t ∈ w.trees, t.Valid) (e : Exception)
    (herr : w.erase_object cfg schema T k pending = .error e) : ¬ Live w.trees (T, k) := by
  rintro ⟨t, ht1, ht2⟩
  have htv : t.Valid := hval t (List.getElem?_mem ht1)
  obtain ⟨v, hv⟩ := ClusterTree.lookup_some_of_is_valid t htv k ht2
  obtain ⟨t', e1, _⟩ := (ClusterTree.tree_erase_spec cfg t htv k
    { w.state with m_to_be_deleted := pending, m_links := [] }).2 v hv
  simp only at ht1
  simp [CascadeWalk.erase_object, ht1, e1] at herr

theorem CascadeWalk.erase_object_live (cfg : Thresholds) (schema : Schema) (w : CascadeWalk)
    (T : TableKey) (k : ObjKey) (pending : List (TableKey × ObjKey))
    (hval : ∀ t ∈ w.trees, t.Valid) (w' : CascadeWalk)
    (hres : w.erase_object cfg schema T k pending = .ok w') :
    ∃ tree v, w.trees[T]? = some tree ∧ Cluster.lookup k tree.m_root.rows = some v := by
  cases htree : w.trees[T]? with
  | none => simp [CascadeWalk.erase_object, htree] at hres
  | some tree =>
    cases hl : Cluster.lookup k tree.m_root.rows with
    | none =>
      have htv : tree.Valid := hval tree (List.getElem?_mem htree)
      have := (ClusterTree.tree_erase_spec cfg tree htv k
        { w.state with m_to_be_deleted := pending, m_links := [] }).1
        ((Cluster.lookup_eq_none_iff k _).mp hl)
      simp [CascadeWalk.erase_object, htree, this] at hres
    | some v => exact ⟨tree, v, rfl, hl⟩

theorem CascadeWalk.step_spec (cfg : Thresholds) (schema : Schema) (w : CascadeWalk)
    (hinv : w.Inv) (hne : w.state.m_to_be_deleted ≠ []) :
    (∃ e, w.step cfg schema = .error e ∧ ¬ w.Linked schema) ∨
    (∃ w', w.step cfg schema = .ok w' ∧ w'.Inv ∧ w'.measure < w.measure ∧
      (∀ x ∈ w.erased, x ∈ w'.erased) ∧ (∀ x, w.Owes x → w'.Owes x) ∧
      (w.Linked schema → w'.Linked schema)) := by
  obtain ⟨hval, hnd, hnew, hev, hen, hdead, hflag⟩ := hinv
  cases hwl : w.state.m_to_be_deleted with
  | nil => exact absurd hwl hne
  | cons p pending =>
    obtain ⟨T, k⟩ := p
    rw [hwl] at hnd hnew
    have hk : (T, k) ∉ w.visited := hnew _ (List.mem_cons_self _ _)
    have hp : pending.Nodup := (List.nodup_cons.mp hnd).2
    have hkp : (T, k) ∉ pending := (List.nodup_cons.mp hnd).1
    have hstep : w.step cfg schema = w.erase_object cfg schema T k pending := by
      simp [CascadeWalk.step, hwl, hk]
    cases hres : w.erase_object cfg schema T k pending with
    | error e =>
      left
      refine ⟨e, by rw [hstep, hres], ?_⟩
      intro hl
      have hgone := CascadeWalk.erase_object_error cfg schema w T k pending hval e hres
      exact hgone (hl.pending_live (T, k) (by rw [hwl]; exact List.mem_cons_self _ _))
    | ok w' =>
      right
      obtain ⟨tree, v, htree, hrow⟩ :=
        CascadeWalk.erase_object_live cfg schema w T k pending hval w' hres
      obtain ⟨w'', r1, r2, r3, r4, r5, _, r7, r8⟩ :=
        CascadeWalk.erase_object_ok cfg schema w T k pending tree v hval hnd hnew hev hen hdead
          hflag htree hrow
      rw [hres] at r1
      injection r1 with r1
      subst r1
      refine ⟨w', by rw [hstep, hres], r2, ?_, ?_, ?_, ?_⟩
      · have : w.measure = pending.length + 1 + total_links w.trees := by
          simp [CascadeWalk.measure, hwl]
        omega
      · intro x hx
        rw [r3]
        exact List.mem_append.mpr (Or.inl hx)
      · intro x hx
        rcases hx with h | ⟨h1, h2⟩
        · left
          rw [r3]
          exact List.mem_append.mpr (Or.inl h)
        · rw [hwl] at h1
          by_cases hx : x = (T, k)
          · left
            rw [r3, hx]
            exact List.mem_append.mpr (Or.inr (List.mem_singleton.mpr rfl))
          · rcases List.mem_cons.mp h1 with e | e
            · exact absurd e hx
            · exact Or.inr ⟨r5 x e, r7 x hx h2⟩
      · intro hl
        refine r8 ?_ hl.links
        intro x hx
        exact hl.pending_live x (by rw [hwl]; exact List.mem_cons_of_mem _ hx)

theorem CascadeWalk.run_spec (cfg : Thresholds) (schema : Schema) :
    ∀ (fuel : Nat) (w : CascadeWalk), w.Inv → w.measure ≤ fuel →
      (∃ e, CascadeWalk.run cfg schema fuel w = .error e ∧ ¬ w.Linked schema) ∨
      (∃ w', CascadeWalk.run cfg schema fuel w = .ok (some w') ∧ w'.Inv ∧
        w'.state.m_to_be_deleted = [] ∧ (∀ x ∈ w.erased, x ∈ w'.erased) ∧
        (∀ x, w.Owes x → w'.Owes x)) := by
  intro fuel
  induction fuel with
  | zero =>
    intro w hinv hm
    have : w.state.m_to_be_deleted = [] := by
      have : w.state.m_to_be_deleted.length = 0 := by
        simp only [CascadeWalk.measure] at hm
        omega
      exact List.length_eq_zero.mp this
    exact Or.inr
      ⟨w, by simp [CascadeWalk.run, this], hinv, this, fun x hx => hx, fun x hx => hx⟩
  | succ n ih =>
    intro w hinv hm
    by_cases he : w.state.m_to_be_deleted = []
    · exact Or.inr
        ⟨w, by simp [CascadeWalk.run, he], hinv, he, fun x hx => hx, fun x hx => hx⟩
    · rcases CascadeWalk.step_spec cfg schema w hinv he with
        ⟨e, s1, s2⟩ | ⟨w1, s0, s1, s2, s3, s4, s5⟩
      · left
        refine ⟨e, ?_, s2⟩
        rw [CascadeWalk.run]
        simp [he, s1]
      · rcases ih w1 s1 (by omega) with ⟨e, r1, r2⟩ | ⟨w', r1, r2, r3, r4, r5⟩
        · left
          refine ⟨e, ?_, fun hl => r2 (s5 hl)⟩
          rw [CascadeWalk.run]
          simp [he, s0, r1]
        · right
          refine ⟨w', ?_, r2, r3, fun x hx => r4 x (s3 x hx), fun x hx => r5 x (s4 x hx)⟩
          rw [CascadeWalk.run]
          simp [he, s0, r1]

theorem CascadeWalk.times_erased_eq_one (w : CascadeWalk) (x : TableKey × ObjKey)
    (hnd : w.erased.Nodup) (hx : x ∈ w.erased) : w.times_erased x = 1 := by
  unfold CascadeWalk.times_erased
  generalize w.erased = l at hnd hx
  induction l with
  | nil => simp at hx
  | cons a rest ih =>
    obtain ⟨h1, h2⟩ := List.nodup_cons.mp hnd
    by_cases ha : a = x
    · subst ha
      have : rest.filter (fun y => decide (y = a)) = [] := by
        rw [List.filter_eq_nil_iff]
        intro y hy
        simp only [decide_eq_true_eq]
        intro e
        rw [e] at hy
        exact h1 hy
      simp [List.filter_cons, this]
    · have hx' : x ∈ rest := by
        rcases List.mem_cons.mp hx with e | e
        · exact absurd e.symm ha
        · exact e
      simp [List.filter_cons, ha, ih h2 hx']

/-- C9: cascade deletion terminates and erases no key twice.  For trees that
satisfy the tree invariant and fuel that covers the number of links stored,
erasing any object with cascade ends, with a result or with the failure that
an erase met, never for want of fuel.  If moreover no link of strong-cascade
policy dangles and object `A` holds such a link to another object `B` (in
particular when `B` links back to `A`, closing the cycle), erasing `A` with
cascade succeeds; the work-list is then empty, no pair was erased twice, `A`
and `B` were erased exactly once each, and neither is live afterwards. -/
theorem C9_cascade_terminates_erases_once (cfg : Thresholds) (schema : Schema)
    (trees : List ClusterTree) (hvalid : ∀ t ∈ trees, t.Valid)
    (fuel : Nat) (hfuel : total_links trees ≤ fuel) :
    (∀ (T : TableKey) (k : ObjKey), erase_cascade cfg schema fuel trees T k ≠ .ok none) ∧
    (LinksResolve schema trees [] →
      ∀ (A B : TableKey × ObjKey) (ta : ClusterTree) (rowA : FieldValues) (cA : ColKey),
        A ≠ B → trees[A.1]? = some ta → ta.m_root.find A.2 = some rowA →
        (cA, Value.link B.1 B.2) ∈ rowA → schema.is_strong A.1 cA = true →
        ∃ w, erase_cascade cfg schema fuel trees A.1 A.2 = .ok (some w) ∧
          w.state.m_to_be_deleted = [] ∧ w.erased.Nodup ∧
          w.times_erased A = 1 ∧ w.times_erased B = 1 ∧
          ¬ Live w.trees A ∧ ¬ Live w.trees B) := by
  constructor
  · intro T k
    cases hres : (CascadeWalk.mk trees ⟨[], [], false⟩ [] []).erase_object cfg schema T k [] with
    | error e => simp [erase_cascade, hres]
    | ok w0 =>
      obtain ⟨tree, v, htree, hrow⟩ :=
        CascadeWalk.erase_object_live cfg schema ⟨trees, ⟨[], [], false⟩, [], []⟩ T k [] hvalid
          w0 hres
      obtain ⟨w0', r1, r2, _, r4, _⟩ :=
        CascadeWalk.erase_object_ok cfg schema ⟨trees, ⟨[], [], false⟩, [], []⟩ T k [] tree v
          hvalid (by simp) (by simp) (by simp) (by simp) (by simp) rfl htree hrow
      rw [hres] at r1
      injection r1 with r1
      subst r1
      have hm : w0.measure ≤ fuel := by
        simp only [List.length_nil, Nat.zero_add] at r4
        omega
      rcases CascadeWalk.run_spec cfg schema fuel w0 r2 hm with ⟨e, q1, _⟩ | ⟨w, q1, _⟩
      · simp [erase_cascade, hres, q1]
      · simp [erase_cascade, hres, q1]
  · intro hlinks A B ta rowA cA hAB hta hA hlA hsA
    have htav : ta.Valid := hvalid ta (List.getElem?_mem hta)
    have hrow : Cluster.lookup A.2 ta.m_root.rows = some rowA := by
      rw [← ClusterNode.find_eq_lookup _ _ _ htav.1]; exact hA
    have hB : Live trees B := by
      rcases hlinks A.1 ta A.2 rowA cA B.1 B.2 hta (Cluster.lookup_some_mem_row _ _ _ hrow)
        (outgoing_links_mem rowA cA B.1 B.2 hlA) hsA with h | h
      · exact h
      · simp at h
    obtain ⟨w0, r1, r2, r3, r4, _, r6, r7, r8⟩ :=
      CascadeWalk.erase_object_ok cfg schema ⟨trees, ⟨[], [], false⟩, [], []⟩ A.1 A.2 [] ta rowA
        hvalid (by simp) (by simp) (by simp) (by simp) (by simp) rfl hta hrow
    have hlk : w0.Linked schema := r8 (by simp) hlinks
    have hBne : B ≠ (A.1, A.2) := fun e => hAB e.symm
    have hBin : B ∈ w0.state.m_to_be_deleted := by
      have := r6 cA B.1 B.2 (outgoing_links_mem rowA cA B.1 B.2 hlA) hsA
        (by simpa using hBne)
      simpa using this
    have hA0 : A ∈ w0.erased := by
      rw [r3]; simp
    have howes : w0.Owes B := Or.inr ⟨hBin, r7 B hBne hB⟩
    have hm : w0.measure ≤ fuel := by
      simp only [List.length_nil, Nat.zero_add] at r4
      omega
    rcases CascadeWalk.run_spec cfg schema fuel w0 r2 hm with
      ⟨e, _, q2⟩ | ⟨w, q1, q2, q3, q4, q5⟩
    · exact absurd hlk q2
    · have hBe : B ∈ w.erased := by
        rcases q5 B howes with h | ⟨h, _⟩
        · exact h
        · rw [q3] at h; simp at h
      have hAe : A ∈ w.erased := q4 A hA0
      refine ⟨w, ?_, q3, q2.erased_nodup,
        CascadeWalk.times_erased_eq_one w A q2.erased_nodup hAe,
        CascadeWalk.times_erased_eq_one w B q2.erased_nodup hBe, q2.erased_dead A hAe,
        q2.erased_dead B hBe⟩
      simp [erase_cascade, r1, q1]

theorem cycle_tree_valid : cycle_tree.Valid := by
  constructor
  · simp only [cycle_tree, ClusterNode.ordered_leaf, Cluster.keys, List.map,
      List.mem_cons, List.mem_nil_iff, or_false, forall_eq_or_imp, forall_eq,
      WithBot.bot_lt_coe, le_top, and_true, true_and]
    decide
  · rfl

theorem cycle_links_resolve : LinksResolve cycle_schema [cycle_tree] [] := by
  intro T tree k row col t' k' h1 h2 h3 _
  cases T with
  | succ n => simp at h1
  | zero =>
    simp only [List.getElem?_cons_zero, Option.some.injEq] at h1
    subst h1
    left
    simp only [cycle_tree, ClusterNode.rows, List.mem_cons, Prod.mk.injEq, List.mem_nil_iff,
      or_false] at h2
    rcases h2 with ⟨_, h2⟩ | ⟨_, h2⟩
    · subst h2
      simp only [outgoing_links, List.mem_cons, Prod.mk.injEq, List.mem_nil_iff, or_false] at h3
      obtain ⟨_, e1, e2⟩ := h3
      subst e1 e2
      exact ⟨cycle_tree, rfl, by decide⟩
    · subst h2
      simp only [outgoing_links, List.mem_cons, Prod.mk.injEq, List.mem_nil_iff, or_false] at h3
      obtain ⟨_, e1, e2⟩ := h3
      subst e1 e2
      exact ⟨cycle_tree, rfl, by decide⟩

theorem C9_cycle_witness :
    (∀ t ∈ [cycle_tree], t.Valid) ∧ total_links [cycle_tree] ≤ 2 ∧
    LinksResolve cycle_schema [cycle_tree] [] ∧
    (∃ w, erase_cascade example_thresholds cycle_schema 2 [cycle_tree] 0 1 = .ok (some w) ∧
      w.state.m_to_be_deleted = [] ∧ w.erased.Nodup ∧
      w.times_erased (0, 1) = 1 ∧ w.times_erased (0, 2) = 1 ∧
      ¬ Live w.trees (0, 1) ∧ ¬ Live w.trees (0, 2)) ∧
    (match erase_cascade example_thresholds cycle_schema 2 [cycle_tree] 0 1 with
      | .ok (some w) => some w.erased
      | _ => none) = some [(0, 1), (0, 2)] ∧
    erase_cascade example_thresholds cycle_schema 2 [dangling_tree] 0 1 =
      .error Exception.KeyNotFound ∧
    erase_cascade example_thresholds cycle_schema 2
      [{ m_alloc := ⟨0, 0, 0⟩, m_root := .leaf [(1, [(0, .link 5 3)])], m_size := 1 }] 0 1 =
      .error Exception.NoSuchTable :=
  have hv : ∀ t ∈ [cycle_tree], t.Valid := by
    intro t ht
    rw [List.mem_singleton] at ht
    rw [ht]
    exact cycle_tree_valid
  ⟨hv, by decide, cycle_links_resolve,
    (C9_cascade_terminates_erases_once example_thresholds cycle_schema [cycle_tree] hv
      2 (by decide)).2 cycle_links_resolve (0, 1) (0, 2) cycle_tree [(0, .link 0 2)] 0
      (by decide) rfl (by decide) (by decide) rfl,
    by decide, rfl, rfl⟩

/-- C10: the identity of an iterator is its key.  For all iterators `a` and
`b`, `a != b` holds exactly when their keys differ, whatever the cached leaf,
position, storage version and instance version of either are; so a
copy-constructed iterator compares equal to its source, and so does the target
of a move-assignment (which asserts that both are over the same tree). -/
theorem C10_iterator_identity_is_key (a b : ConstIterator) :
    (a.ne b = true ↔ a.m_key ≠ b.m_key) ∧
    (∀ (leaf : Cluster) (st sv iv : Nat),
      ConstIterator.ne { a with m_leaf := leaf, m_state := st, m_storage_version := sv,
                                m_instance_version := iv } b = a.ne b ∧
      ConstIterator.ne a { b with m_leaf := leaf, m_state := st, m_storage_version := sv,
                                  m_instance_version := iv } = a.ne b) ∧
    (a.copy.ne a = false ∧ a.ne a.copy = false) ∧
    (a.m_tree = b.m_tree →
      ∃ r, a.assign b = some r ∧ r.ne b = false ∧ b.ne r = false) := by
  refine ⟨?_, ?_, ?_, ?_⟩
  · simp [ConstIterator.ne]
  · intro leaf st sv iv
    simp [ConstIterator.ne]
  · simp [ConstIterator.ne, ConstIterator.copy, ConstIterator.from_key]
  · intro h
    exact ⟨{ a with m_key := b.m_key }, by simp [ConstIterator.assign, h],
      by simp [ConstIterator.ne], by simp [ConstIterator.ne]⟩

theorem C10_iterator_witness :
    ((⟨7, 3, [(5, [])], 0, 1, 5⟩ : ConstIterator).m_tree =
        (⟨7, 2 ^ 64 - 1, [], 0, 2 ^ 64 - 1, 9⟩ : ConstIterator).m_tree) ∧
    (∃ r, ConstIterator.assign ⟨7, 3, [(5, [])], 0, 1, 5⟩ ⟨7, 2 ^ 64 - 1, [], 0, 2 ^ 64 - 1, 9⟩
        = some r ∧
      r.ne ⟨7, 2 ^ 64 - 1, [], 0, 2 ^ 64 - 1, 9⟩ = false ∧
      ConstIterator.ne ⟨7, 2 ^ 64 - 1, [], 0, 2 ^ 64 - 1, 9⟩ r = false) :=
  ⟨rfl, (C10_iterator_identity_is_key ⟨7, 3, [(5, [])], 0, 1, 5⟩
    ⟨7, 2 ^ 64 - 1, [], 0, 2 ^ 64 - 1, 9⟩).2.2.2 rfl⟩

/-! ## Properties of the column operations -/

theorem FieldValues.get_filter_append (col : ColKey) (d : Value) :
    ∀ row : FieldValues,
      FieldValues.get col (row.filter (fun f => f.1 != col) ++ [(col, d)]) = some d
  | [] => by simp [FieldValues.get]
  | (c, v) :: rest => by
    by_cases h : c = col
    · subst h
      simpa using FieldValues.get_filter_append c d rest
    · have hb : (c != col) = true := by simpa using h
      simp only [List.filter_cons, hb, if_true, List.cons_append, FieldValues.get, h, if_false]
      exact FieldValues.get_filter_append col d rest

theorem FieldValues.get_insert_column_self (col : ColKey) (d : Value) (row : FieldValues) :
    FieldValues.get col (FieldValues.insert_column col d row) = some d :=
  FieldValues.get_filter_append col d row

theorem FieldValues.get_insert_column_other (col c' : ColKey) (d : Value) (hne : c' ≠ col) :
    ∀ row : FieldValues,
      FieldValues.get c' (FieldValues.insert_column col d row) = FieldValues.get c' row
  | [] => by
    simp [FieldValues.insert_column, FieldValues.get, Ne.symm hne]
  | (c, v) :: rest => by
    have ih := FieldValues.get_insert_column_other col c' d hne rest
    simp only [FieldValues.insert_column] at ih ⊢
    by_cases h : c = col
    · subst h
      have hb : (c != c) = false := by simp
      simp only [List.filter_cons, hb, Bool.false_eq_true, if_false, FieldValues.get,
        Ne.symm hne]
      exact ih
    · have hb : (c != col) = true := by simpa using h
      simp only [List.filter_cons, hb, if_true, List.cons_append, FieldValues.get]
      rw [ih]

theorem Cluster.lookup_insert_column (col : ColKey) (d : Value) (k : ObjKey) :
    ∀ rows : Cluster,
      Cluster.lookup k (Cluster.insert_column col d rows) =
        (Cluster.lookup k rows).map (FieldValues.insert_column col d)
  | [] => rfl
  | (k', v) :: rest => by
    have ih := Cluster.lookup_insert_column col d k rest
    simp only [Cluster.insert_column] at ih
    simp only [Cluster.insert_column, List.map_cons, Cluster.lookup]
    split_ifs
    · rfl
    · exact ih

mutual
theorem ClusterNode.find_insert_column (col : ColKey) (d : Value) (k : ObjKey) :
    ∀ n : ClusterNode,
      (n.insert_column col d).find k = (n.find k).map (FieldValues.insert_column col d)
  | .leaf rows => by
    simp only [ClusterNode.insert_column, ClusterNode.find]
    exact Cluster.lookup_insert_column col d k rows
  | .inner cs => by
    simp only [ClusterNode.insert_column, ClusterNode.find]
    exact ClusterNode.find_children_insert_column col d k cs
theorem ClusterNode.find_children_insert_column (col : ColKey) (d : Value) (k : ObjKey) :
    ∀ cs : List (ObjKey × ClusterNode),
      ClusterNode.find_children k (ClusterNode.insert_column_children col d cs) =
        (ClusterNode.find_children k cs).map (FieldValues.insert_column col d)
  | [] => by
    simp [ClusterNode.insert_column_children, ClusterNode.find_children]
  | (m, c) :: rest => by
    simp only [ClusterNode.insert_column_children, ClusterNode.find_children]
    split_ifs
    · exact ClusterNode.find_insert_column col d k c
    · exact ClusterNode.find_children_insert_column col d k rest
end

/-- C11: for every tree, every column, every column type and every row the tree
holds (so the table has at least one row, whatever was added or removed
before), after `insert_column` with the default value of the type the tree
has as many rows as before, the handle of the row is still the handle that
`get` returns, reading the new column through it returns the default of the
type, and every other column reads as before. -/
theorem C11_insert_column_backfills_default (t : ClusterTree) (col : ColKey) (type : DataType)
    (k : ObjKey) (o : Obj) (hget : t.get k = .ok o) :
    (t.insert_column col type.default_value).size = t.size ∧
    (t.insert_column col type.default_value).get k = .ok o ∧
    o.get (t.insert_column col type.default_value) col = .ok (some type.default_value) ∧
    ∀ c, c ≠ col → o.get (t.insert_column col type.default_value) c = o.get t c := by
  simp only [ClusterTree.get] at hget
  cases hf : t.m_root.find k with
  | none => simp [hf] at hget
  | some row =>
    simp only [hf, Except.ok.injEq] at hget
    subst hget
    have hf2 := ClusterNode.find_insert_column col type.default_value k t.m_root
    rw [hf] at hf2
    refine ⟨rfl, ?_, ?_, ?_⟩
    · simp only [ClusterTree.get, ClusterTree.insert_column, hf2, Option.map_some']
      rfl
    · simp only [Obj.get, Obj.get_fields, ClusterTree.insert_column, hf2, Option.map_some']
      simp [ClusterTree.get_instance_version, FieldValues.get_insert_column_self]
    · intro c hc
      simp only [Obj.get, Obj.get_fields, ClusterTree.insert_column, hf2, hf, Option.map_some']
      simp [ClusterTree.get_instance_version, FieldValues.get_insert_column_other col c _ hc]

theorem C11_insert_column_witness :
    (init_of_empty_column_table .type_Int (.int 1) (.int 2)).get 0 = .ok ⟨0, 0, 0⟩ ∧
    (init_of_empty_column_table .type_Int (.int 1) (.int 2)).size = 2 ∧
    Obj.get ⟨0, 0, 0⟩
      ((init_of_empty_column_table .type_Int (.int 1) (.int 2)).insert_column 1
        (DataType.default_value .type_Int)) 1 = .ok (some (.int 0)) ∧
    Obj.get ⟨0, 0, 0⟩
      ((init_of_empty_column_table .type_Double (.double 0x3FF199999999999A)
        (.double 0x400199999999999A)).insert_column 1
        (DataType.default_value .type_Double)) 1 = .ok (some (.double 0)) :=
  ⟨rfl, rfl,
    (C11_insert_column_backfills_default
      (init_of_empty_column_table .type_Int (.int 1) (.int 2)) 1 .type_Int 0 ⟨0, 0, 0⟩ rfl).2.2.1,
    rfl⟩

/-! ## Properties of `unicode.cpp` -/

set_option maxRecDepth 100000 in
theorem sequence_length_eq :
    ∀ b < 256, sequence_length b =
      if b < 0xC0 then 1 else if b < 0xE0 then 2 else if b < 0xF0 then 3
      else if b < 0xF8 then 4 else if b < 0xFC then 5 else if b < 0xFE then 6 else 1 := by
  decide

theorem sequence_length_pos (b : Nat) : 1 ≤ sequence_length b := by
  have h := sequence_length_eq (b % 256) (Nat.mod_lt _ (by decide))
  have e : sequence_length b = sequence_length (b % 256) := by
    simp [sequence_length]
  rw [e, h]
  split_ifs <;> omega

/-- C14: `sequence_length` returns the number of bytes that a leading byte
announces: 1 below `0x80`, 2 for `0xC0..0xDF`, 3 for `0xE0..0xEF`, 4 for
`0xF0..0xF7`, 5 for `0xF8..0xFB`, 6 for `0xFC..0xFD`, and 1 for the bytes that
cannot lead a sequence, `0x80..0xBF`, `0xFE` and `0xFF`; so it is always
between 1 and 6. -/
theorem C14_sequence_length_of_lead_byte (b : Nat) (hb : b < 256) :
    (b < 0x80 → sequence_length b = 1) ∧
    (0xC0 ≤ b ∧ b ≤ 0xDF → sequence_length b = 2) ∧
    (0xE0 ≤ b ∧ b ≤ 0xEF → sequence_length b = 3) ∧
    (0xF0 ≤ b ∧ b ≤ 0xF7 → sequence_length b = 4) ∧
    (0xF8 ≤ b ∧ b ≤ 0xFB → sequence_length b = 5) ∧
    (0xFC ≤ b ∧ b ≤ 0xFD → sequence_length b = 6) ∧
    ((0x80 ≤ b ∧ b ≤ 0xBF) ∨ b = 0xFE ∨ b = 0xFF → sequence_length b = 1) ∧
    1 ≤ sequence_length b ∧ sequence_length b ≤ 6 := by
  have h := sequence_length_eq b hb
  rw [h]
  refine ⟨?_, ?_, ?_, ?_, ?_, ?_, ?_, ?_, ?_⟩ <;> intros <;> split_ifs <;> omega

theorem C14_sequence_length_witness :
    (0xE4 : Nat) < 256 ∧ sequence_length 0xE4 = 3 ∧ sequence_length 0x80 = 1 ∧
      sequence_length 0xFF = 1 :=
  ⟨by decide, (C14_sequence_length_of_lead_byte 0xE4 (by decide)).2.2.1 (by decide),
    (C14_sequence_length_of_lead_byte 0x80 (by decide)).2.2.2.2.2.2.1 (by decide),
    (C14_sequence_length_of_lead_byte 0xFF (by decide)).2.2.2.2.2.2.1 (by decide)⟩

theorem and_0x3f (x : Nat) : x &&& 0x3f = x % 64 :=
  Nat.and_pow_two_sub_one_eq_mod x 6

/-- One step of the loop of `utf8value` appends the six payload bits of a
continuation byte. -/
theorem utf8value_step (res r : Nat) (hres : res < 2 ^ 26) (hr : r < 64) :
    ((res <<< 6) ||| ((0x80 + r) &&& 0x3f)) % 2 ^ 32 = res * 64 + r := by
  have h1 : (0x80 + r) &&& 0x3f = r := by
    rw [and_0x3f]; omega
  have h2 : res <<< 6 = 2 ^ 6 * res := by
    rw [Nat.shiftLeft_eq]; ring
  have h3 : (2 : Nat) ^ 6 * res ||| r = 2 ^ 6 * res + r :=
    (Nat.mul_add_lt_is_or (by simpa using hr) res).symm
  rw [h1, h2, h3]
  omega

theorem lead_mask (lead q k : Nat) (hq : q < 2 ^ k) (hl : lead % 2 ^ k = 0)
    (hm : 0x3f >>> (6 - k) = 2 ^ k - 1) : (lead + q) &&& (0x3f >>> (6 - k)) = q := by
  rw [hm, Nat.and_pow_two_sub_one_eq_mod]
  rw [Nat.add_mod, hl, Nat.zero_add, Nat.mod_mod, Nat.mod_eq_of_lt hq]

theorem utf8value_encode (u : Nat) (hu : u < 2 ^ 31) (rest : List Nat) :
    utf8value (utf8_encode u ++ rest) = u := by
  unfold utf8_encode
  split_ifs with h1 h2 h3 h4 h5
  · have hs : sequence_length u = 1 := by
      rw [sequence_length_eq _ (by omega)]; split_ifs <;> omega
    simp [utf8value, hs]
  · have hs : sequence_length (0xC0 + u / 2 ^ 6) = 2 := by
      rw [sequence_length_eq _ (by omega)]; split_ifs <;> omega
    have hm := lead_mask 0xC0 (u / 2 ^ 6) 5 (by omega) (by decide) (by decide)
    simp only [utf8value, List.cons_append, List.getD_cons_zero, hs]
    simp only [show (2 : Nat) - 1 = 1 from rfl, show (6 : Nat) - 5 = 1 from rfl] at hm ⊢
    simp only [List.range', List.foldl, hm, List.getD_cons_succ, List.getD_cons_zero]
    rw [utf8value_step _ _ (by omega) (by omega)]
    simp
    omega
  · have hs : sequence_length (0xE0 + u / 2 ^ 12) = 3 := by
      rw [sequence_length_eq _ (by omega)]; split_ifs <;> omega
    have hm := lead_mask 0xE0 (u / 2 ^ 12) 4 (by omega) (by decide) (by decide)
    simp only [utf8value, List.cons_append, List.getD_cons_zero, hs]
    simp only [show (3 : Nat) - 1 = 2 from rfl, show (6 : Nat) - 4 = 2 from rfl] at hm ⊢
    simp only [List.range', List.foldl, hm, List.getD_cons_succ, List.getD_cons_zero]
    rw [utf8value_step (u / 2 ^ 12) (u / 2 ^ 6 % 2 ^ 6) (by omega) (by omega)]
    rw [utf8value_step (u / 2 ^ 12 * 64 + u / 2 ^ 6 % 2 ^ 6) (u % 2 ^ 6) (by omega) (by omega)]
    simp
    omega
  · have hs : sequence_length (0xF0 + u / 2 ^ 18) = 4 := by
      rw [sequence_length_eq _ (by omega)]; split_ifs <;> omega
    have hm := lead_mask 0xF0 (u / 2 ^ 18) 3 (by omega) (by decide) (by decide)
    simp only [utf8value, List.cons_append, List.getD_cons_zero, hs]
    simp only [show (4 : Nat) - 1 = 3 from rfl, show (6 : Nat) - 3 = 3 from rfl] at hm ⊢
    simp only [List.range', List.foldl, hm, List.getD_cons_succ, List.getD_cons_zero]
    rw [utf8value_step (u / 2 ^ 18) (u / 2 ^ 12 % 2 ^ 6) (by omega) (by omega)]
    rw [utf8value_step (u / 2 ^ 18 * 64 + u / 2 ^ 12 % 2 ^ 6) (u / 2 ^ 6 % 2 ^ 6) (by omega) (by omega)]
    rw [utf8value_step ((u / 2 ^ 18 * 64 + u / 2 ^ 12 % 2 ^ 6) * 64 + u / 2 ^ 6 % 2 ^ 6) (u % 2 ^ 6) (by omega) (by omega)]
    simp
    omega
  · have hs : sequence_length (0xF8 + u / 2 ^ 24) = 5 := by
      rw [sequence_length_eq _ (by omega)]; split_ifs <;> omega
    have hm := lead_mask 0xF8 (u / 2 ^ 24) 2 (by omega) (by decide) (by decide)
    simp only [utf8value, List.cons_append, List.getD_cons_zero, hs]
    simp only [show (5 : Nat) - 1 = 4 from rfl, show (6 : Nat) - 2 = 4 from rfl] at hm ⊢
    simp only [List.range', List.foldl, hm, List.getD_cons_succ, List.getD_cons_zero]
    rw [utf8value_step (u / 2 ^ 24) (u / 2 ^ 18 % 2 ^ 6) (by omega) (by omega)]
    rw [utf8value_step (u / 2 ^ 24 * 64 + u / 2 ^ 18 % 2 ^ 6) (u / 2 ^ 12 % 2 ^ 6) (by omega) (by omega)]
    rw [utf8value_step ((u / 2 ^ 24 * 64 + u / 2 ^ 18 % 2 ^ 6) * 64 + u / 2 ^ 12 % 2 ^ 6) (u / 2 ^ 6 % 2 ^ 6) (by omega) (by omega)]
    rw [utf8value_step (((u / 2 ^ 24 * 64 + u / 2 ^ 18 % 2 ^ 6) * 64 + u / 2 ^ 12 % 2 ^ 6) * 64 + u / 2 ^ 6 % 2 ^ 6) (u % 2 ^ 6) (by omega) (by omega)]
    simp
    omega
  · have hs : sequence_length (0xFC + u / 2 ^ 30) = 6 := by
      rw [sequence_length_eq _ (by omega)]; split_ifs <;> omega
    have hm := lead_mask 0xFC (u / 2 ^ 30) 1 (by omega) (by decide) (by decide)
    simp only [utf8value, List.cons_append, List.getD_cons_zero, hs]
    simp only [show (6 : Nat) - 1 = 5 from rfl, show (6 : Nat) - 1 = 5 from rfl] at hm ⊢
    simp only [List.range', List.foldl, hm, List.getD_cons_succ, List.getD_cons_zero]
    rw [utf8value_step (u / 2 ^ 30) (u / 2 ^ 24 % 2 ^ 6) (by omega) (by omega)]
    rw [utf8value_step (u / 2 ^ 30 * 64 + u / 2 ^ 24 % 2 ^ 6) (u / 2 ^ 18 % 2 ^ 6) (by omega) (by omega)]
    rw [utf8value_step ((u / 2 ^ 30 * 64 + u / 2 ^ 24 % 2 ^ 6) * 64 + u / 2 ^ 18 % 2 ^ 6) (u / 2 ^ 12 % 2 ^ 6) (by omega) (by omega)]
    rw [utf8value_step (((u / 2 ^ 30 * 64 + u / 2 ^ 24 % 2 ^ 6) * 64 + u / 2 ^ 18 % 2 ^ 6) * 64 + u / 2 ^ 12 % 2 ^ 6) (u / 2 ^ 6 % 2 ^ 6) (by omega) (by omega)]
    rw [utf8value_step ((((u / 2 ^ 30 * 64 + u / 2 ^ 24 % 2 ^ 6) * 64 + u / 2 ^ 18 % 2 ^ 6) * 64 + u / 2 ^ 12 % 2 ^ 6) * 64 + u / 2 ^ 6 % 2 ^ 6) (u % 2 ^ 6) (by omega) (by omega)]
    simp
    omega

/-- C15: `utf8value` decodes UTF-8.  For every code point `u` below `2 ^ 31`,
encoded in the scheme of 1 to 6 bytes (which for `u` up to `0x10FFFF` is the
standard encoding, of at most 4 bytes), `sequence_length` of the leading byte
is the number of bytes of the encoding, and `utf8value` applied to a pointer to
the encoding, whatever bytes follow it, returns `u`. -/
theorem C15_utf8value_decodes (u : Nat) (hu : u < 2 ^ 31) (rest : List Nat) :
    utf8value (utf8_encode u ++ rest) = u ∧
    sequence_length ((utf8_encode u).getD 0 0) = (utf8_encode u).length ∧
    (u ≤ 0x10FFFF → (utf8_encode u).length ≤ 4) := by
  refine ⟨utf8value_encode u hu rest, ?_, ?_⟩
  · unfold utf8_encode
    split_ifs <;> simp only [List.getD_cons_zero, List.length_cons, List.length_nil] <;>
      (rw [sequence_length_eq _ (by omega)]; split_ifs <;> omega)
  · intro h
    unfold utf8_encode
    split_ifs <;> simp <;> omega

theorem C15_utf8value_witness :
    (0x4E00 : Nat) < 2 ^ 31 ∧ utf8_encode 0x4E00 = [0xE4, 0xB8, 0x80] ∧
      utf8value [0xE4, 0xB8, 0x80, 0x41] = 0x4E00 :=
  ⟨by decide, by decide, (C15_utf8value_decodes 0x4E00 (by decide) [0x41]).1⟩

theorem utf8_compare_core_succ (method : string_compare_method_t) (fuel : Nat)
    (s1 s2 : List Nat) :
    utf8_compare_core method (fuel + 1) s1 s2 =
      if (s1.length == 0) != (s2.length == 0) then some (s1.length == 0)
      else if (s2.length == 0 && s1.length == 0) = true then some false
      else if (decide (s1.length < sequence_length (s1.getD 0 0)) ||
          decide (s2.length < sequence_length (s2.getD 0 0))) = true then some false
      else if utf8value s1 = utf8value s2 then
        utf8_compare_core method fuel (s1.drop (sequence_length (s1.getD 0 0)))
          (s2.drop (sequence_length (s2.getD 0 0)))
      else if (decide (utf8value s1 > last_latin_extended_2_unicode) ||
          decide (utf8value s2 > last_latin_extended_2_unicode)) = true then
        some (decide (utf8value s1 < utf8value s2))
      else
        some (decide
          ((if method = .STRING_COMPARE_CORE_SIMILAR then collation_order_core_similar
              else collation_order_core).getD (utf8value s1) 0 <
            (if method = .STRING_COMPARE_CORE_SIMILAR then collation_order_core_similar
              else collation_order_core).getD (utf8value s2) 0)) := by
  rw [utf8_compare_core]

theorem bne_symm (a b : Bool) : (a != b) = (b != a) := by
  cases a <;> cases b <;> rfl

/-- What remains of a string that is not empty after one code point is shorter. -/
theorem length_drop_sequence_lt (s : List Nat) (h : s.length ≠ 0) :
    (s.drop (sequence_length (s.getD 0 0))).length < s.length := by
  have hpos := sequence_length_pos (s.getD 0 0)
  rw [List.length_drop]
  omega

/-- With fuel beyond the length of the first string the loop returns. -/
theorem utf8_compare_core_total (method : string_compare_method_t) :
    ∀ (fuel : Nat) (s1 s2 : List Nat), s1.length < fuel →
      ∃ b, utf8_compare_core method fuel s1 s2 = some b := by
  intro fuel
  induction fuel with
  | zero => intro s1 s2 h; omega
  | succ n ih =>
    intro s1 s2 h
    rw [utf8_compare_core_succ]
    by_cases h1 : ((s1.length == 0) != (s2.length == 0)) = true
    · rw [if_pos h1]; exact ⟨_, rfl⟩
    · rw [if_neg h1]
      by_cases h2 : (s2.length == 0 && s1.length == 0) = true
      · rw [if_pos h2]; exact ⟨_, rfl⟩
      · rw [if_neg h2]
        have hne : s1.length ≠ 0 := by
          intro e
          cases hs2 : (s2.length == 0) <;> simp [e, hs2] at h1 h2
        have hlt := length_drop_sequence_lt s1 hne
        split_ifs
        · exact ⟨_, rfl⟩
        · exact ih _ _ (by omega)
        all_goals exact ⟨_, rfl⟩

/-- More fuel does not change what the loop returns. -/
theorem utf8_compare_core_mono (method : string_compare_method_t) :
    ∀ (fuel : Nat) (s1 s2 : List Nat) (r : Bool),
      utf8_compare_core method fuel s1 s2 = some r →
      ∀ fuel', fuel ≤ fuel' → utf8_compare_core method fuel' s1 s2 = some r := by
  intro fuel
  induction fuel with
  | zero =>
    intro s1 s2 r h
    simp [utf8_compare_core] at h
  | succ n ih =>
    intro s1 s2 r h fuel' hle
    obtain ⟨m, rfl⟩ : ∃ m, fuel' = m + 1 := ⟨fuel' - 1, by omega⟩
    rw [utf8_compare_core_succ] at h ⊢
    split_ifs at h ⊢
    any_goals exact h
    exact ih _ _ r h m (by omega)

theorem utf8_compare_core_irrefl (method : string_compare_method_t) :
    ∀ (fuel : Nat) (s : List Nat), s.length < fuel →
      utf8_compare_core method fuel s s = some false := by
  intro fuel
  induction fuel with
  | zero => intro s h; omega
  | succ n ih =>
    intro s h
    rw [utf8_compare_core_succ]
    have h1 : ¬ ((s.length == 0) != (s.length == 0)) = true := by simp
    rw [if_neg h1]
    by_cases h2 : (s.length == 0 && s.length == 0) = true
    · rw [if_pos h2]
    · rw [if_neg h2]
      have hne : s.length ≠ 0 := by
        intro e
        simp [e] at h2
      have hlt := length_drop_sequence_lt s hne
      split_ifs with h3 h4
      · rfl
      · exact ih _ (by omega)
      all_goals exact absurd rfl h4

theorem utf8_compare_core_asymm (method : string_compare_method_t) :
    ∀ (fuel : Nat) (s1 s2 : List Nat),
      ¬ (utf8_compare_core method fuel s1 s2 = some true ∧
        utf8_compare_core method fuel s2 s1 = some true) := by
  intro fuel
  induction fuel with
  | zero =>
    intro s1 s2 h
    simp [utf8_compare_core] at h
  | succ n ih =>
    intro s1 s2
    rw [utf8_compare_core_succ, utf8_compare_core_succ]
    by_cases h1 : ((s1.length == 0) != (s2.length == 0)) = true
    · have h1' : ((s2.length == 0) != (s1.length == 0)) = true := by
        rw [bne_symm]; exact h1
      rw [if_pos h1, if_pos h1']
      rintro ⟨a, b⟩
      simp only [Option.some.injEq] at a b
      rw [a, b] at h1
      simp at h1
    · have h1' : ¬ ((s2.length == 0) != (s1.length == 0)) = true := by
        rw [bne_symm]; exact h1
      rw [if_neg h1, if_neg h1']
      by_cases h2 : (s2.length == 0 && s1.length == 0) = true
      · rw [if_pos h2]
        simp
      · have h2' : ¬ (s1.length == 0 && s2.length == 0) = true := by
          rw [Bool.and_comm]; exact h2
        rw [if_neg h2, if_neg h2']
        by_cases h3 : (decide (s1.length < sequence_length (s1.getD 0 0)) ||
            decide (s2.length < sequence_length (s2.getD 0 0))) = true
        · rw [if_pos h3]
          simp
        · have h3' : ¬ (decide (s2.length < sequence_length (s2.getD 0 0)) ||
              decide (s1.length < sequence_length (s1.getD 0 0))) = true := by
            rw [Bool.or_comm]; exact h3
          rw [if_neg h3, if_neg h3']
          by_cases h4 : utf8value s1 = utf8value s2
          · rw [if_pos h4, if_pos h4.symm]
            exact ih _ _
          · have h4' : ¬ utf8value s2 = utf8value s1 := fun e => h4 e.symm
            rw [if_neg h4, if_neg h4']
            by_cases h5 : (decide (utf8value s1 > last_latin_extended_2_unicode) ||
                decide (utf8value s2 > last_latin_extended_2_unicode)) = true
            · have h5' : (decide (utf8value s2 > last_latin_extended_2_unicode) ||
                  decide (utf8value s1 > last_latin_extended_2_unicode)) = true := by
                rw [Bool.or_comm]; exact h5
              rw [if_pos h5, if_pos h5']
              rintro ⟨a, b⟩
              simp only [Option.some.injEq, decide_eq_true_eq] at a b
              omega
            · have h5' : ¬ (decide (utf8value s2 > last_latin_extended_2_unicode) ||
                  decide (utf8value s1 > last_latin_extended_2_unicode)) = true := by
                rw [Bool.or_comm]; exact h5
              rw [if_neg h5, if_neg h5']
              rintro ⟨a, b⟩
              simp only [Option.some.injEq, decide_eq_true_eq] at a b
              omega

/-- C12: under both built-in methods `utf8_compare` returns, and it is a
strict "less than": for every byte string `s`, well-formed or not,
`utf8_compare(s, s)` is false, and for all byte strings `a` and `b` it is never
the case that both `utf8_compare(a, b)` and `utf8_compare(b, a)` are true. -/
theorem C12_utf8_compare_irreflexive_asymmetric (method : string_compare_method_t)
    (hm : method = .STRING_COMPARE_CORE ∨ method = .STRING_COMPARE_CORE_SIMILAR)
    (locale_compare callback : List Nat → List Nat → Bool) (a b : List Nat) :
    (∃ r, utf8_compare method locale_compare callback a b = some r) ∧
    utf8_compare method locale_compare callback a a = some false ∧
    ¬ (utf8_compare method locale_compare callback a b = some true ∧
      utf8_compare method locale_compare callback b a = some true) := by
  simp only [utf8_compare, hm, if_true]
  refine ⟨utf8_compare_core_total method _ a b (Nat.lt_succ_self _),
    utf8_compare_core_irrefl method _ a (Nat.lt_succ_self _), ?_⟩
  rintro ⟨h1, h2⟩
  have g1 := utf8_compare_core_mono method _ a b true h1 (a.length + b.length + 1) (by omega)
  have g2 := utf8_compare_core_mono method _ b a true h2 (a.length + b.length + 1) (by omega)
  exact utf8_compare_core_asymm method _ a b ⟨g1, g2⟩

theorem C12_utf8_compare_witness :
    (string_compare_method_t.STRING_COMPARE_CORE = .STRING_COMPARE_CORE ∨
      string_compare_method_t.STRING_COMPARE_CORE = .STRING_COMPARE_CORE_SIMILAR) ∧
    utf8_compare .STRING_COMPARE_CORE (fun _ _ => true) (fun _ _ => true) [0xC3, 0x28]
      [0xC3, 0x28] = some false ∧
    utf8_compare .STRING_COMPARE_CORE (fun _ _ => true) (fun _ _ => true) [0x61] [0x42]
      = some true ∧
    utf8_compare .STRING_COMPARE_CORE (fun _ _ => true) (fun _ _ => true) [0x42] [0x61]
      = some false :=
  ⟨Or.inl rfl,
    (C12_utf8_compare_irreflexive_asymmetric .STRING_COMPARE_CORE (Or.inl rfl) (fun _ _ => true)
      (fun _ _ => true) [0xC3, 0x28] [0xC3, 0x28]).2.1,
    by decide, by decide⟩

/-- C13: what the code does where the claim fails.  The strings "a一" and "B一"
are well-formed UTF-8 and both contain the code point U+4E00, which lies
beyond Latin Extended 2; under both internal methods `utf8_compare` puts the
first before the second, by the collation rank of `a` and `B`, although the
code point sequence of the first is not lexicographically less than that of the
second by numeric value (97 is greater than 66). -/
theorem C13_utf8_compare_ranks_first_difference
    (locale_compare callback : List Nat → List Nat → Bool) :
    utf8_encode_string [0x61, 0x4E00] = [0x61, 0xE4, 0xB8, 0x80] ∧
    utf8_encode_string [0x42, 0x4E00] = [0x42, 0xE4, 0xB8, 0x80] ∧
    utf8_compare .STRING_COMPARE_CORE locale_compare callback
      [0x61, 0xE4, 0xB8, 0x80] [0x42, 0xE4, 0xB8, 0x80] = some true ∧
    utf8_compare .STRING_COMPARE_CORE_SIMILAR locale_compare callback
      [0x61, 0xE4, 0xB8, 0x80] [0x42, 0xE4, 0xB8, 0x80] = some true ∧
    ¬ (([0x61, 0x4E00] : List Nat) < [0x42, 0x4E00]) := by
  refine ⟨by decide, by decide, ?_, ?_, by decide⟩
  · simp only [utf8_compare, true_or, if_true]
    decide
  · simp only [utf8_compare, or_true, if_true]
    decide

theorem equal_sequence_loop_bounds (begin2 : List Nat) :
    ∀ (rest : List Nat) (i n : Nat), equal_sequence_loop begin2 rest i = some n →
      i ≤ n ∧ n ≤ i + rest.length
  | [], i, n, h => by
    simp only [equal_sequence_loop, Option.some.injEq] at h
    subst h; simp
  | b :: rest, i, n, h => by
    simp only [equal_sequence_loop] at h
    split_ifs at h with h1 h2
    · simp only [Option.some.injEq] at h
      subst h; simp
    · have := equal_sequence_loop_bounds begin2 rest (i + 1) n h
      simp only [List.length_cons]
      omega

theorem equal_sequence_bounds (b : Nat) (rest begin2 : List Nat) (n : Nat)
    (h : equal_sequence (b :: rest) begin2 = some n) : 1 ≤ n ∧ n ≤ (b :: rest).length := by
  simp only [equal_sequence] at h
  split_ifs at h with h1 h2
  · have := equal_sequence_loop_bounds begin2 _ _ _ h
    simp only [List.drop_succ_cons, List.drop_zero] at this
    simp only [List.length_cons]
    omega
  · simp only [Option.some.injEq] at h
    subst h; simp

theorem drop_eq_getD_cons (h : List Nat) (i : Nat) (hi : i < h.length) :
    h.drop i = h.getD i 0 :: h.drop (i + 1) := by
  rw [List.getD_eq_getElem h 0 hi]
  exact List.drop_eq_getElem_cons hi

theorem equal_case_fold_loop_total (h u l : List Nat) :
    ∀ (fuel i : Nat), i ≤ h.length → h.length - i < fuel →
      ∃ r, equal_case_fold_loop h u l fuel i = some r
  | 0, i, _, hf => by omega
  | fuel + 1, i, hi, hf => by
    simp only [equal_case_fold_loop]
    split_ifs with h1
    · exact ⟨_, rfl⟩
    · have hlt : i < h.length := by omega
      rw [drop_eq_getD_cons h i hlt]
      cases e1 : equal_sequence (h.getD i 0 :: h.drop (i + 1)) (l.drop i) with
      | some n =>
        have hb := equal_sequence_bounds _ _ _ _ e1
        simp only [List.length_cons, List.length_drop] at hb
        exact equal_case_fold_loop_total h u l fuel (i + n) (by omega) (by omega)
      | none =>
        cases e2 : equal_sequence (h.getD i 0 :: h.drop (i + 1)) (u.drop i) with
        | some n =>
          have hb := equal_sequence_bounds _ _ _ _ e2
          simp only [List.length_cons, List.length_drop] at hb
          exact equal_case_fold_loop_total h u l fuel (i + n) (by omega) (by omega)
        | none => exact ⟨_, rfl⟩

theorem equal_case_fold_total (h u l : List Nat) : ∃ r, equal_case_fold h u l = some r := by
  simp only [equal_case_fold]
  split_ifs
  · exact equal_case_fold_loop_total h u l _ 0 (Nat.zero_le _) (by omega)
  · exact ⟨_, rfl⟩

theorem getD_drop_add (h : List Nat) (i j : Nat) : (h.drop i).getD j 0 = h.getD (i + j) 0 := by
  simp only [List.getD_eq_getElem?_getD, List.getElem?_drop]

theorem equal_sequence_loop_some (begin2 : List Nat) :
    ∀ (rest : List Nat) (i : Nat),
      (∀ j, j < rest.length → rest.getD j 0 &&& (0x80 + 0x40) = 0x80 →
        rest.getD j 0 = begin2.getD (i + j) 0) →
      ∃ n, equal_sequence_loop begin2 rest i = some n
  | [], i, _ => ⟨i, rfl⟩
  | b :: rest, i, hc => by
    simp only [equal_sequence_loop]
    split_ifs with h1 h2
    · exact ⟨_, rfl⟩
    · exact absurd (hc 0 (by simp) (by simpa using h1)) (by simpa using h2)
    · refine equal_sequence_loop_some begin2 rest (i + 1) ?_
      intro j hj hcj
      have := hc (j + 1) (by simpa using hj) (by simpa using hcj)
      simpa [Nat.add_assoc, Nat.add_comm 1 j] using this

theorem equal_sequence_some (h x : List Nat) (i : Nat) (hi : i < h.length)
    (h0 : h.getD i 0 = x.getD i 0)
    (hc : ∀ j, j < h.length → h.getD j 0 &&& (0x80 + 0x40) = 0x80 → h.getD j 0 = x.getD j 0) :
    ∃ n, equal_sequence (h.drop i) (x.drop i) = some n := by
  simp only [equal_sequence, getD_drop_add, Nat.add_zero]
  split_ifs with h1 h2
  · exact absurd h0 h1
  · refine equal_sequence_loop_some _ _ _ ?_
    intro j hj hcj
    simp only [List.drop_drop, List.length_drop] at hj
    simp only [List.drop_drop, getD_drop_add] at hcj ⊢
    have := hc (i + 1 + j) (by omega) hcj
    rw [this, Nat.add_assoc]
  · exact ⟨_, rfl⟩

theorem equal_case_fold_loop_true (h u l : List Nat)
    (hP : ∀ j, j < h.length →
      (l.getD j 0 = h.getD j 0 ∨ u.getD j 0 = h.getD j 0) ∧
      (h.getD j 0 &&& (0x80 + 0x40) = 0x80 →
        l.getD j 0 = h.getD j 0 ∧ u.getD j 0 = h.getD j 0)) :
    ∀ (fuel i : Nat), i ≤ h.length → h.length - i < fuel →
      equal_case_fold_loop h u l fuel i = some true
  | 0, i, _, hf => by omega
  | fuel + 1, i, hi, hf => by
    simp only [equal_case_fold_loop]
    split_ifs with h1
    · rfl
    · have hlt : i < h.length := by omega
      cases e1 : equal_sequence (h.drop i) (l.drop i) with
      | some n =>
        have hb := e1
        rw [drop_eq_getD_cons h i hlt] at hb
        have hb := equal_sequence_bounds _ _ _ _ hb
        simp only [List.length_cons, List.length_drop] at hb
        exact equal_case_fold_loop_true h u l hP fuel (i + n) (by omega) (by omega)
      | none =>
        have hl : l.getD i 0 ≠ h.getD i 0 := by
          intro hl
          obtain ⟨n, hn⟩ := equal_sequence_some h l i hlt hl.symm
            (fun j hj hcj => ((hP j hj).2 hcj).1.symm)
          rw [hn] at e1
          exact Option.noConfusion e1
        have hu : u.getD i 0 = h.getD i 0 := ((hP i hlt).1).resolve_left hl
        obtain ⟨n, hn⟩ := equal_sequence_some h u i hlt hu.symm
          (fun j hj hcj => ((hP j hj).2 hcj).2.symm)
        have hb := hn
        rw [drop_eq_getD_cons h i hlt] at hb
        have hb := equal_sequence_bounds _ _ _ _ hb
        simp only [List.length_cons, List.length_drop] at hb
        simp only [hn]
        exact equal_case_fold_loop_true h u l hP fuel (i + n) (by omega) (by omega)

theorem equal_case_fold_bytes_iff (h u l : List Nat) :
    equal_case_fold_bytes h u l = true ↔
      ∀ j, j < h.length → l.getD j 0 = h.getD j 0 ∨ u.getD j 0 = h.getD j 0 := by
  simp only [equal_case_fold_bytes, List.all_eq_true, List.mem_range, Bool.not_eq_true',
    Bool.and_eq_false_imp, bne_iff_ne, ne_eq, bne_eq_false_iff_eq]
  constructor
  · intro H j hj
    by_cases hl : l.getD j 0 = h.getD j 0
    · exact Or.inl hl
    · exact Or.inr (H j hj hl)
  · intro H j hj hl
    exact (H j hj).resolve_left hl

/-- When every byte of the haystack that looks like a continuation byte can
only be matched by both needle forms at once, the rigorous second pass adds
nothing: the function returns what the byte pass found. -/
theorem equal_case_fold_eq_bytes (h u l : List Nat)
    (hc : ∀ j, j < h.length → h.getD j 0 &&& (0x80 + 0x40) = 0x80 →
      (l.getD j 0 = h.getD j 0 ∨ u.getD j 0 = h.getD j 0) →
      l.getD j 0 = h.getD j 0 ∧ u.getD j 0 = h.getD j 0) :
    equal_case_fold h u l = some (equal_case_fold_bytes h u l) := by
  simp only [equal_case_fold]
  split_ifs with hb
  · rw [hb]
    have hB := (equal_case_fold_bytes_iff h u l).1 hb
    exact equal_case_fold_loop_true h u l
      (fun j hj => ⟨hB j hj, fun hcj => hc j hj hcj (hB j hj)⟩) _ 0 (Nat.zero_le _) (by omega)
  · simp only [Bool.not_eq_true] at hb
    rw [hb]

theorem map_eq_map_iff_getD (f : Nat → Nat) (h n : List Nat) (hlen : h.length = n.length) :
    h.map f = n.map f ↔ ∀ j, j < h.length → f (h.getD j 0) = f (n.getD j 0) := by
  constructor
  · intro H j _
    have := congrArg (fun x => List.getD x j (f 0)) H
    simpa only [List.getD_map] using this
  · intro H
    apply List.ext_getElem (by simp [hlen])
    intro j h1 h2
    simp only [List.length_map] at h1 h2
    have := H j h1
    rw [List.getD_eq_getElem h 0 h1, List.getD_eq_getElem n 0 h2] at this
    simpa only [List.getElem_map] using this

theorem case_map_getD (s : List Nat) (upper : Bool) (j : Nat) (hj : j < s.length) :
    (case_map_ignore_errors s upper).getD j 0 =
      if upper = true then
        (if 0x60 < s.getD j 0 ∧ s.getD j 0 < 0x7B then s.getD j 0 - 0x20 else s.getD j 0)
      else (if 0x40 < s.getD j 0 ∧ s.getD j 0 < 0x5B then s.getD j 0 + 0x20 else s.getD j 0) := by
  cases upper
  · simp only [case_map_ignore_errors, case_map, Bool.false_eq_true, if_false, Option.getD_some]
    rw [List.getD_eq_getElem _ 0 (by simpa using hj), List.getD_eq_getElem s 0 hj,
      List.getElem_map]
  · simp only [case_map_ignore_errors, case_map, if_true, Option.getD_some]
    rw [List.getD_eq_getElem _ 0 (by simpa using hj), List.getD_eq_getElem s 0 hj,
      List.getElem_map]

theorem ascii_not_continuation (c : Nat) (hc : c < 0x80) : c &&& (0x80 + 0x40) ≠ 0x80 := by
  revert c
  decide

/-- A byte that some byte `x` folds to in upper or in lower case has the same
lower case as `x`, and conversely. -/
theorem fold_byte_iff (c x : Nat) :
    ((if 0x40 < x ∧ x < 0x5B then x + 0x20 else x) = c ∨
      (if 0x60 < x ∧ x < 0x7B then x - 0x20 else x) = c) ↔
    (if 0x40 < c ∧ c < 0x5B then c + 0x20 else c) =
      (if 0x40 < x ∧ x < 0x5B then x + 0x20 else x) := by
  split_ifs <;> omega

theorem fold_byte_continuation (c x : Nat) (hc : c &&& (0x80 + 0x40) = 0x80)
    (h : (if 0x40 < x ∧ x < 0x5B then x + 0x20 else x) = c ∨
      (if 0x60 < x ∧ x < 0x7B then x - 0x20 else x) = c) :
    (if 0x40 < x ∧ x < 0x5B then x + 0x20 else x) = c ∧
      (if 0x60 < x ∧ x < 0x7B then x - 0x20 else x) = c := by
  have hge : ¬ c < 0x80 := fun hlt => ascii_not_continuation c hlt hc
  split_ifs at h ⊢ <;> omega

/-- C16: the portable `case_map` always returns a string (so the variant that
ignores errors returns the same string), the result has the length of the
source, and byte `i` of the result is `s[i] - 0x20` when `upper` is set and
`s[i]` is one of `a`..`z`, `s[i] + 0x20` when `upper` is clear and `s[i]` is
one of `A`..`Z`, and `s[i]` otherwise; in particular every byte from 0x80 on
is unchanged. -/
theorem C16_case_map_ascii_subset (s : List Nat) (upper : Bool) :
    ∃ r, case_map s upper = some r ∧ case_map_ignore_errors s upper = r ∧
      r.length = s.length ∧
      ∀ i, i < s.length →
        r.getD i 0 =
          (if upper = true ∧ 0x61 ≤ s.getD i 0 ∧ s.getD i 0 ≤ 0x7A then s.getD i 0 - 0x20
           else if upper = false ∧ 0x41 ≤ s.getD i 0 ∧ s.getD i 0 ≤ 0x5A then s.getD i 0 + 0x20
           else s.getD i 0) ∧
        (0x80 ≤ s.getD i 0 → r.getD i 0 = s.getD i 0) := by
  refine ⟨case_map_ignore_errors s upper, ?_, rfl, ?_, ?_⟩
  · cases upper <;> simp [case_map_ignore_errors, case_map]
  · cases upper <;> simp [case_map_ignore_errors, case_map]
  · intro i hi
    rw [case_map_getD s upper i hi]
    cases upper
    · simp only [Bool.false_eq_true, if_false, false_and, true_and]
      split_ifs <;> omega
    · simp only [if_true, true_and, Bool.true_eq_false, false_and, if_false]
      split_ifs <;> omega

/-- C17: for a haystack and a needle of equal length, `equal_case_fold` on the
upper and lower case forms of the needle returns, and its result says whether
the lower case forms of haystack and needle are the same string; it returns
`true` when the needle is the haystack; and it returns on every input,
whatever the two needle arrays hold. -/
theorem C17_equal_case_fold_decides (h n : List Nat) (hlen : h.length = n.length) :
    equal_case_fold h (case_map_ignore_errors n true) (case_map_ignore_errors n false) =
      some (decide (case_map h false = case_map n false)) ∧
    equal_case_fold h (case_map_ignore_errors h true) (case_map_ignore_errors h false) =
      some true ∧
    ∀ needle_upper needle_lower : List Nat,
      ∃ r, equal_case_fold h needle_upper needle_lower = some r := by
  have key : ∀ m : List Nat, h.length = m.length →
      equal_case_fold h (case_map_ignore_errors m true) (case_map_ignore_errors m false) =
        some (decide (case_map h false = case_map m false)) := by
    intro m hm
    rw [equal_case_fold_eq_bytes]
    · congr 1
      rw [Bool.eq_iff_iff, equal_case_fold_bytes_iff]
      simp only [decide_eq_true_eq, case_map, Bool.false_eq_true, if_false, Option.some.injEq]
      rw [map_eq_map_iff_getD _ h m hm]
      constructor
      · intro H j hj
        have := H j hj
        rw [case_map_getD m _ j (hm ▸ hj), case_map_getD m _ j (hm ▸ hj)] at this
        simp only [Bool.false_eq_true, if_false, if_true] at this
        exact (fold_byte_iff _ _).1 this
      · intro H j hj
        rw [case_map_getD m _ j (hm ▸ hj), case_map_getD m _ j (hm ▸ hj)]
        simp only [Bool.false_eq_true, if_false, if_true]
        exact (fold_byte_iff _ _).2 (H j hj)
    · intro j hj hcj
      rw [case_map_getD m _ j (hm ▸ hj), case_map_getD m _ j (hm ▸ hj)]
      simp only [Bool.false_eq_true, if_false, if_true]
      exact fold_byte_continuation _ _ hcj
  refine ⟨key n hlen, ?_, fun u l => equal_case_fold_total h u l⟩
  rw [key h rfl]
  simp

theorem C17_equal_case_fold_witness :
    ([0x48, 0x69, 0xC3, 0xA9] : List Nat).length = [0x68, 0x49, 0xC3, 0xA9].length ∧
    equal_case_fold [0x48, 0x69, 0xC3, 0xA9] (case_map_ignore_errors [0x68, 0x49, 0xC3, 0xA9] true)
      (case_map_ignore_errors [0x68, 0x49, 0xC3, 0xA9] false) =
      some (decide (case_map [0x48, 0x69, 0xC3, 0xA9] false =
        case_map [0x68, 0x49, 0xC3, 0xA9] false)) ∧
    decide (case_map [0x48, 0x69, 0xC3, 0xA9] false = case_map [0x68, 0x49, 0xC3, 0xA9] false)
      = true :=
  ⟨rfl, (C17_equal_case_fold_decides [0x48, 0x69, 0xC3, 0xA9] [0x68, 0x49, 0xC3, 0xA9] rfl).1,
    by decide⟩

theorem size_sub_of_le (a b : Nat) (hb : b ≤ a) (ha : a < 2 ^ 64) : size_sub a b = a - b := by
  simp only [size_sub]
  omega

theorem size_add_of_lt (a b : Nat) (h : a + b < 2 ^ 64) : size_add a b = a + b := by
  simp only [size_add]
  omega

theorem equal_case_fold_nil (u l : List Nat) : equal_case_fold [] u l = some true := by
  simp [equal_case_fold, equal_case_fold_bytes, equal_case_fold_loop]

theorem search_case_fold_loop_spec (h u l : List Nat) (m : Nat) (hlen : h.length < 2 ^ 64) :
    ∀ (fuel i : Nat), i ≤ h.length → h.length - i + 1 < fuel →
      (∀ j, j < i → j + m ≤ h.length → equal_case_fold (substr h j m) u l ≠ some true) →
      ∃ r, search_case_fold_loop h u l m fuel i = some r ∧ r ≤ h.length ∧
        ((r + m ≤ h.length ∧ equal_case_fold (substr h r m) u l = some true ∧
            ∀ j, j < r → equal_case_fold (substr h j m) u l ≠ some true) ∨
          (r = h.length ∧
            ∀ j, j + m ≤ h.length → equal_case_fold (substr h j m) u l ≠ some true))
  | 0, i, _, hf, _ => by omega
  | fuel + 1, i, hi, hf, hinv => by
    simp only [search_case_fold_loop]
    rw [size_sub_of_le _ _ hi hlen]
    split_ifs with h1
    · obtain ⟨b, hb⟩ := equal_case_fold_total (substr h i m) u l
      rw [hb]
      cases b
      · have hlt : i < h.length := by
          rcases Nat.lt_or_ge i h.length with hlt | hge
          · exact hlt
          · have hm0 : m = 0 := by omega
            subst hm0
            simp only [substr, List.take_zero] at hb
            rw [equal_case_fold_nil] at hb
            exact absurd hb (by simp)
        rw [size_add_of_lt _ _ (by omega)]
        refine search_case_fold_loop_spec h u l m hlen fuel (i + 1) (by omega) (by omega) ?_
        intro j hj hjm
        rcases Nat.lt_or_ge j i with hji | hji
        · exact hinv j hji hjm
        · have : j = i := by omega
          subst this
          rw [hb]
          simp
      · refine ⟨i, rfl, hi, Or.inl ⟨by omega, hb, ?_⟩⟩
        intro j hj
        exact hinv j hj (by omega)
    · refine ⟨h.length, rfl, Nat.le_refl _, Or.inr ⟨rfl, ?_⟩⟩
      intro j hjm
      exact hinv j (by omega) hjm

theorem search_case_fold_spec (h u l : List Nat) (m : Nat) (hlen : h.length < 2 ^ 64) :
    ∃ r, search_case_fold h u l m = some r ∧ r ≤ h.length ∧
      ((r + m ≤ h.length ∧ equal_case_fold (substr h r m) u l = some true ∧
          ∀ j, j < r → equal_case_fold (substr h j m) u l ≠ some true) ∨
        (r = h.length ∧
          ∀ j, j + m ≤ h.length → equal_case_fold (substr h j m) u l ≠ some true)) :=
  search_case_fold_loop_spec h u l m hlen _ 0 (Nat.zero_le _) (by omega)
    (fun j hj => absurd hj (Nat.not_lt_zero j))

/-- C18: for a haystack whose size fits `size_t`, `search_case_fold` returns
an index `r` that never exceeds the size of the haystack; either `r` is the
smallest index with `r + m` within the haystack at which `equal_case_fold` of
the `m` bytes from `r` is true (no smaller index matches), or no index
matches and `r` is the size of the haystack, which covers a needle longer
than the haystack. -/
theorem C18_search_case_fold_first_match (h u l : List Nat) (m : Nat)
    (hlen : h.length < 2 ^ 64) :
    ∃ r, search_case_fold h u l m = some r ∧ r ≤ h.length ∧
      ((r + m ≤ h.length ∧ equal_case_fold (substr h r m) u l = some true ∧
          ∀ j, j < r → equal_case_fold (substr h j m) u l ≠ some true) ∨
        (r = h.length ∧
          ∀ j, j + m ≤ h.length → equal_case_fold (substr h j m) u l ≠ some true)) ∧
      (h.length < m → r = h.length) := by
  obtain ⟨r, hr, hle, hcase⟩ := search_case_fold_spec h u l m hlen
  refine ⟨r, hr, hle, hcase, ?_⟩
  intro hlt
  rcases hcase with ⟨h1, _, _⟩ | ⟨h1, _⟩
  · omega
  · exact h1

theorem C18_search_case_fold_witness :
    ([0x78, 0x41, 0x62, 0x63] : List Nat).length < 2 ^ 64 ∧
    search_case_fold [0x78, 0x41, 0x62, 0x63] [0x41, 0x42] [0x61, 0x62] 2 = some 1 ∧
    ∃ r, search_case_fold [0x78, 0x41, 0x62, 0x63] [0x41, 0x42] [0x61, 0x62] 2 = some r ∧
      r ≤ ([0x78, 0x41, 0x62, 0x63] : List Nat).length :=
  ⟨by decide, by decide,
    (C18_search_case_fold_first_match [0x78, 0x41, 0x62, 0x63] [0x41, 0x42] [0x61, 0x62] 2
      (by decide)).imp (fun _ hr => ⟨hr.1, hr.2.1⟩)⟩

theorem equal_case_fold_true_bytes (c u l : List Nat) (h : equal_case_fold c u l = some true) :
    ∀ k, k < c.length → l.getD k 0 = c.getD k 0 ∨ u.getD k 0 = c.getD k 0 := by
  rw [← equal_case_fold_bytes_iff]
  simp only [equal_case_fold] at h
  split_ifs at h with hb
  · exact hb
  · simp at h

theorem length_substr (h : List Nat) (j m : Nat) (hj : j + m ≤ h.length) :
    (substr h j m).length = m := by
  simp only [substr, List.length_take, List.length_drop]
  omega

theorem getD_substr (h : List Nat) (j m k : Nat) (hk : k < m) :
    (substr h j m).getD k 0 = h.getD (j + k) 0 := by
  simp only [substr, List.getD_eq_getElem?_getD, List.getElem?_take, hk, if_true,
    List.getElem?_drop]

/-- A window that matches holds, at each of its positions, the upper or the
lower form of the needle byte of that position. -/
theorem match_bytes (h u l : List Nat) (j m k : Nat) (hj : j + m ≤ h.length) (hk : k < m)
    (hmatch : equal_case_fold (substr h j m) u l = some true) :
    u.getD k 0 = h.getD (j + k) 0 ∨ l.getD k 0 = h.getD (j + k) 0 := by
  have := equal_case_fold_true_bytes _ u l hmatch k (by rw [length_substr h j m hj]; exact hk)
  rw [getD_substr h j m k hk] at this
  exact this.symm

theorem contains_ins_loop_spec (h u l : List Nat) (m : Nat) (charmap : List Nat)
    (hlen : h.length < 2 ^ 63) (hm1 : 1 ≤ m)
    (hocc : ∀ c k, k < m - 1 → (u.getD k 0 = c ∨ l.getD k 0 = c) →
      1 ≤ charmap.getD c 0 ∧ charmap.getD c 0 ≤ m - 1 - k)
    (hnot : ∀ c, (∀ k, k < m - 1 → u.getD k 0 ≠ c ∧ l.getD k 0 ≠ c) → charmap.getD c 0 = 0) :
    ∀ (fuel p : Nat), m - 1 ≤ p → h.length - p < fuel →
      (∀ j, j + m ≤ p → j + m ≤ h.length → equal_case_fold (substr h j m) u l ≠ some true) →
      ∃ b, contains_ins_loop h u l m charmap (u.getD (m - 1) 0) (l.getD (m - 1) 0) fuel p
          = some b ∧
        (b = true ↔ ∃ j, j + m ≤ h.length ∧ equal_case_fold (substr h j m) u l = some true)
  | 0, p, _, hf, _ => by omega
  | fuel + 1, p, hp, hf, hinv => by
    by_cases h1 : p < h.length
    · have hs : size_add (size_sub p m) 1 = p + 1 - m := by
        simp only [size_add, size_sub]
        omega
      have hwin : p + 1 - m + m ≤ h.length := by omega
      -- the window that ends at `p` does not match, once the test has failed
      have hstep : ∀ d, 1 ≤ d → (charmap.getD (h.getD p 0) 0 = 0 → d = m) →
          (charmap.getD (h.getD p 0) 0 ≠ 0 → d = charmap.getD (h.getD p 0) 0) →
          equal_case_fold (substr h (p + 1 - m) m) u l ≠ some true →
          ∃ b, contains_ins_loop h u l m charmap (u.getD (m - 1) 0) (l.getD (m - 1) 0) fuel
              (size_add p d) = some b ∧
            (b = true ↔
              ∃ j, j + m ≤ h.length ∧ equal_case_fold (substr h j m) u l = some true) := by
        intro d hd1 hd0 hdn hno
        have hdm : d ≤ m := by
          by_cases hz : charmap.getD (h.getD p 0) 0 = 0
          · exact le_of_eq (hd0 hz)
          · rw [hdn hz]
            by_contra hgt
            have : ∀ k, k < m - 1 → u.getD k 0 ≠ h.getD p 0 ∧ l.getD k 0 ≠ h.getD p 0 := by
              intro k hk
              constructor
              · intro e
                have := hocc _ k hk (Or.inl e)
                omega
              · intro e
                have := hocc _ k hk (Or.inr e)
                omega
            exact hz (hnot _ this)
        rw [size_add_of_lt _ _ (by omega)]
        refine contains_ins_loop_spec h u l m charmap hlen hm1 hocc hnot fuel (p + d)
          (by omega) (by omega) ?_
        intro j hjp hjl
        rcases Nat.lt_or_ge p (j + m) with hlt | hge
        · rcases Nat.lt_or_ge (p + 1) (j + m) with hlt2 | hge2
          · intro hmatch
            have hb := match_bytes h u l j m (p - j) hjl (by omega) hmatch
            have hjk : j + (p - j) = p := by omega
            rw [hjk] at hb
            have hc := hocc (h.getD p 0) (p - j) (by omega) hb
            by_cases hz : charmap.getD (h.getD p 0) 0 = 0
            · omega
            · have := hdn hz
              omega
          · have : j = p + 1 - m := by omega
            subst this
            exact hno
        · exact hinv j hge hjl
      simp only [contains_ins_loop, h1, if_true, hs]
      by_cases hc : h.getD p 0 = u.getD (m - 1) 0 ∨ h.getD p 0 = l.getD (m - 1) 0
      · simp only [hc, if_true]
        obtain ⟨bw, hbw⟩ := equal_case_fold_total (substr h (p + 1 - m) m) u l
        rw [hbw]
        cases bw
        · simp only
          have hno : equal_case_fold (substr h (p + 1 - m) m) u l ≠ some true := by
            rw [hbw]; simp
          split_ifs with hz
          · exact hstep m hm1 (fun _ => rfl) (fun hn => absurd hz hn) hno
          · exact hstep _ (Nat.one_le_iff_ne_zero.2 hz) (fun h0 => absurd h0 hz)
              (fun _ => rfl) hno
        · exact ⟨true, rfl, iff_of_true rfl ⟨p + 1 - m, hwin, hbw⟩⟩
      · simp only [hc, if_false]
        have hno : equal_case_fold (substr h (p + 1 - m) m) u l ≠ some true := by
          intro hmatch
          have hb := match_bytes h u l (p + 1 - m) m (m - 1) hwin (by omega) hmatch
          have hjk : p + 1 - m + (m - 1) = p := by omega
          rw [hjk] at hb
          exact hc (hb.imp Eq.symm Eq.symm)
        split_ifs with hz
        · exact hstep m hm1 (fun _ => rfl) (fun hn => absurd hz hn) hno
        · exact hstep _ (Nat.one_le_iff_ne_zero.2 hz) (fun h0 => absurd h0 hz)
            (fun _ => rfl) hno
    · simp only [contains_ins_loop, h1, if_false]
      refine ⟨false, rfl, iff_of_false (by simp) ?_⟩
      rintro ⟨j, hjl, hmatch⟩
      exact hinv j (by omega) hjl hmatch

theorem contains_ins_spec (h u l : List Nat) (m : Nat) (charmap : List Nat)
    (hlen : h.length < 2 ^ 63) (hm1 : 1 ≤ m) (hm : m < 2 ^ 64)
    (hocc : ∀ c k, k < m - 1 → (u.getD k 0 = c ∨ l.getD k 0 = c) →
      1 ≤ charmap.getD c 0 ∧ charmap.getD c 0 ≤ m - 1 - k)
    (hnot : ∀ c, (∀ k, k < m - 1 → u.getD k 0 ≠ c ∧ l.getD k 0 ≠ c) → charmap.getD c 0 = 0) :
    ∃ b, contains_ins h u l m charmap = some b ∧
      (b = true ↔ ∃ j, j + m ≤ h.length ∧ equal_case_fold (substr h j m) u l = some true) := by
  have hm0 : m ≠ 0 := by omega
  simp only [contains_ins, hm0, if_false]
  rw [size_sub_of_le m 1 hm1 hm]
  exact contains_ins_loop_spec h u l m charmap hlen hm1 hocc hnot _ (m - 1) (Nat.le_refl _)
    (by omega) (fun j hj => by omega)

/-- C19: for a haystack of fewer than 2^63 bytes, a needle of size `m` from 1
up and a `charmap` that gives every byte found (in upper or lower form) at a
needle position `k` before the last one a shift between 1 and `m - 1 - k`,
and 0 to every byte not found there, `contains_ins` and `search_case_fold`
both return, and `contains_ins` is true exactly when `search_case_fold` is
not the size of the haystack. -/
theorem C19_contains_ins_agrees_with_search (h u l : List Nat) (m : Nat) (charmap : List Nat)
    (hlen : h.length < 2 ^ 63) (hm1 : 1 ≤ m) (hm : m < 2 ^ 64)
    (hocc : ∀ c k, k < m - 1 → (u.getD k 0 = c ∨ l.getD k 0 = c) →
      1 ≤ charmap.getD c 0 ∧ charmap.getD c 0 ≤ m - 1 - k)
    (hnot : ∀ c, (∀ k, k < m - 1 → u.getD k 0 ≠ c ∧ l.getD k 0 ≠ c) → charmap.getD c 0 = 0) :
    ∃ b r, contains_ins h u l m charmap = some b ∧ search_case_fold h u l m = some r ∧
      (b = true ↔ r ≠ h.length) := by
  obtain ⟨b, hb, hbiff⟩ := contains_ins_spec h u l m charmap hlen hm1 hm hocc hnot
  obtain ⟨r, hr, _, hcase⟩ := search_case_fold_spec h u l m
    (lt_trans hlen (by norm_num))
  refine ⟨b, r, hb, hr, ?_⟩
  rw [hbiff]
  rcases hcase with ⟨h1, h2, _⟩ | ⟨h1, h2⟩
  · exact iff_of_true ⟨r, h1, h2⟩ (by omega)
  · refine iff_of_false ?_ (by simp [h1])
    rintro ⟨j, hj, hmatch⟩
    exact h2 j hj hmatch

theorem C19_contains_ins_witness :
    ∃ b r,
      contains_ins [0x78, 0x41, 0x62, 0x63] [0x41, 0x42] [0x61, 0x62] 2
        ((List.replicate 0x41 0 ++ [1]) ++ (List.replicate 0x1F 0 ++ [1])) = some b ∧
      search_case_fold [0x78, 0x41, 0x62, 0x63] [0x41, 0x42] [0x61, 0x62] 2 = some r ∧
      (b = true ↔ r ≠ ([0x78, 0x41, 0x62, 0x63] : List Nat).length) :=
  C19_contains_ins_agrees_with_search [0x78, 0x41, 0x62, 0x63] [0x41, 0x42] [0x61, 0x62] 2
    ((List.replicate 0x41 0 ++ [1]) ++ (List.replicate 0x1F 0 ++ [1]))
    (by decide) (by decide) (by decide)
    (by
      intro c k hk hc
      have hk0 : k = 0 := by omega
      subst hk0
      rcases hc with hc | hc <;> subst hc <;> decide)
    (by
      intro c hc
      have h0 := hc 0 (by decide)
      have h1 : c ≠ 0x41 := fun e => h0.1 (by rw [e]; rfl)
      have h2 : c ≠ 0x61 := fun e => h0.2 (by rw [e]; rfl)
      rcases Nat.lt_or_ge c 0x62 with hlt | hge
      · have hall : ∀ d, d < 0x62 → d ≠ 0x41 → d ≠ 0x61 →
            ((List.replicate 0x41 0 ++ [1]) ++ (List.replicate 0x1F 0 ++ [1])).getD d 0 = 0 := by
          decide
        exact hall c hlt h1 h2
      · exact List.getD_eq_default _ _ (by simpa using hge))

set_option maxRecDepth 100000 in
theorem unicode_case_convert_examples :
    unicode_case_convert 0x41 false = 0x61 ∧ unicode_case_convert 0xC9 false = 0xE9 ∧
    unicode_case_convert 0x391 false = 0x3B1 ∧ unicode_case_convert 0x3FA false = 0x3FB ∧
    unicode_case_convert 0x400 false = 0x400 ∧ unicode_case_convert 0x410 false = 0x410 := by
  decide

theorem unicode_case_convert_above (c : Nat) (upper : Bool) (h : 1023 < c) :
    unicode_case_convert c upper = c := by
  simp [unicode_case_convert, h]

/-- C20: what the code does where the claim fails.  The table of
`unicode_case_convert` ends at code point 1023 (0x3FF): the Latin and Greek
examples are converted (U+0041 to U+0061, U+00C9 to U+00E9, U+0391 to U+03B1),
but every code point above 1023 is returned untouched, so the Cyrillic capital
U+0410, which lies in 0..0x6ff and has the lower case U+0430, comes back as
U+0410. -/
theorem C20_unicode_case_convert_stops_at_1023 :
    unicode_case_convert 0x41 false = 0x61 ∧ unicode_case_convert 0xC9 false = 0xE9 ∧
    unicode_case_convert 0x391 false = 0x3B1 ∧
    unicode_case_convert 0x410 false = 0x410 ∧ unicode_case_convert 0x410 false ≠ 0x430 ∧
    ∀ c, 0x3FF < c → c ≤ 0x6FF → unicode_case_convert c false = c := by
  refine ⟨unicode_case_convert_examples.1, unicode_case_convert_examples.2.1,
    unicode_case_convert_examples.2.2.1, unicode_case_convert_above _ _ (by decide), ?_, ?_⟩
  · rw [unicode_case_convert_above _ _ (by decide)]
    decide
  · intro c hc _
    exact unicode_case_convert_above c false hc

set_option maxRecDepth 100000 in
/-- An entry of the table that is not 0 names a code point whose own entry in
the same direction is 0. -/
theorem upper_lower_closed :
    ∀ x ∈ upper_lower,
      (x.1 = 0 ∨ (upper_lower.getD x.1 (0, 0)).1 = 0) ∧
      (x.2 = 0 ∨ (upper_lower.getD x.2 (0, 0)).2 = 0) := by
  decide!

set_option maxRecDepth 100000 in
theorem upper_lower_length : upper_lower.length = 1024 := by
  decide!

theorem upper_lower_getD_mem (c : Nat) (h : c < 1024) :
    upper_lower.getD c (0, 0) ∈ upper_lower := by
  have hl : c < upper_lower.length := by
    rw [upper_lower_length]
    exact h
  rw [List.getD_eq_getElem _ _ hl]
  exact List.getElem_mem hl

theorem unicode_case_convert_of_zero (c : Nat) (d : Bool)
    (hz : (if d = true then (upper_lower.getD c (0, 0)).1 else (upper_lower.getD c (0, 0)).2)
      = 0) :
    unicode_case_convert c d = c := by
  simp only [unicode_case_convert, hz, if_true, ite_self]

theorem unicode_case_convert_of_ne (c : Nat) (d : Bool) (hc : ¬ c > 1023)
    (hz : (if d = true then (upper_lower.getD c (0, 0)).1 else (upper_lower.getD c (0, 0)).2)
      ≠ 0) :
    unicode_case_convert c d =
      (if d = true then (upper_lower.getD c (0, 0)).1 else (upper_lower.getD c (0, 0)).2) := by
  simp only [unicode_case_convert, hc, hz, if_false]

theorem unicode_case_convert_idem (c : Nat) (d : Bool) :
    unicode_case_convert (unicode_case_convert c d) d = unicode_case_convert c d := by
  by_cases hc : c > 1023
  · rw [unicode_case_convert_above c d hc, unicode_case_convert_above c d hc]
  · by_cases hz : (if d = true then (upper_lower.getD c (0, 0)).1
        else (upper_lower.getD c (0, 0)).2) = 0
    · rw [unicode_case_convert_of_zero c d hz, unicode_case_convert_of_zero c d hz]
    · rw [unicode_case_convert_of_ne c d hc hz]
      have hmem := upper_lower_closed _ (upper_lower_getD_mem c (by omega))
      apply unicode_case_convert_of_zero
      cases d
      · simp only [Bool.false_eq_true, if_false] at hz ⊢
        exact hmem.2.resolve_left hz
      · simp only [if_true] at hz ⊢
        exact hmem.1.resolve_left hz

/-- C21: for every code point `c` and either direction `d`, converting the
result of `unicode_case_convert c d` once more in the same direction gives the
same result, so an input that is already in the requested case comes back
untouched; and every code point above 0x6ff comes back untouched. -/
theorem C21_unicode_case_convert_idempotent (c : Nat) (d : Bool) :
    unicode_case_convert (unicode_case_convert c d) d = unicode_case_convert c d ∧
    (0x6ff < c → unicode_case_convert c d = c) := by
  refine ⟨unicode_case_convert_idem c d, ?_⟩
  intro h
  exact unicode_case_convert_above c d (by omega)

/-- C23: what the code does where the claim fails.  For the text "a" and the
pattern "a**" the wildcard matching of the claim holds, both `*` taking the
empty run, but `string_like_ins` returns `false` in its second iteration: once
the text is exhausted the code accepts the end of the pattern or one last `*`
and nothing else, and no `*` has been pushed to come back to.  The same
happens for the empty text and the pattern "**".  For the pattern "a*" the
two agree. -/
theorem C23_string_like_ins_rejects_adjacent_stars (fuel : Nat) :
    wildcard_match [0x61, 0x2A, 0x2A] [0x61] = true ∧
    string_like_ins (fuel + 2) (some [0x61]) (some [0x61, 0x2A, 0x2A]) = some false ∧
    wildcard_match [0x2A, 0x2A] [] = true ∧
    string_like_ins (fuel + 1) (some []) (some [0x2A, 0x2A]) = some false ∧
    wildcard_match [0x61, 0x2A] [0x61] = true ∧
    string_like_ins (fuel + 2) (some [0x61]) (some [0x61, 0x2A]) = some true :=
  ⟨by decide, rfl, by decide, rfl, by decide, rfl⟩

theorem matchlike_ins_loop_next (text pattern_upper pattern_lower : List Nat) (fuel : Nat)
    (s s' : MatchState) (h : matchlike_ins_step text pattern_upper pattern_lower s = .inl s') :
    matchlike_ins_loop text pattern_upper pattern_lower (fuel + 1) s =
      matchlike_ins_loop text pattern_upper pattern_lower fuel s' := by
  simp only [matchlike_ins_loop, h]

/-- The six states that the loop of `matchlike_ins` runs through again and
again on the text "foox" and the pattern "*foo*bar": from none of them does it
return, whatever the number of iterations. -/
theorem matchlike_ins_foox_cycle :
    ∀ fuel : Nat,
      matchlike_ins_loop [0x66, 0x6F, 0x6F, 0x78] [0x2A, 0x66, 0x6F, 0x6F, 0x2A, 0x62, 0x61, 0x72]
        [0x2A, 0x46, 0x4F, 0x4F, 0x2A, 0x42, 0x41, 0x52] fuel ⟨0, 1, [0], [1]⟩ = none ∧
      matchlike_ins_loop [0x66, 0x6F, 0x6F, 0x78] [0x2A, 0x66, 0x6F, 0x6F, 0x2A, 0x62, 0x61, 0x72]
        [0x2A, 0x46, 0x4F, 0x4F, 0x2A, 0x42, 0x41, 0x52] fuel ⟨1, 2, [0], [1]⟩ = none ∧
      matchlike_ins_loop [0x66, 0x6F, 0x6F, 0x78] [0x2A, 0x66, 0x6F, 0x6F, 0x2A, 0x62, 0x61, 0x72]
        [0x2A, 0x46, 0x4F, 0x4F, 0x2A, 0x42, 0x41, 0x52] fuel ⟨2, 3, [0], [1]⟩ = none ∧
      matchlike_ins_loop [0x66, 0x6F, 0x6F, 0x78] [0x2A, 0x66, 0x6F, 0x6F, 0x2A, 0x62, 0x61, 0x72]
        [0x2A, 0x46, 0x4F, 0x4F, 0x2A, 0x42, 0x41, 0x52] fuel ⟨3, 4, [0], [1]⟩ = none ∧
      matchlike_ins_loop [0x66, 0x6F, 0x6F, 0x78] [0x2A, 0x66, 0x6F, 0x6F, 0x2A, 0x62, 0x61, 0x72]
        [0x2A, 0x46, 0x4F, 0x4F, 0x2A, 0x42, 0x41, 0x52] fuel ⟨3, 5, [0, 3], [1, 5]⟩ = none ∧
      matchlike_ins_loop [0x66, 0x6F, 0x6F, 0x78] [0x2A, 0x66, 0x6F, 0x6F, 0x2A, 0x62, 0x61, 0x72]
        [0x2A, 0x46, 0x4F, 0x4F, 0x2A, 0x42, 0x41, 0x52] fuel ⟨4, 5, [0, 4], [1, 5]⟩ = none
  | 0 => ⟨rfl, rfl, rfl, rfl, rfl, rfl⟩
  | fuel + 1 => by
    obtain ⟨h0, h1, h2, h3, h4, h5⟩ := matchlike_ins_foox_cycle fuel
    refine ⟨?_, ?_, ?_, ?_, ?_, ?_⟩
    · rw [matchlike_ins_loop_next _ _ _ _ _ ⟨1, 2, [0], [1]⟩ (by decide)]
      exact h1
    · rw [matchlike_ins_loop_next _ _ _ _ _ ⟨2, 3, [0], [1]⟩ (by decide)]
      exact h2
    · rw [matchlike_ins_loop_next _ _ _ _ _ ⟨3, 4, [0], [1]⟩ (by decide)]
      exact h3
    · rw [matchlike_ins_loop_next _ _ _ _ _ ⟨3, 5, [0, 3], [1, 5]⟩ (by decide)]
      exact h4
    · rw [matchlike_ins_loop_next _ _ _ _ _ ⟨4, 5, [0, 4], [1, 5]⟩ (by decide)]
      exact h5
    · rw [matchlike_ins_loop_next _ _ _ _ _ ⟨0, 1, [0], [1]⟩ (by decide)]
      exact h0

/-- C24: what the code does where the claim fails.  For the text "foox" and the
pattern "*foo*bar" the loop of `matchlike_ins` reaches no return statement,
however many iterations it is given, called directly or through
`string_like_ins`.  After the first iteration the variables are `p1 = 0`,
`p2 = 1`, `textpos = [0]`, `patternpos = [1]`; six iterations later, the
last of which pops the second `*` because the text is exhausted and sets `p1`
to `textpos.back()` without advancing it, they have these values again: the
seven iterations are listed one by one. -/
theorem C24_matchlike_ins_never_returns (fuel : Nat) :
    matchlike_ins fuel [0x66, 0x6F, 0x6F, 0x78] [0x2A, 0x66, 0x6F, 0x6F, 0x2A, 0x62, 0x61, 0x72]
      [0x2A, 0x46, 0x4F, 0x4F, 0x2A, 0x42, 0x41, 0x52] = none ∧
    string_like_ins fuel (some [0x66, 0x6F, 0x6F, 0x78])
      (some [0x2A, 0x66, 0x6F, 0x6F, 0x2A, 0x62, 0x61, 0x72]) = none ∧
    matchlike_ins_step [0x66, 0x6F, 0x6F, 0x78] [0x2A, 0x66, 0x6F, 0x6F, 0x2A, 0x62, 0x61, 0x72]
      [0x2A, 0x46, 0x4F, 0x4F, 0x2A, 0x42, 0x41, 0x52] ⟨0, 0, [], []⟩ =
      .inl ⟨0, 1, [0], [1]⟩ ∧
    matchlike_ins_step [0x66, 0x6F, 0x6F, 0x78] [0x2A, 0x66, 0x6F, 0x6F, 0x2A, 0x62, 0x61, 0x72]
      [0x2A, 0x46, 0x4F, 0x4F, 0x2A, 0x42, 0x41, 0x52] ⟨0, 1, [0], [1]⟩ =
      .inl ⟨1, 2, [0], [1]⟩ ∧
    matchlike_ins_step [0x66, 0x6F, 0x6F, 0x78] [0x2A, 0x66, 0x6F, 0x6F, 0x2A, 0x62, 0x61, 0x72]
      [0x2A, 0x46, 0x4F, 0x4F, 0x2A, 0x42, 0x41, 0x52] ⟨1, 2, [0], [1]⟩ =
      .inl ⟨2, 3, [0], [1]⟩ ∧
    matchlike_ins_step [0x66, 0x6F, 0x6F, 0x78] [0x2A, 0x66, 0x6F, 0x6F, 0x2A, 0x62, 0x61, 0x72]
      [0x2A, 0x46, 0x4F, 0x4F, 0x2A, 0x42, 0x41, 0x52] ⟨2, 3, [0], [1]⟩ =
      .inl ⟨3, 4, [0], [1]⟩ ∧
    matchlike_ins_step [0x66, 0x6F, 0x6F, 0x78] [0x2A, 0x66, 0x6F, 0x6F, 0x2A, 0x62, 0x61, 0x72]
      [0x2A, 0x46, 0x4F, 0x4F, 0x2A, 0x42, 0x41, 0x52] ⟨3, 4, [0], [1]⟩ =
      .inl ⟨3, 5, [0, 3], [1, 5]⟩ ∧
    matchlike_ins_step [0x66, 0x6F, 0x6F, 0x78] [0x2A, 0x66, 0x6F, 0x6F, 0x2A, 0x62, 0x61, 0x72]
      [0x2A, 0x46, 0x4F, 0x4F, 0x2A, 0x42, 0x41, 0x52] ⟨3, 5, [0, 3], [1, 5]⟩ =
      .inl ⟨4, 5, [0, 4], [1, 5]⟩ ∧
    matchlike_ins_step [0x66, 0x6F, 0x6F, 0x78] [0x2A, 0x66, 0x6F, 0x6F, 0x2A, 0x62, 0x61, 0x72]
      [0x2A, 0x46, 0x4F, 0x4F, 0x2A, 0x42, 0x41, 0x52] ⟨4, 5, [0, 4], [1, 5]⟩ =
      .inl ⟨0, 1, [0], [1]⟩ := by
  have hm : matchlike_ins fuel [0x66, 0x6F, 0x6F, 0x78]
      [0x2A, 0x66, 0x6F, 0x6F, 0x2A, 0x62, 0x61, 0x72]
      [0x2A, 0x46, 0x4F, 0x4F, 0x2A, 0x42, 0x41, 0x52] = none := by
    cases fuel with
    | zero => rfl
    | succ n =>
      simp only [matchlike_ins]
      rw [matchlike_ins_loop_next _ _ _ _ _ ⟨0, 1, [0], [1]⟩ (by decide)]
      exact (matchlike_ins_foox_cycle n).1
  refine ⟨hm, ?_, ?_⟩
  · have hl : c_str (case_map_ignore_errors [0x2A, 0x66, 0x6F, 0x6F, 0x2A, 0x62, 0x61, 0x72] false)
        = [0x2A, 0x66, 0x6F, 0x6F, 0x2A, 0x62, 0x61, 0x72] := by decide
    have hu : c_str (case_map_ignore_errors [0x2A, 0x66, 0x6F, 0x6F, 0x2A, 0x62, 0x61, 0x72] true)
        = [0x2A, 0x46, 0x4F, 0x4F, 0x2A, 0x42, 0x41, 0x52] := by decide
    simp only [string_like_ins, hl, hu]
    exact hm
  · exact ⟨by decide, by decide, by decide, by decide, by decide, by decide, by decide⟩

end Realm
